import Mathlib

/-!
# SiegeScope round analytics: `calculateAdvancedStats`

A shallow embedding of `calculateAdvancedStats`, `recordMultiKill` and
`getPlayerTeam` of `parser/parser.go`, and theorems about the statistics they
derive from one round's roster, base statistics and event list.

Conventions of the embedding.

* Go maps are total functions: `map[string]*advancedPlayerStats` is
  `String → Option advancedPlayerStats` (`none` is the nil pointer of a missing
  key), `map[int][]string` is `Int → List String` and `map[string][]float64`
  is `String → List ℚ` (a missing key reads as the empty slice, as in Go).
* A finite `float64` timestamp is the rational it denotes. The only
  arithmetic on timestamps is the subtraction in `eventTime - rd.time > 3.0`
  and `timestamps[i]-timestamps[i-1] <= 10.0`; it is `f64Sub`, the exact
  difference rounded to the nearest `float64`, ties to even, as IEEE 754
  prescribes (`f64Round`). The constants `3.0` and `10.0` are exact.
* Go `int` is the 64-bit two's-complement integer: the one subtraction on a
  value taken from the input, `1 - killerTeam`, wraps (`wrapInt64`). Counters
  are `Int`; no counter can reach `2^63` on an event list that fits in memory,
  so their wrap-around is not modelled.
* The types `dissect.Player`, `dissect.MatchUpdate` and
  `dissect.PlayerRoundStats` are declared in the replay-decoding library; the
  structures below carry the fields the parser reads, with the types the
  parser uses them at.
-/

namespace SiegeScope

/-- Roster entry `dissect.Player`: the parser reads `Username` and
`TeamIndex` (a Go `int`: it is a key of `map[int][]string` and the return
value of `getPlayerTeam`). -/
structure Player where
  Username : String
  TeamIndex : Int
deriving DecidableEq, Repr

/-- Event `dissect.MatchUpdate`. `TypeString` is the value of
`event.Type.String()`, the only way the parser looks at the event type. -/
structure MatchUpdate where
  TypeString : String
  Username : String
  Target : String
  TimeInSeconds : ℚ
deriving DecidableEq, Repr

/-- Base statistics `dissect.PlayerRoundStats` of one player. -/
structure PlayerRoundStats where
  Username : String
  Kills : Int
  Died : Bool
  Assists : Int
  Headshots : Int
  HeadshotPercentage : ℚ
deriving DecidableEq, Repr

/-- The struct `advancedPlayerStats` of `parser.go`. -/
structure advancedPlayerStats where
  Username : String
  EntryKill : Bool := false
  EntryDeath : Bool := false
  DefuserPlants : Int := 0
  DefuserDefuses : Int := 0
  DefuserPickups : Int := 0
  PlantDenials : Int := 0
  ClutchAttempts : Int := 0
  ClutchWins : Int := 0
  Clutch1v1 : Bool := false
  Clutch1v2 : Bool := false
  Clutch1v3 : Bool := false
  Clutch1v4 : Bool := false
  Clutch1v5 : Bool := false
  DoubleKills : Int := 0
  TripleKills : Int := 0
  QuadKills : Int := 0
  Ace : Bool := false
  TradeKills : Int := 0
  TradeDeaths : Int := 0
  SurvivalTime : ℚ := 0
  Survived : Bool := false
  KOST : Bool := false
deriving DecidableEq, Repr

/-- The local struct `deathEvent` of `calculateAdvancedStats`. -/
structure deathEvent where
  victim : String
  killer : String
  time : ℚ
deriving DecidableEq, Repr

/-- The map `stats` of `calculateAdvancedStats`. -/
abbrev StatsMap := String → Option advancedPlayerStats

/-! ## `float64` subtraction and `int` subtraction -/

/-- The number of times `n` can be halved before it drops below 2, which is
`⌊log₂ n⌋` for `n ≥ 1`; `fuel` bounds the number of halvings. -/
def log2Fuel : Nat → Nat → Nat
  | 0, _ => 0
  | fuel + 1, n => if 2 ≤ n then log2Fuel fuel (n / 2) + 1 else 0

/-- The position of the leading bit of `n`: `⌊log₂ n⌋` for `n ≥ 1`. -/
def bitLog (n : Nat) : Nat :=
  log2Fuel n n

/-- The power `2^e` for an integer exponent. -/
def twoPow (e : Int) : ℚ :=
  if 0 ≤ e then ((2 ^ e.toNat : Nat) : ℚ) else 1 / ((2 ^ (-e).toNat : Nat) : ℚ)

/-- The binary exponent of a positive rational: `⌊log₂ x⌋`. -/
def floorLog2 (x : ℚ) : Int :=
  let e0 : Int := (bitLog x.num.natAbs : Int) - (bitLog x.den : Int)
  if twoPow e0 ≤ x then e0 else e0 - 1

/-- Rounding to the nearest integer, a tie going to the even neighbour. -/
def roundHalfEven (x : ℚ) : Int :=
  let f := ⌊x⌋
  let d := x - f
  if d < 1 / 2 then f else if 1 / 2 < d then f + 1 else if f % 2 = 0 then f else f + 1

/-- Rounding of an exact value to `float64` (IEEE 754 binary64, round to
nearest, ties to even): the value is rounded to a multiple of the spacing
`2^(e-52)` of its binade `[2^e, 2^(e+1))`, with `e` no smaller than `-1022`
(subnormals). A result of magnitude `2^1024` or more stands for the overflow
to `±Inf`; it compares with `3.0` and `10.0` as `±Inf` does. -/
def f64Round (x : ℚ) : ℚ :=
  if x = 0 then 0
  else
    let e := max (floorLog2 |x|) (-1022)
    let u := twoPow (e - 52)
    (roundHalfEven (x / u) : ℚ) * u

/-- The `float64` subtraction `a - b` of Go. -/
def f64Sub (a b : ℚ) : ℚ :=
  f64Round (a - b)

/-- The result of an `int` operation on a 64-bit platform: the exact result
wrapped into `[-2^63, 2^63)`. -/
def wrapInt64 (z : Int) : Int :=
  (z + 2 ^ 63) % 2 ^ 64 - 2 ^ 63

/-- The Go idiom `if stats[k] != nil { stats[k].field = ... }`: the entry of
key `k` is rewritten by `f` when it exists, nothing happens otherwise. -/
def updateStat (stats : StatsMap) (k : String)
    (f : advancedPlayerStats → advancedPlayerStats) : StatsMap :=
  fun u => if u = k then (stats u).map f else stats u

/-- `getPlayerTeam`: the team index of the first roster entry with that
username, `-1` when there is none. -/
def getPlayerTeam (username : String) : List Player → Int
  | [] => -1
  | player :: rest =>
    if player.Username = username then player.TeamIndex
    else getPlayerTeam username rest

/-- `recordMultiKill`: the tally of one closed streak of `count` kills; a nil
`stat` is left alone. -/
def recordMultiKill (stat : Option advancedPlayerStats) (count : Int) :
    Option advancedPlayerStats :=
  match stat with
  | none => none
  | some s =>
    if count ≥ 5 then
      some { s with Ace := true, QuadKills := s.QuadKills + 1,
                    TripleKills := s.TripleKills + 1, DoubleKills := s.DoubleKills + 1 }
    else if count = 4 then
      some { s with QuadKills := s.QuadKills + 1,
                    TripleKills := s.TripleKills + 1, DoubleKills := s.DoubleKills + 1 }
    else if count = 3 then
      some { s with TripleKills := s.TripleKills + 1, DoubleKills := s.DoubleKills + 1 }
    else if count = 2 then
      some { s with DoubleKills := s.DoubleKills + 1 }
    else some s

/-- The variables of `calculateAdvancedStats` that live across the event
loop. -/
structure loopState where
  stats : StatsMap
  alivePlayers : Int → List String
  killCounts : String → Int
  killTimestamps : String → List ℚ
  recentDeaths : List deathEvent

/-- The two initialisation loops over `players` (lines 482-493) and the empty
trackers: one zero entry per roster username, and each username appended to
the alive list of its team. -/
def initState (players : List Player) : loopState :=
  { stats := players.foldl
      (fun stats player u =>
        if u = player.Username then some { Username := player.Username } else stats u)
      (fun _ => none)
    alivePlayers := players.foldl
      (fun alive player team =>
        if team = player.TeamIndex then alive team ++ [player.Username] else alive team)
      (fun _ => [])
    killCounts := fun _ => 0
    killTimestamps := fun _ => []
    recentDeaths := [] }

/-- `stats[killer].TradeKills++`. -/
def incTradeKills (s : advancedPlayerStats) : advancedPlayerStats :=
  { s with TradeKills := s.TradeKills + 1 }

/-- `stats[victim].TradeDeaths++`. -/
def incTradeDeaths (s : advancedPlayerStats) : advancedPlayerStats :=
  { s with TradeDeaths := s.TradeDeaths + 1 }

/-- The trade loop `for i := len(recentDeaths) - 1; i >= 0; i--` (lines
532-551). The first argument is `i + 1`, so `0` is the loop exit; the result
is the pair `(stats, recentDeaths)` after the loop. The slice is only
reassigned right before `break`, so `recentDeaths[i]` always reads the slice
the loop started with; the loop starts at `len(recentDeaths) - 1`, so the
index is always in range and the `none` branch is never taken. The
difference `eventTime - rd.time` is a `float64` subtraction. -/
def tradeLoop (killer victim : String) (eventTime : ℚ) :
    Nat → StatsMap → List deathEvent → StatsMap × List deathEvent
  | 0, stats, recentDeaths => (stats, recentDeaths)
  | i + 1, stats, recentDeaths =>
    match recentDeaths[i]? with
    | none => (stats, recentDeaths)
    | some rd =>
      let timeDiff := f64Sub eventTime rd.time
      if timeDiff > 3 then
        (stats, recentDeaths.drop (i + 1))
      else if rd.killer = victim ∧ killer ≠ victim then
        tradeLoop killer victim eventTime i
          (updateStat (updateStat stats killer incTradeKills) victim incTradeDeaths)
          recentDeaths
      else
        tradeLoop killer victim eventTime i stats recentDeaths

/-- The body of `if aliveOnTeam == 1 && aliveEnemies > 0` for a non-nil
`stats[killer]` (lines 570-587). -/
def clutchUpdate (aliveEnemies : Nat) (s : advancedPlayerStats) : advancedPlayerStats :=
  let s := { s with ClutchAttempts := s.ClutchAttempts + 1 }
  let s :=
    if aliveEnemies = 1 then { s with Clutch1v1 := true }
    else if aliveEnemies = 2 then { s with Clutch1v2 := true }
    else if aliveEnemies = 3 then { s with Clutch1v3 := true }
    else if aliveEnemies = 4 then { s with Clutch1v4 := true }
    else if aliveEnemies = 5 then { s with Clutch1v5 := true }
    else s
  if aliveEnemies = 1 then { s with ClutchWins := s.ClutchWins + 1 } else s

/-- The clutch check of a Kill event (lines 560-590), on the alive lists
after the victim's removal. `enemyTeam := 1 - killerTeam` is an `int`
subtraction and wraps. -/
def clutchCheck (players : List Player) (alivePlayers : Int → List String)
    (killer : String) (stats : StatsMap) : StatsMap :=
  let killerTeam := getPlayerTeam killer players
  if killerTeam ≠ -1 then
    let aliveOnTeam := (alivePlayers killerTeam).length
    let enemyTeam := wrapInt64 (1 - killerTeam)
    let aliveEnemies := (alivePlayers enemyTeam).length
    if aliveOnTeam = 1 ∧ aliveEnemies > 0 then
      updateStat stats killer (clutchUpdate aliveEnemies)
    else stats
  else stats

/-- The `case "Kill"` branch of the event loop (lines 512-590). The removal
loop deletes the first occurrence of the victim from every team's list. -/
def processKill (players : List Player) (st : loopState) (event : MatchUpdate) : loopState :=
  let killer := event.Username
  let victim := event.Target
  let eventTime := event.TimeInSeconds
  let alivePlayers := fun team => (st.alivePlayers team).erase victim
  let traded := tradeLoop killer victim eventTime st.recentDeaths.length st.stats st.recentDeaths
  { stats := clutchCheck players alivePlayers killer traded.1
    alivePlayers := alivePlayers
    killCounts := fun u => if u = killer then st.killCounts u + 1 else st.killCounts u
    killTimestamps := fun u =>
      if u = killer then st.killTimestamps u ++ [eventTime] else st.killTimestamps u
    recentDeaths := traded.2 ++ [{ victim := victim, killer := killer, time := eventTime }] }

/-- `stats[event.Username].DefuserPlants++`. -/
def incDefuserPlants (s : advancedPlayerStats) : advancedPlayerStats :=
  { s with DefuserPlants := s.DefuserPlants + 1 }

/-- `stats[event.Username].DefuserDefuses++`. -/
def incDefuserDefuses (s : advancedPlayerStats) : advancedPlayerStats :=
  { s with DefuserDefuses := s.DefuserDefuses + 1 }

/-- `stats[event.Username].DefuserPickups++`. -/
def incDefuserPickups (s : advancedPlayerStats) : advancedPlayerStats :=
  { s with DefuserPickups := s.DefuserPickups + 1 }

/-- One iteration of the event loop: the `switch eventType` (lines 509-606). -/
def processEvent (players : List Player) (st : loopState) (event : MatchUpdate) : loopState :=
  let eventType := event.TypeString
  if eventType = "Kill" then processKill players st event
  else if eventType = "DefuserPlantStart" ∨ eventType = "DefuserPlantComplete" then
    if event.Username ≠ "" then
      { st with stats := updateStat st.stats event.Username incDefuserPlants }
    else st
  else if eventType = "DefuserDisableStart" ∨ eventType = "DefuserDisableComplete" then
    if event.Username ≠ "" then
      { st with stats := updateStat st.stats event.Username incDefuserDefuses }
    else st
  else if eventType = "DefuserPickedUp" then
    if event.Username ≠ "" then
      { st with stats := updateStat st.stats event.Username incDefuserPickups }
    else st
  else st

/-- The event loop `for _, event := range events` (lines 508-607). -/
def eventLoop (players : List Player) (events : List MatchUpdate) : loopState :=
  events.foldl (processEvent players) (initState players)

/-- The inner loop `for i := 1; i < len(timestamps); i++` of the multi-kill
pass (lines 616-623), walking the timestamps after `prev = timestamps[i-1]`;
returns the entry and `consecutiveKills` at loop exit. The gap
`timestamps[i]-timestamps[i-1]` is a `float64` subtraction. -/
def multiKillWalk (stat : Option advancedPlayerStats) (consecutiveKills : Int) (prev : ℚ) :
    List ℚ → Option advancedPlayerStats × Int
  | [] => (stat, consecutiveKills)
  | t :: rest =>
    if f64Sub t prev ≤ 10 then multiKillWalk stat (consecutiveKills + 1) t rest
    else multiKillWalk (recordMultiKill stat consecutiveKills) 1 t rest

/-- `stats[username].Ace = true`. -/
def setAce (s : advancedPlayerStats) : advancedPlayerStats :=
  { s with Ace := true }

/-- One iteration of `for username, timestamps := range killTimestamps`
(lines 610-630) on the entry `stat = stats[username]`. -/
def multiKillFor (stat : Option advancedPlayerStats) (timestamps : List ℚ) (killCount : Int) :
    Option advancedPlayerStats :=
  match timestamps with
  | [] => stat
  | [_] => stat
  | first :: rest =>
    let walked := multiKillWalk stat 1 first rest
    let stat := recordMultiKill walked.1 walked.2
    if killCount ≥ 5 then stat.map setAce else stat

/-- The multi-kill pass (lines 609-630). Each iteration reads and writes the
entry of its own username only, so the map's iteration order is immaterial
and the pass is taken key by key. -/
def multiKillPass (st : loopState) : StatsMap :=
  fun u => multiKillFor (st.stats u) (st.killTimestamps u) (st.killCounts u)

/-- `stats[firstKill.Username].EntryKill = true`. -/
def setEntryKill (s : advancedPlayerStats) : advancedPlayerStats :=
  { s with EntryKill := true }

/-- `stats[firstKill.Target].EntryDeath = true`. -/
def setEntryDeath (s : advancedPlayerStats) : advancedPlayerStats :=
  { s with EntryDeath := true }

/-- The entry-duel pass (lines 632-650). -/
def entryPass (events : List MatchUpdate) (stats : StatsMap) : StatsMap :=
  match events.find? (fun event => event.TypeString = "Kill") with
  | none => stats
  | some firstKill =>
    updateStat (updateStat stats firstKill.Username setEntryKill) firstKill.Target setEntryDeath

/-- The survival pass (lines 652-658). -/
def survivalPass (baseStats : List PlayerRoundStats) (stats : StatsMap) : StatsMap :=
  baseStats.foldl
    (fun stats baseStat =>
      updateStat stats baseStat.Username (fun stat => { stat with Survived := !baseStat.Died }))
    stats

/-- The KOST pass (lines 660-675): every entry is finalised from the first
base-stats row with its username. -/
def kostPass (baseStats : List PlayerRoundStats) (stats : StatsMap) : StatsMap :=
  fun username =>
    match baseStats.find? (fun baseStat => baseStat.Username = username) with
    | none => stats username
    | some baseStat =>
      (stats username).map fun stat =>
        let hasKill := decide (baseStat.Kills > 0)
        let hasObjective := decide (stat.DefuserPlants > 0) || decide (stat.DefuserDefuses > 0)
        let survived := !baseStat.Died
        let traded := decide (stat.TradeDeaths > 0)
        { stat with KOST := hasKill || hasObjective || survived || traded, Survived := survived }

/-- `calculateAdvancedStats` (lines 479-679). -/
def calculateAdvancedStats (events : List MatchUpdate) (players : List Player)
    (baseStats : List PlayerRoundStats) : StatsMap :=
  kostPass baseStats
    (survivalPass baseStats (entryPass events (multiKillPass (eventLoop players events))))

/-- A Kill event `Kill(killer, victim, t)`. -/
def kill (killer victim : String) (t : ℚ) : MatchUpdate :=
  { TypeString := "Kill", Username := killer, Target := victim, TimeInSeconds := t }

/-! ## Frames: what an update leaves alone (definitions) -/

/-- The projection `proj` does not see the update `f`. -/
def Frame {β : Type} (proj : advancedPlayerStats → β) (f : advancedPlayerStats → advancedPlayerStats) :
    Prop :=
  ∀ s, proj (f s) = proj s

/-- Fields that the entry, survival and KOST passes leave alone. -/
structure PostFrame {β : Type} (proj : advancedPlayerStats → β) : Prop where
  entryKill : Frame proj setEntryKill
  entryDeath : Frame proj setEntryDeath
  survived : ∀ b, Frame proj (fun stat => { stat with Survived := b })
  kost : ∀ b c, Frame proj (fun stat => { stat with KOST := b, Survived := c })

/-- Fields that the multi-kill pass leaves alone. -/
structure MultiFrame {β : Type} (proj : advancedPlayerStats → β) : Prop where
  record : ∀ stat count, (recordMultiKill stat count).map proj = stat.map proj
  ace : Frame proj setAce

/-- Fields that the objective events leave alone. -/
structure ObjectiveFrame {β : Type} (proj : advancedPlayerStats → β) : Prop where
  plants : Frame proj incDefuserPlants
  defuses : Frame proj incDefuserDefuses
  pickups : Frame proj incDefuserPickups

/-- Fields that the event loop leaves alone. -/
structure LoopFrame {β : Type} (proj : advancedPlayerStats → β) : Prop where
  tradeKills : Frame proj incTradeKills
  tradeDeaths : Frame proj incTradeDeaths
  clutch : ∀ n, Frame proj (clutchUpdate n)
  objective : ObjectiveFrame proj

/-! ## The trade window (definitions) -/

/-- The negation of the eviction test `timeDiff > 3.0`, with `timeDiff` the
`float64` difference `eventTime - rd.time`. -/
def inWindow (eventTime : ℚ) (rd : deathEvent) : Bool :=
  !decide (f64Sub eventTime rd.time > 3)

/-- The entries the trade loop started at index `n - 1` looks at before it
breaks: the run of in-window entries at the newest end of the first `n`. -/
def tradeWindow (eventTime : ℚ) (recentDeaths : List deathEvent) (n : Nat) : List deathEvent :=
  ((recentDeaths.take n).reverse).takeWhile (inWindow eventTime)

/-- The two increments of one recognised trade. -/
def tradeHit (killer victim : String) (stats : StatsMap) : StatsMap :=
  updateStat (updateStat stats killer incTradeKills) victim incTradeDeaths

/-- The number of entries of `window` that the test
`rd.killer == victim && killer != victim` accepts. -/
def tradeHits (killer victim : String) (window : List deathEvent) : Nat :=
  window.countP (fun rd => decide (rd.killer = victim ∧ killer ≠ victim))

/-! ## The roster and the Kill events (definitions) -/

/-- The usernames of the roster, in roster order. -/
def rosterNames (players : List Player) : List String :=
  players.map (·.Username)

/-- The event is a Kill event. -/
def isKill (e : MatchUpdate) : Bool :=
  decide (e.TypeString = "Kill")

/-- The Kill events of the list, in list order. -/
def killEvents (events : List MatchUpdate) : List MatchUpdate :=
  events.filter isKill

/-- The record a Kill event appends to `recentDeaths`. -/
def deathOf (e : MatchUpdate) : deathEvent :=
  { victim := e.Target, killer := e.Username, time := e.TimeInSeconds }

/-- The Kill events carry non-decreasing times. -/
def killTimesOrdered (events : List MatchUpdate) : Prop :=
  (killEvents events).Pairwise (fun a b => a.TimeInSeconds ≤ b.TimeInSeconds)

instance (events : List MatchUpdate) : Decidable (killTimesOrdered events) := by
  unfold killTimesOrdered; infer_instance

/-- The kill timeline of `P`: the times of the Kill events whose killer is
`P`, in event order. -/
def killTimes (P : String) (events : List MatchUpdate) : List ℚ :=
  ((killEvents events).filter (fun e => decide (e.Username = P))).map (·.TimeInSeconds)

/-- The victims of the Kill events, in event order. -/
def victims (events : List MatchUpdate) : List String :=
  (killEvents events).map (·.Target)

/-! ## The all-pairs definition of trades -/

/-- The later Kill event `b` trades the earlier Kill event `a`: `b` kills the
killer of `a`, is not a self-kill, and comes at most 3.0 s after `a`, the gap
being the `float64` difference of the two times as the program computes
it. -/
def tradeTest (a b : MatchUpdate) : Bool :=
  isKill a && isKill b && decide (b.Target = a.Username) && decide (b.Username ≠ b.Target)
    && decide (f64Sub b.TimeInSeconds a.TimeInSeconds ≤ 3)

/-- The pair of positions `(i, j)` is a trade whose later event satisfies
`sel`. -/
def tradePair (sel : MatchUpdate → Bool) (events : List MatchUpdate) (i j : Nat) : Bool :=
  match events[i]?, events[j]? with
  | some a, some b => tradeTest a b && sel b
  | _, _ => false

/-- The number of pairs `i < j` of positions that are a trade whose later
event satisfies `sel`. -/
def countTradePairs (sel : MatchUpdate → Bool) (events : List MatchUpdate) : Nat :=
  ((List.range events.length).map fun j =>
    (List.range j).countP fun i => tradePair sel events i j).sum

/-- All-pairs definition of the trade kills of `P`: the trades whose later
kill is made by `P`. -/
def naiveTradeKills (events : List MatchUpdate) (P : String) : Nat :=
  countTradePairs (fun b => decide (b.Username = P)) events

/-- All-pairs definition of the trade deaths of `P`: the trades whose later
kill has victim `P`. -/
def naiveTradeDeaths (events : List MatchUpdate) (P : String) : Nat :=
  countTradePairs (fun b => decide (b.Target = P)) events

/-- The trade test with the gap read as the exact difference of the two
times, `time_j - time_i ≤ 3.0` over the rationals: what the all-pairs
definition would be without `float64` rounding. -/
def exactTradeTest (a b : MatchUpdate) : Bool :=
  isKill a && isKill b && decide (b.Target = a.Username) && decide (b.Username ≠ b.Target)
    && decide (b.TimeInSeconds - a.TimeInSeconds ≤ 3)

/-- The number of pairs `i < j` of positions that are a trade on exact gaps
whose later kill is made by `P`. -/
def exactTradeKills (events : List MatchUpdate) (P : String) : Nat :=
  ((List.range events.length).map fun j =>
    (List.range j).countP fun i =>
      match events[i]?, events[j]? with
      | some a, some b => exactTradeTest a b && decide (b.Username = P)
      | _, _ => false).sum

/-! ## The streaks of a kill timeline -/

/-- The multi-kill tallies of an entry. -/
def multiView (s : advancedPlayerStats) : Int × Int × Int × Bool :=
  (s.DoubleKills, s.TripleKills, s.QuadKills, s.Ace)

/-- The maximal streaks of a kill timeline: the timeline is cut exactly
between two adjacent kills that are more than 10.0 s apart, the gap being the
`float64` difference of the two times as the program computes it. -/
def streaks : List ℚ → List (List ℚ)
  | [] => []
  | [a] => [[a]]
  | a :: b :: rest =>
    match streaks (b :: rest) with
    | [] => [[a]]
    | s :: ss => if f64Sub b a ≤ 10 then (a :: s) :: ss else [a] :: s :: ss

/-- The lengths of the streaks, as the `count` arguments of `recordMultiKill`. -/
def streakLengths (timestamps : List ℚ) : List Int :=
  (streaks timestamps).map (fun s => (s.length : Int))

/-- The number of streaks of the timeline with at least `k` kills. -/
def streaksOfLength (k : Nat) (timestamps : List ℚ) : Nat :=
  (streaks timestamps).countP (fun s => decide (k ≤ s.length))

/-! ## Kill counts -/

/-- The number of Kill events whose killer is `P`. -/
def killsBy (P : String) (events : List MatchUpdate) : Nat :=
  events.countP (fun e => isKill e && decide (e.Username = P))

/-! ## Invariants of the entries (definitions) -/

/-- Every entry of the map satisfies `Q`. -/
def AllStats (Q : advancedPlayerStats → Prop) (stats : StatsMap) : Prop :=
  ∀ u s, stats u = some s → Q s

/-- The property `Q` holds of a fresh entry and survives every update the
event loop makes. -/
structure LoopInvariant (Q : advancedPlayerStats → Prop) : Prop where
  init : ∀ u, Q { Username := u }
  tradeKills : ∀ s, Q s → Q (incTradeKills s)
  tradeDeaths : ∀ s, Q s → Q (incTradeDeaths s)
  clutch : ∀ n s, Q s → Q (clutchUpdate n s)
  plants : ∀ s, Q s → Q (incDefuserPlants s)
  defuses : ∀ s, Q s → Q (incDefuserDefuses s)
  pickups : ∀ s, Q s → Q (incDefuserPickups s)

/-! ## Alive counts read off the event list -/

/-- The number of roster participants of `team` who are not the victim of any
Kill event among `events[0..i]`. -/
def aliveAfter (players : List Player) (events : List MatchUpdate) (i : Nat) (team : Int) :
    Nat :=
  (players.filter fun p =>
    decide (p.Username ∉ victims (events.take (i + 1))) && decide (p.TeamIndex = team)).length

/-! ## Clutch statistics read off the event list -/

/-- The clutch statistics of an entry: attempts, wins and the five 1vN
flags. -/
def clutchView (s : advancedPlayerStats) : Int × Int × Bool × Bool × Bool × Bool × Bool :=
  (s.ClutchAttempts, s.ClutchWins, s.Clutch1v1, s.Clutch1v2, s.Clutch1v3, s.Clutch1v4,
    s.Clutch1v5)

/-- The effect of `clutchUpdate` on the clutch statistics. -/
def clutchStep (aliveEnemies : Nat) (v : Int × Int × Bool × Bool × Bool × Bool × Bool) :
    Int × Int × Bool × Bool × Bool × Bool × Bool :=
  (v.1 + 1, v.2.1 + (if aliveEnemies = 1 then 1 else 0), v.2.2.1 || decide (aliveEnemies = 1),
    v.2.2.2.1 || decide (aliveEnemies = 2), v.2.2.2.2.1 || decide (aliveEnemies = 3),
    v.2.2.2.2.2.1 || decide (aliveEnemies = 4), v.2.2.2.2.2.2 || decide (aliveEnemies = 5))

/-- Event `i` is a Kill event by `K` that leaves exactly one participant of
`team` alive and at least one of the team `1 - team`. -/
def clutchAt (players : List Player) (events : List MatchUpdate) (K : String) (team : Int)
    (i : Nat) : Bool :=
  match events[i]? with
  | some e =>
    isKill e && decide (e.Username = K) && decide (aliveAfter players events i team = 1)
      && decide (aliveAfter players events i (1 - team) > 0)
  | none => false

/-- Event `i` is a Kill event by `K` that leaves exactly one participant of
`team` alive and exactly `N` of the team `1 - team`. -/
def clutchVsAt (players : List Player) (events : List MatchUpdate) (K : String) (team : Int)
    (N : Nat) (i : Nat) : Bool :=
  match events[i]? with
  | some e =>
    isKill e && decide (e.Username = K) && decide (aliveAfter players events i team = 1)
      && decide (aliveAfter players events i (1 - team) = N)
  | none => false

/-- The number of clutch situations of `K`. -/
def clutchCount (players : List Player) (events : List MatchUpdate) (K : String) (team : Int) :
    Nat :=
  (List.range events.length).countP (clutchAt players events K team)

/-- The number of 1-versus-`N` situations of `K`. -/
def clutchVsCount (players : List Player) (events : List MatchUpdate) (K : String) (team : Int)
    (N : Nat) : Nat :=
  (List.range events.length).countP (clutchVsAt players events K team N)

/-- Some Kill event by `K` is a 1-versus-`N` situation. -/
def clutchVsSome (players : List Player) (events : List MatchUpdate) (K : String) (team : Int)
    (N : Nat) : Bool :=
  (List.range events.length).any (clutchVsAt players events K team N)

/-- The clutch statistics read off the event list. -/
def clutchSpec (players : List Player) (events : List MatchUpdate) (K : String) (team : Int) :
    Int × Int × Bool × Bool × Bool × Bool × Bool :=
  ((clutchCount players events K team : Nat), (clutchVsCount players events K team 1 : Nat),
    clutchVsSome players events K team 1, clutchVsSome players events K team 2,
    clutchVsSome players events K team 3, clutchVsSome players events K team 4,
    clutchVsSome players events K team 5)

/-! ## Avenged teammates -/

/-- The roster entry of `w` is on the same team as a roster entry of `K`. -/
def sameTeam (players : List Player) (w K : String) : Bool :=
  players.any fun pw => decide (pw.Username = w)
    && players.any fun pk => decide (pk.Username = K) && decide (pw.TeamIndex = pk.TeamIndex)

/-- There are Kill events `Kill(V, W, t1)` and a later `Kill(K, V, t2)` with
`t2 - t1 ≤ 3.0` such that `W` is a roster participant on the team of `K`. -/
def avengesTeammate (players : List Player) (events : List MatchUpdate) (K : String) : Bool :=
  (List.range events.length).any fun j =>
    (List.range j).any fun i =>
      match events[i]?, events[j]? with
      | some a, some b =>
        isKill a && isKill b && decide (b.Username = K) && decide (b.Target = a.Username)
          && decide (b.TimeInSeconds - a.TimeInSeconds ≤ 3) && sameTeam players a.Target K
      | _, _ => false

/-! ## Clutch flags -/

/-- The flag `clutch1vN` of an entry, for `N` in 1..5. -/
def clutchFlag (N : Nat) (s : advancedPlayerStats) : Bool :=
  if N = 1 then s.Clutch1v1
  else if N = 2 then s.Clutch1v2
  else if N = 3 then s.Clutch1v3
  else if N = 4 then s.Clutch1v4
  else if N = 5 then s.Clutch1v5
  else false

/-- Some Kill event by `K` leaves exactly 1 participant alive on `team` and
exactly `N` on the team `1 - team`, the counts taken after the victim's
removal. -/
def leavesOneVs (players : List Player) (events : List MatchUpdate) (K : String) (team : Int)
    (N : Nat) : Prop :=
  ∃ i e, events[i]? = some e ∧ e.TypeString = "Kill" ∧ e.Username = K
    ∧ aliveAfter players events i team = 1 ∧ aliveAfter players events i (1 - team) = N

/-- The invariant behind C10: attempts are never negative, and a set flag
comes with an attempt. -/
def flagHasAttempt (s : advancedPlayerStats) : Prop :=
  0 ≤ s.ClutchAttempts
    ∧ ((s.Clutch1v1 = true ∨ s.Clutch1v2 = true ∨ s.Clutch1v3 = true ∨ s.Clutch1v4 = true
        ∨ s.Clutch1v5 = true) → 1 ≤ s.ClutchAttempts)

/-! ## The finalising passes, entry by entry -/

/-- The first Kill event of the list, in list order. -/
def firstKill (events : List MatchUpdate) : Option MatchUpdate :=
  (killEvents events).head?

/-- The first base-stats row with the username `P`. -/
def baseStatsOf (baseStats : List PlayerRoundStats) (P : String) : Option PlayerRoundStats :=
  baseStats.find? (fun b => decide (b.Username = P))

/-- What the entry-duel pass does to the entry of `P`. -/
def entryStep (events : List MatchUpdate) (P : String) (s : advancedPlayerStats) :
    advancedPlayerStats :=
  match firstKill events with
  | none => s
  | some fk =>
    let s1 := if P = fk.Username then setEntryKill s else s
    if P = fk.Target then setEntryDeath s1 else s1

/-- What the survival pass does to the entry of `P`: the last base-stats row
with the username `P` decides. -/
def survivalStep (baseStats : List PlayerRoundStats) (P : String) (s : advancedPlayerStats) :
    advancedPlayerStats :=
  match (baseStats.filter (fun b => decide (b.Username = P))).getLast? with
  | none => s
  | some b => { s with Survived := !b.Died }

/-- What the KOST pass does to the entry of `P`: the first base-stats row with
the username `P` decides. -/
def kostStep (baseStats : List PlayerRoundStats) (P : String) (s : advancedPlayerStats) :
    advancedPlayerStats :=
  match baseStatsOf baseStats P with
  | none => s
  | some b =>
    { s with
      KOST := decide (b.Kills > 0) || (decide (s.DefuserPlants > 0) || decide (s.DefuserDefuses > 0))
        || !b.Died || decide (s.TradeDeaths > 0),
      Survived := !b.Died }

/-- The fields that only the entry, survival and KOST passes write. -/
def lateView (s : advancedPlayerStats) : Bool × Bool × Bool × Bool :=
  (s.EntryKill, s.EntryDeath, s.Survived, s.KOST)

/-- The entry-duel flags of an entry. -/
def entryView (s : advancedPlayerStats) : Bool × Bool :=
  (s.EntryKill, s.EntryDeath)

/-- The entry-duel flags read off the event list: `P` is the killer, resp.
the victim, of the first Kill event. -/
def entrySpec (events : List MatchUpdate) (P : String) : Bool × Bool :=
  match firstKill events with
  | none => (false, false)
  | some fk => (decide (fk.Username = P), decide (fk.Target = P))

/-- The entry of `P` after an empty event list: all zero, except the two
fields the finaliser takes from the first base-stats row of `P`. -/
def emptyRoundEntry (baseStats : List PlayerRoundStats) (P : String) : advancedPlayerStats :=
  match baseStatsOf baseStats P with
  | none => { Username := P }
  | some b => { Username := P, Survived := !b.Died, KOST := decide (b.Kills > 0) || !b.Died }

/-! ## Rosters in another order -/

/-- Two states of the event loop that differ at most in the order of the
alive lists. -/
def sameUpToAliveOrder (st st2 : loopState) : Prop :=
  st.stats = st2.stats ∧ (∀ team, (st.alivePlayers team).Perm (st2.alivePlayers team))
    ∧ st.killCounts = st2.killCounts ∧ st.killTimestamps = st2.killTimestamps
    ∧ st.recentDeaths = st2.recentDeaths

/-! ## The run-time failures of Go: nil dereference and index out of range

A second embedding of `calculateAdvancedStats` in which a write through a nil
pointer, an index out of range and a slice bound out of range end the run
with `none`, as the Go run time ends it with a panic. The guards of the
source (`if stats[k] != nil`, `if stat == nil { return }`, the loop bounds)
are spelled out, so that a missing guard would show as a `none`. -/

/-- A field write through a pointer to an entry, as in `p.TradeKills++`: a
nil pointer is a failure, otherwise the entry behind the pointer is
rewritten. -/
def derefStore (p : Option advancedPlayerStats)
    (f : advancedPlayerStats → advancedPlayerStats) : Option (Option advancedPlayerStats) :=
  match p with
  | none => none
  | some s => some (some (f s))

/-- The write `stats[k].field = ...` without a guard. -/
def storeAt (stats : StatsMap) (k : String)
    (f : advancedPlayerStats → advancedPlayerStats) : Option StatsMap :=
  match derefStore (stats k) f with
  | none => none
  | some p => some (fun u => if u = k then p else stats u)

/-- The guarded write `if stats[k] != nil { stats[k].field = ... }`. -/
def guardedStoreAt (stats : StatsMap) (k : String)
    (f : advancedPlayerStats → advancedPlayerStats) : Option StatsMap :=
  if (stats k).isSome then storeAt stats k f else some stats

/-- The slice expression `l[i:]`: a failure when `i` exceeds the length. -/
def sliceFrom {α : Type} (l : List α) (i : Nat) : Option (List α) :=
  if i ≤ l.length then some (l.drop i) else none

/-- The slice expression `l[:i]`: a failure when `i` exceeds the length. -/
def sliceTo {α : Type} (l : List α) (i : Nat) : Option (List α) :=
  if i ≤ l.length then some (l.take i) else none

/-- A loop `for _, a := range as { s = step(s, a) }` whose body can fail. -/
def forEachChecked {σ α : Type} (step : σ → α → Option σ) : List α → σ → Option σ
  | [], s => some s
  | a :: rest, s =>
    match step s a with
    | none => none
    | some s2 => forEachChecked step rest s2

/-- A loop `for k := range m { m[k] = body(k, m[k]) }` over the keys `keys` of
a map, with a body that can fail. -/
def forKeys {K V : Type} [DecidableEq K] (body : K → V → Option V) :
    List K → (K → V) → Option (K → V)
  | [], m => some m
  | k :: rest, m =>
    match body k (m k) with
    | none => none
    | some v => forKeys body rest (fun k2 => if k2 = k then v else m k2)

/-- The loop `for i, player := range alivePlayers[team]` (lines 519-524) at
index `i` with the players still to visit: the first occurrence of the victim
is cut out with `append(l[:i], l[i+1:]...)` and the loop breaks. -/
def removeVictimLoop (l : List String) (victim : String) : Nat → List String →
    Option (List String)
  | _, [] => some l
  | i, player :: rest =>
    if player = victim then
      match sliceTo l i, sliceFrom l (i + 1) with
      | some front, some back => some (front ++ back)
      | _, _ => none
    else removeVictimLoop l victim (i + 1) rest

/-- The removal of the victim from one team's alive list. -/
def removeVictimChecked (l : List String) (victim : String) : Option (List String) :=
  removeVictimLoop l victim 0 l

/-- The keys of the map `alivePlayers`: the team indices of the roster. -/
def teamKeys (players : List Player) : List Int :=
  (players.map (·.TeamIndex)).dedup

/-- The keys of the map `killTimestamps`: the killers of the Kill events. -/
def killerKeys (events : List MatchUpdate) : List String :=
  ((killEvents events).map (·.Username)).dedup

/-- The keys of the map `stats`: the usernames of the roster. -/
def statsKeys (players : List Player) : List String :=
  (rosterNames players).dedup

/-- The trade loop (lines 532-551) with its index, slice and pointer
operations checked. -/
def tradeLoopChecked (killer victim : String) (eventTime : ℚ) :
    Nat → StatsMap → List deathEvent → Option (StatsMap × List deathEvent)
  | 0, stats, recentDeaths => some (stats, recentDeaths)
  | i + 1, stats, recentDeaths =>
    match recentDeaths[i]? with
    | none => none
    | some rd =>
      let timeDiff := f64Sub eventTime rd.time
      if timeDiff > 3 then
        match sliceFrom recentDeaths (i + 1) with
        | none => none
        | some kept => some (stats, kept)
      else if rd.killer = victim ∧ killer ≠ victim then
        match guardedStoreAt stats killer incTradeKills with
        | none => none
        | some stats1 =>
          match guardedStoreAt stats1 victim incTradeDeaths with
          | none => none
          | some stats2 => tradeLoopChecked killer victim eventTime i stats2 recentDeaths
      else
        tradeLoopChecked killer victim eventTime i stats recentDeaths

/-- The clutch check (lines 560-590) with its pointer operations checked. -/
def clutchCheckChecked (players : List Player) (alivePlayers : Int → List String)
    (killer : String) (stats : StatsMap) : Option StatsMap :=
  let killerTeam := getPlayerTeam killer players
  if killerTeam ≠ -1 then
    let aliveOnTeam := (alivePlayers killerTeam).length
    let enemyTeam := wrapInt64 (1 - killerTeam)
    let aliveEnemies := (alivePlayers enemyTeam).length
    if aliveOnTeam = 1 ∧ aliveEnemies > 0 then
      guardedStoreAt stats killer (clutchUpdate aliveEnemies)
    else some stats
  else some stats

/-- The `case "Kill"` branch (lines 512-590), checked. -/
def processKillChecked (players : List Player) (st : loopState) (event : MatchUpdate) :
    Option loopState :=
  let killer := event.Username
  let victim := event.Target
  let eventTime := event.TimeInSeconds
  match forKeys (fun _ l => removeVictimChecked l victim) (teamKeys players) st.alivePlayers with
  | none => none
  | some alivePlayers =>
    match tradeLoopChecked killer victim eventTime st.recentDeaths.length st.stats
        st.recentDeaths with
    | none => none
    | some traded =>
      match clutchCheckChecked players alivePlayers killer traded.1 with
      | none => none
      | some stats =>
        some
          { stats := stats
            alivePlayers := alivePlayers
            killCounts := fun u => if u = killer then st.killCounts u + 1 else st.killCounts u
            killTimestamps := fun u =>
              if u = killer then st.killTimestamps u ++ [eventTime] else st.killTimestamps u
            recentDeaths :=
              traded.2 ++ [{ victim := victim, killer := killer, time := eventTime }] }

/-- One iteration of the event loop (lines 509-606), checked. -/
def processEventChecked (players : List Player) (st : loopState) (event : MatchUpdate) :
    Option loopState :=
  let eventType := event.TypeString
  if eventType = "Kill" then processKillChecked players st event
  else if eventType = "DefuserPlantStart" ∨ eventType = "DefuserPlantComplete" then
    if event.Username ≠ "" then
      match guardedStoreAt st.stats event.Username incDefuserPlants with
      | none => none
      | some stats => some { st with stats := stats }
    else some st
  else if eventType = "DefuserDisableStart" ∨ eventType = "DefuserDisableComplete" then
    if event.Username ≠ "" then
      match guardedStoreAt st.stats event.Username incDefuserDefuses with
      | none => none
      | some stats => some { st with stats := stats }
    else some st
  else if eventType = "DefuserPickedUp" then
    if event.Username ≠ "" then
      match guardedStoreAt st.stats event.Username incDefuserPickups with
      | none => none
      | some stats => some { st with stats := stats }
    else some st
  else some st

/-- The event loop (lines 508-607), checked. -/
def eventLoopChecked (players : List Player) (events : List MatchUpdate) : Option loopState :=
  forEachChecked (processEventChecked players) events (initState players)

/-- The field writes of `recordMultiKill` (lines 685-699) on an entry. -/
def multiKillTally (count : Int) (s : advancedPlayerStats) : advancedPlayerStats :=
  if count ≥ 5 then
    { s with Ace := true, QuadKills := s.QuadKills + 1,
             TripleKills := s.TripleKills + 1, DoubleKills := s.DoubleKills + 1 }
  else if count = 4 then
    { s with QuadKills := s.QuadKills + 1,
             TripleKills := s.TripleKills + 1, DoubleKills := s.DoubleKills + 1 }
  else if count = 3 then
    { s with TripleKills := s.TripleKills + 1, DoubleKills := s.DoubleKills + 1 }
  else if count = 2 then
    { s with DoubleKills := s.DoubleKills + 1 }
  else s

/-- `recordMultiKill` with its guard `if stat == nil { return }` spelled
out before the field writes. -/
def recordMultiKillChecked (stat : Option advancedPlayerStats) (count : Int) :
    Option (Option advancedPlayerStats) :=
  if stat.isNone then some stat else derefStore stat (multiKillTally count)

/-- The loop `for i := 1; i < len(timestamps); i++` (lines 616-623) with the
index expressions `timestamps[i]` and `timestamps[i-1]` checked. -/
def multiKillLoopChecked (timestamps : List ℚ) (i : Nat) (stat : Option advancedPlayerStats)
    (consecutiveKills : Int) : Option (Option advancedPlayerStats × Int) :=
  if i < timestamps.length then
    match timestamps[i]?, timestamps[i - 1]? with
    | some t, some prev =>
      if f64Sub t prev ≤ 10 then
        multiKillLoopChecked timestamps (i + 1) stat (consecutiveKills + 1)
      else
        match recordMultiKillChecked stat consecutiveKills with
        | none => none
        | some stat2 => multiKillLoopChecked timestamps (i + 1) stat2 1
    | _, _ => none
  else some (stat, consecutiveKills)
termination_by timestamps.length - i

/-- One iteration of the multi-kill pass (lines 610-630) on the pointer
`stats[username]`, checked. -/
def multiKillForChecked (stat : Option advancedPlayerStats) (timestamps : List ℚ)
    (killCount : Int) : Option (Option advancedPlayerStats) :=
  if timestamps.length < 2 then some stat
  else
    match multiKillLoopChecked timestamps 1 stat 1 with
    | none => none
    | some walked =>
      match recordMultiKillChecked walked.1 walked.2 with
      | none => none
      | some stat2 =>
        if killCount ≥ 5 ∧ stat2.isSome then derefStore stat2 setAce else some stat2

/-- The multi-kill pass (lines 609-630) over the keys of `killTimestamps`,
checked. -/
def multiKillPassChecked (keys : List String) (st : loopState) : Option StatsMap :=
  forKeys
    (fun username stat =>
      multiKillForChecked stat (st.killTimestamps username) (st.killCounts username))
    keys st.stats

/-- The entry-duel pass (lines 632-650), checked: `firstKill` is a pointer
that stays nil when there is no Kill event. -/
def entryPassChecked (events : List MatchUpdate) (stats : StatsMap) : Option StatsMap :=
  match events.find? (fun event => event.TypeString = "Kill") with
  | none => some stats
  | some firstKill =>
    match guardedStoreAt stats firstKill.Username setEntryKill with
    | none => none
    | some stats1 => guardedStoreAt stats1 firstKill.Target setEntryDeath

/-- The survival pass (lines 652-658), checked. -/
def survivalPassChecked (baseStats : List PlayerRoundStats) (stats : StatsMap) :
    Option StatsMap :=
  forEachChecked
    (fun stats baseStat =>
      guardedStoreAt stats baseStat.Username
        (fun stat => { stat with Survived := !baseStat.Died }))
    baseStats stats

/-- The KOST pass (lines 660-675) over the keys of `stats`, checked: the
entry `stat` of the range loop is written without a guard. -/
def kostPassChecked (keys : List String) (baseStats : List PlayerRoundStats)
    (stats : StatsMap) : Option StatsMap :=
  forKeys
    (fun username stat =>
      match baseStats.find? (fun baseStat => baseStat.Username = username) with
      | none => some stat
      | some baseStat =>
        derefStore stat fun stat =>
          let hasKill := decide (baseStat.Kills > 0)
          let hasObjective :=
            decide (stat.DefuserPlants > 0) || decide (stat.DefuserDefuses > 0)
          let survived := !baseStat.Died
          let traded := decide (stat.TradeDeaths > 0)
          { stat with KOST := hasKill || hasObjective || survived || traded,
                      Survived := survived })
    keys stats

/-- `calculateAdvancedStats` (lines 479-679), checked: `none` is a run that
ends in a run-time failure, `some` the mapping it returns. -/
def calculateAdvancedStatsChecked (events : List MatchUpdate) (players : List Player)
    (baseStats : List PlayerRoundStats) : Option StatsMap :=
  match eventLoopChecked players events with
  | none => none
  | some st =>
    match multiKillPassChecked (killerKeys events) st with
    | none => none
    | some stats1 =>
      match entryPassChecked events stats1 with
      | none => none
      | some stats2 =>
        match survivalPassChecked baseStats stats2 with
        | none => none
        | some stats3 => kostPassChecked (statsKeys players) baseStats stats3

/-- The alive lists of the teams that are no key of `alivePlayers` are empty:
the model's total function agrees with the Go map on missing keys. -/
def AliveWithinTeams (players : List Player) (st : loopState) : Prop :=
  ∀ team, team ∉ teamKeys players → st.alivePlayers team = []

/-! ## Objective events (definitions) -/

/-- The event is one of the two phases of a plant. -/
def isPlant (e : MatchUpdate) : Bool :=
  decide (e.TypeString = "DefuserPlantStart") || decide (e.TypeString = "DefuserPlantComplete")

/-- The event is one of the two phases of a defuse. -/
def isDefuse (e : MatchUpdate) : Bool :=
  decide (e.TypeString = "DefuserDisableStart")
    || decide (e.TypeString = "DefuserDisableComplete")

/-- The event is a pickup of the defuser. -/
def isPickup (e : MatchUpdate) : Bool :=
  decide (e.TypeString = "DefuserPickedUp")

/-- The number of events accepted by `sel` whose username is `P`. -/
def eventsOf (sel : MatchUpdate → Bool) (P : String) (events : List MatchUpdate) : Nat :=
  events.countP (fun e => sel e && decide (e.Username = P))

/-- The objective counters of an entry. -/
def objectiveView (s : advancedPlayerStats) : Int × Int × Int :=
  (s.DefuserPlants, s.DefuserDefuses, s.DefuserPickups)

/-- The objective counters of `P` read off the event list. -/
def objectiveSpec (P : String) (events : List MatchUpdate) : Int × Int × Int :=
  ((eventsOf isPlant P events : Nat), (eventsOf isDefuse P events : Nat),
    (eventsOf isPickup P events : Nat))

/-- The two fields no event writes. -/
def unusedView (s : advancedPlayerStats) : Int × ℚ :=
  (s.PlantDenials, s.SurvivalTime)

/-! ## What the objective events cannot reach (definitions) -/

/-- Every field of an entry except the three objective counters and `KOST`:
the username, the entry-duel flags, the clutch statistics, the multi-kill
tallies, the trade counters, `Survived` and the two unused fields. -/
def killSideView (s : advancedPlayerStats) :
    String × (Bool × Bool) × (Int × Int × Bool × Bool × Bool × Bool × Bool)
      × (Int × Int × Int × Bool) × (Int × Int) × Bool × (Int × ℚ) :=
  (s.Username, (s.EntryKill, s.EntryDeath), clutchView s, multiView s,
    (s.TradeKills, s.TradeDeaths), s.Survived, unusedView s)

/-- What `proj` sees of `f s` depends only on what it sees of `s`. -/
def Respects {β : Type} (proj : advancedPlayerStats → β)
    (f : advancedPlayerStats → advancedPlayerStats) : Prop :=
  ∀ s s2, proj s = proj s2 → proj (f s) = proj (f s2)

/-- The two maps have entries for the same keys and `proj` sees the same in
them. -/
def AgreeOn {β : Type} (proj : advancedPlayerStats → β) (stats stats2 : StatsMap) : Prop :=
  ∀ u, (stats u).map proj = (stats2 u).map proj

/-! ## Lone survivors and eliminated teams (definitions) -/

/-- Event `i` is a Kill event by `K` at which `K` is alive (the victim of no
Kill event among `events[0..i]`) and exactly one roster participant of `team`
is alive. -/
def loneSurvivorKillAt (players : List Player) (events : List MatchUpdate) (K : String)
    (team : Int) (i : Nat) : Bool :=
  match events[i]? with
  | some e =>
    isKill e && decide (e.Username = K) && decide (K ∉ victims (events.take (i + 1)))
      && decide (aliveAfter players events i team = 1)
  | none => false

/-- Some Kill event by `K` finds `K` alive and alone on `team`. -/
def loneSurvivorKill (players : List Player) (events : List MatchUpdate) (K : String)
    (team : Int) : Bool :=
  (List.range events.length).any (loneSurvivorKillAt players events K team)

/-- Some Kill event by `K` leaves no roster participant of the team
`1 - team` alive. -/
def eliminatesEnemies (players : List Player) (events : List MatchUpdate) (K : String)
    (team : Int) : Bool :=
  (List.range events.length).any fun i =>
    match events[i]? with
    | some e =>
      isKill e && decide (e.Username = K) && decide (aliveAfter players events i (1 - team) = 0)
    | none => false

/-! ## Three kills in a window (definitions) -/

/-- Some three entries of the timeline, at three different positions, lie
pairwise at most `w` apart: the earliest and the latest of the three differ
by at most `w`. -/
def threeKillsWithin (w : ℚ) (timestamps : List ℚ) : Bool :=
  (timestamps.sublistsLen 3).any fun l => l.all fun a => l.all fun b => decide (b - a ≤ w)

/-! ## Clutch wins, attempts and kills (definitions) -/

/-- The invariant behind C29 on one entry: wins are never negative, never
exceed the attempts, and `Clutch1v1` is set exactly when there is a win. -/
def winsMatchFlag (s : advancedPlayerStats) : Prop :=
  0 ≤ s.ClutchWins ∧ s.ClutchWins ≤ s.ClutchAttempts ∧ (s.Clutch1v1 = true ↔ 1 ≤ s.ClutchWins)

/-- The invariant behind C29 on the loop state: no entry has more clutch
attempts than its key has kills in `killCounts`. -/
def AttemptsWithinKills (st : loopState) : Prop :=
  ∀ u s, st.stats u = some s → s.ClutchAttempts ≤ st.killCounts u

/-! ## Totals over the result mapping (definitions) -/

/-- The sum of the field `f` over the entries of the keys `keys`. -/
def fieldTotal (f : advancedPlayerStats → Int) (keys : List String) (stats : StatsMap) : Int :=
  (keys.map fun u =>
    match stats u with
    | some s => f s
    | none => 0).sum

/-- Every key of `keys` has an entry. -/
def AllPresent (keys : List String) (stats : StatsMap) : Prop :=
  ∀ u, u ∈ keys → ∃ s, stats u = some s

/-! ## Frames: what an update leaves alone -/

/-! ## `float64` rounding: where the comparisons with 3.0 and 10.0 flip -/

theorem log2Fuel_spec : ∀ (fuel n : Nat), n ≤ fuel → n ≠ 0 →
    2 ^ log2Fuel fuel n ≤ n ∧ n < 2 ^ (log2Fuel fuel n + 1) := by
  intro fuel
  induction fuel with
  | zero => intro n h h0; omega
  | succ fuel ih =>
    intro n h h0
    rw [log2Fuel]
    by_cases h2 : 2 ≤ n
    · rw [if_pos h2]
      obtain ⟨h3, h4⟩ := ih (n / 2) (by omega) (by omega)
      rw [pow_succ, pow_succ, pow_succ]
      rw [pow_succ] at h4
      constructor <;> omega
    · rw [if_neg h2]
      constructor <;> simp <;> omega

theorem bitLog_spec (n : Nat) (h0 : n ≠ 0) : 2 ^ bitLog n ≤ n ∧ n < 2 ^ (bitLog n + 1) :=
  log2Fuel_spec n n (Nat.le_refl n) h0

theorem twoPow_eq (e : Int) : twoPow e = (2 : ℚ) ^ e := by
  unfold twoPow
  by_cases h : 0 ≤ e
  · rw [if_pos h]
    obtain ⟨n, rfl⟩ := Int.eq_ofNat_of_zero_le h
    simp
  · rw [if_neg h]
    obtain ⟨n, hn⟩ := Int.eq_ofNat_of_zero_le (show 0 ≤ -e by omega)
    have he : e = -(n : Int) := by omega
    subst he
    simp

theorem floorLog2_spec (x : ℚ) (hx : 0 < x) :
    (2 : ℚ) ^ floorLog2 x ≤ x ∧ x < (2 : ℚ) ^ (floorLog2 x + 1) := by
  have hnum : 0 < x.num := Rat.num_pos.mpr hx
  have hn0 : x.num.natAbs ≠ 0 := by omega
  have hd0 : x.den ≠ 0 := x.den_nz
  obtain ⟨ha1, ha2⟩ := bitLog_spec x.num.natAbs hn0
  obtain ⟨hb1, hb2⟩ := bitLog_spec x.den hd0
  have hxe : x = (x.num.natAbs : ℚ) / (x.den : ℚ) := by
    have h1 : (x.num.natAbs : ℚ) = (x.num : ℚ) := by
      rw [← Int.cast_natCast, Int.natAbs_of_nonneg hnum.le]
    rw [h1]
    exact (Rat.num_div_den x).symm
  unfold floorLog2
  dsimp only
  rw [twoPow_eq]
  generalize bitLog x.num.natAbs = a at ha1 ha2 ⊢
  generalize bitLog x.den = b at hb1 hb2 ⊢
  generalize x.num.natAbs = n at ha1 ha2 hxe hn0
  generalize x.den = d at hb1 hb2 hxe hd0
  have hdpos : (0 : ℚ) < (d : ℚ) := by exact_mod_cast Nat.pos_of_ne_zero hd0
  have ha1q : (2 : ℚ) ^ a ≤ (n : ℚ) := by exact_mod_cast ha1
  have ha2q : (n : ℚ) < (2 : ℚ) ^ (a + 1) := by exact_mod_cast ha2
  have hb1q : (2 : ℚ) ^ b ≤ (d : ℚ) := by exact_mod_cast hb1
  have hb2q : (d : ℚ) < (2 : ℚ) ^ (b + 1) := by exact_mod_cast hb2
  have hupper : x < (2 : ℚ) ^ ((a : Int) - (b : Int) + 1) := by
    have h : (2 : ℚ) ^ ((a : Int) - (b : Int) + 1) = (2 : ℚ) ^ (a + 1) / (2 : ℚ) ^ b := by
      rw [show ((a : Int) - (b : Int) + 1) = ((a + 1 : Nat) : Int) - ((b : Nat) : Int) by
          push_cast; ring,
        zpow_sub₀ (by norm_num), zpow_natCast, zpow_natCast]
    rw [h, hxe, div_lt_div_iff₀ hdpos (by positivity)]
    calc (n : ℚ) * 2 ^ b
        ≤ (n : ℚ) * (d : ℚ) := mul_le_mul_of_nonneg_left hb1q (by positivity)
      _ < 2 ^ (a + 1) * (d : ℚ) := mul_lt_mul_of_pos_right ha2q hdpos
  have hlower : (2 : ℚ) ^ ((a : Int) - (b : Int) - 1) ≤ x := by
    have h : (2 : ℚ) ^ ((a : Int) - (b : Int) - 1) = (2 : ℚ) ^ a / (2 : ℚ) ^ (b + 1) := by
      rw [show ((a : Int) - (b : Int) - 1) = ((a : Nat) : Int) - ((b + 1 : Nat) : Int) by
          push_cast; ring,
        zpow_sub₀ (by norm_num), zpow_natCast, zpow_natCast]
    rw [h, hxe, div_le_div_iff₀ (by positivity) hdpos]
    calc (2 : ℚ) ^ a * (d : ℚ)
        ≤ (n : ℚ) * (d : ℚ) := mul_le_mul_of_nonneg_right ha1q hdpos.le
      _ ≤ (n : ℚ) * 2 ^ (b + 1) := mul_le_mul_of_nonneg_left hb2q.le (by positivity)
  by_cases h : (2 : ℚ) ^ ((a : Int) - (b : Int)) ≤ x
  · rw [if_pos h]
    exact ⟨h, hupper⟩
  · rw [if_neg h]
    refine ⟨hlower, ?_⟩
    rw [sub_add_cancel]
    exact not_le.mp h

theorem le_roundHalfEven (x : ℚ) (m : Int) (h : (m : ℚ) ≤ x) : m ≤ roundHalfEven x := by
  have hf : m ≤ ⌊x⌋ := Int.le_floor.mpr h
  unfold roundHalfEven
  dsimp only
  split_ifs <;> omega

theorem roundHalfEven_le (x : ℚ) (m : Int) (h : x ≤ (m : ℚ)) : roundHalfEven x ≤ m := by
  have hf : ⌊x⌋ ≤ m := by
    have := Int.floor_le x
    exact_mod_cast this.trans h
  have hstep : 0 < x - (⌊x⌋ : ℚ) → ⌊x⌋ + 1 ≤ m := by
    intro hd
    have hlt : ((⌊x⌋ : Int) : ℚ) < (m : ℚ) := by linarith
    have : ⌊x⌋ < m := by exact_mod_cast hlt
    omega
  unfold roundHalfEven
  dsimp only
  split_ifs with h1 h2 h3
  · exact hf
  · exact hstep (by linarith)
  · exact hf
  · exact hstep (by linarith)

theorem roundHalfEven_le_even (x : ℚ) (m : Int) (heven : m % 2 = 0) :
    roundHalfEven x ≤ m ↔ x ≤ (m : ℚ) + 1 / 2 := by
  have hfl := Int.floor_le x
  have hfu := Int.lt_floor_add_one x
  constructor
  · intro h
    by_contra hx
    rw [not_le] at hx
    have hm : m ≤ ⌊x⌋ := Int.le_floor.mpr (by linarith)
    unfold roundHalfEven at h
    dsimp only at h
    split_ifs at h with h1 h2 h3
    · have hme : ⌊x⌋ = m := by omega
      rw [hme] at h1
      linarith
    · omega
    · have hme : ⌊x⌋ = m := by omega
      rw [hme] at h1 h2
      linarith
    · omega
  · intro h
    have hm : ⌊x⌋ ≤ m := by
      have hlt : ((⌊x⌋ : Int) : ℚ) < ((m + 1 : Int) : ℚ) := by push_cast; linarith
      have : ⌊x⌋ < m + 1 := by exact_mod_cast hlt
      omega
    unfold roundHalfEven
    dsimp only
    split_ifs with h1 h2 h3
    · exact hm
    · by_contra hc
      have hme : ⌊x⌋ = m := by omega
      rw [hme] at h2
      linarith
    · exact hm
    · by_contra hc
      have hme : ⌊x⌋ = m := by omega
      rw [hme] at h3
      exact h3 heven

theorem f64Round_le_iff (k M : Int) (hk : -1022 ≤ k) (hM1 : 2 ^ 52 ≤ M) (hM2 : M < 2 ^ 53)
    (heven : M % 2 = 0) (x : ℚ) :
    f64Round x ≤ (M : ℚ) * (2 : ℚ) ^ (k - 52)
      ↔ x ≤ (M : ℚ) * (2 : ℚ) ^ (k - 52) + (2 : ℚ) ^ (k - 53) := by
  have hu0 : (0 : ℚ) < (2 : ℚ) ^ (k - 52) := by positivity
  have hh0 : (0 : ℚ) < (2 : ℚ) ^ (k - 53) := by positivity
  have hM1q : (2 : ℚ) ^ (52 : ℕ) ≤ (M : ℚ) := by exact_mod_cast hM1
  have hM2q : (M : ℚ) ≤ (2 : ℚ) ^ (53 : ℕ) - 1 := by
    have : M ≤ 2 ^ 53 - 1 := by omega
    exact_mod_cast this
  have hk52 : (2 : ℚ) ^ k = (2 : ℚ) ^ (52 : ℕ) * (2 : ℚ) ^ (k - 52) := by
    rw [← zpow_natCast, ← zpow_add₀ (by norm_num)]
    congr 1
    push_cast
    ring
  have hk53 : (2 : ℚ) ^ (k + 1) = (2 : ℚ) ^ (53 : ℕ) * (2 : ℚ) ^ (k - 52) := by
    rw [← zpow_natCast, ← zpow_add₀ (by norm_num)]
    congr 1
    push_cast
    ring
  have hhalf : (2 : ℚ) ^ (k - 52) = 2 * (2 : ℚ) ^ (k - 53) := by
    rw [show k - 52 = 1 + (k - 53) by ring, zpow_add₀ (by norm_num), zpow_one]
  have hTlow : (2 : ℚ) ^ k ≤ (M : ℚ) * (2 : ℚ) ^ (k - 52) := by
    rw [hk52]
    exact mul_le_mul_of_nonneg_right hM1q hu0.le
  have hThigh : (M : ℚ) * (2 : ℚ) ^ (k - 52) + (2 : ℚ) ^ (k - 53) < (2 : ℚ) ^ (k + 1) := by
    rw [hk53]
    have : (M : ℚ) * (2 : ℚ) ^ (k - 52) ≤ ((2 : ℚ) ^ (53 : ℕ) - 1) * (2 : ℚ) ^ (k - 52) :=
      mul_le_mul_of_nonneg_right hM2q hu0.le
    nlinarith
  rcases lt_trichotomy x 0 with hneg | hzero | hpos
  · -- negative: rounds to a non-positive value
    have hx0 : x ≠ 0 := ne_of_lt hneg
    have hr : f64Round x ≤ 0 := by
      unfold f64Round
      rw [if_neg hx0]
      dsimp only
      rw [twoPow_eq]
      have hu : (0 : ℚ) < (2 : ℚ) ^ (max (floorLog2 |x|) (-1022) - 52) := by positivity
      have hle : roundHalfEven (x / (2 : ℚ) ^ (max (floorLog2 |x|) (-1022) - 52)) ≤ 0 :=
        roundHalfEven_le _ 0 (by
          push_cast
          exact div_nonpos_of_nonpos_of_nonneg hneg.le hu.le)
      have hleq : ((roundHalfEven (x / (2 : ℚ) ^ (max (floorLog2 |x|) (-1022) - 52)) : Int) : ℚ)
          ≤ 0 := by exact_mod_cast hle
      exact mul_nonpos_of_nonpos_of_nonneg hleq hu.le
    constructor
    · intro _
      have : (0 : ℚ) ≤ (M : ℚ) * (2 : ℚ) ^ (k - 52) :=
        le_trans (by positivity) hTlow
      linarith
    · intro _
      exact hr.trans (le_trans (by positivity) hTlow)
  · subst hzero
    have hT0 : (0 : ℚ) ≤ (M : ℚ) * (2 : ℚ) ^ (k - 52) := le_trans (by positivity) hTlow
    constructor
    · intro _; linarith
    · intro _
      unfold f64Round
      rw [if_pos rfl]
      exact hT0
  · have hx0 : x ≠ 0 := ne_of_gt hpos
    obtain ⟨hlo, hhi⟩ := floorLog2_spec x hpos
    unfold f64Round
    rw [if_neg hx0, abs_of_pos hpos]
    dsimp only
    rw [twoPow_eq]
    generalize floorLog2 x = e at hlo hhi ⊢
    rcases lt_trichotomy e k with hlt | heq | hgt
    · -- a smaller binade: the rounded value stays at or below 2 ^ k
      have he' : max e (-1022) ≤ k := max_le hlt.le hk
      have hu : (0 : ℚ) < (2 : ℚ) ^ (max e (-1022) - 52) := by positivity
      have hxk : x ≤ (2 : ℚ) ^ k :=
        hhi.le.trans (zpow_le_zpow_right₀ (by norm_num) (by omega))
      obtain ⟨n, hn⟩ := Int.eq_ofNat_of_zero_le (show 0 ≤ k - max e (-1022) + 52 by omega)
      have hkn : (2 : ℚ) ^ k = ((2 ^ n : Int) : ℚ) * (2 : ℚ) ^ (max e (-1022) - 52) := by
        push_cast
        rw [← zpow_natCast, ← zpow_add₀ (by norm_num), ← hn]
        congr 1
        ring
      have hle : roundHalfEven (x / (2 : ℚ) ^ (max e (-1022) - 52)) ≤ (2 ^ n : Int) :=
        roundHalfEven_le _ _ (by
          rw [div_le_iff₀ hu, ← hkn]
          exact hxk)
      have hleq : ((roundHalfEven (x / (2 : ℚ) ^ (max e (-1022) - 52)) : Int) : ℚ)
          ≤ ((2 ^ n : Int) : ℚ) := by exact_mod_cast hle
      have hres : ((roundHalfEven (x / (2 : ℚ) ^ (max e (-1022) - 52)) : Int) : ℚ)
          * (2 : ℚ) ^ (max e (-1022) - 52) ≤ (2 : ℚ) ^ k := by
        rw [hkn]
        exact mul_le_mul_of_nonneg_right hleq hu.le
      constructor
      · intro _
        linarith
      · intro _
        exact hres.trans hTlow
    · -- the binade of the threshold
      subst heq
      rw [max_eq_left hk]
      rw [mul_le_mul_right hu0]
      have hcast : ((roundHalfEven (x / (2 : ℚ) ^ (e - 52)) : Int) : ℚ) ≤ (M : ℚ)
          ↔ roundHalfEven (x / (2 : ℚ) ^ (e - 52)) ≤ M := by exact_mod_cast Iff.rfl
      rw [hcast, roundHalfEven_le_even _ _ heven, div_le_iff₀ hu0, add_mul, hhalf]
      constructor <;> intro h <;> linarith
    · -- a larger binade: the rounded value is at least 2 ^ (k + 1)
      have he' : max e (-1022) = e := max_eq_left (by omega)
      rw [he']
      have hu : (0 : ℚ) < (2 : ℚ) ^ (e - 52) := by positivity
      have hc : ((2 ^ 52 : Int) : ℚ) = (2 : ℚ) ^ (52 : ℕ) := by norm_num
      have he52 : (2 : ℚ) ^ e = ((2 ^ 52 : Int) : ℚ) * (2 : ℚ) ^ (e - 52) := by
        rw [hc, ← zpow_natCast, ← zpow_add₀ (by norm_num)]
        congr 1
        push_cast
        ring
      have hge : (2 ^ 52 : Int) ≤ roundHalfEven (x / (2 : ℚ) ^ (e - 52)) :=
        le_roundHalfEven _ _ (by
          rw [le_div_iff₀ hu, ← he52]
          exact hlo)
      have hgeq : ((2 ^ 52 : Int) : ℚ)
          ≤ ((roundHalfEven (x / (2 : ℚ) ^ (e - 52)) : Int) : ℚ) := by exact_mod_cast hge
      have hres : (2 : ℚ) ^ e
          ≤ ((roundHalfEven (x / (2 : ℚ) ^ (e - 52)) : Int) : ℚ) * (2 : ℚ) ^ (e - 52) := by
        rw [he52]
        exact mul_le_mul_of_nonneg_right hgeq hu.le
      have hek : (2 : ℚ) ^ (k + 1) ≤ (2 : ℚ) ^ e :=
        zpow_le_zpow_right₀ (by norm_num) (by omega)
      constructor
      · intro h
        linarith
      · intro h
        linarith

theorem f64Round_le_three (x : ℚ) : f64Round x ≤ 3 ↔ x ≤ 3 + 1 / 2 ^ 52 := by
  have h := f64Round_le_iff 1 (3 * 2 ^ 51) (by norm_num) (by norm_num) (by norm_num)
    (by norm_num) x
  have h1 : ((3 * 2 ^ 51 : Int) : ℚ) * (2 : ℚ) ^ ((1 : Int) - 52) = 3 := by norm_num
  have h2 : (2 : ℚ) ^ ((1 : Int) - 53) = 1 / 2 ^ 52 := by norm_num
  rw [h1, h2] at h
  exact h

theorem f64Round_le_ten (x : ℚ) : f64Round x ≤ 10 ↔ x ≤ 10 + 1 / 2 ^ 50 := by
  have h := f64Round_le_iff 3 (5 * 2 ^ 50) (by norm_num) (by norm_num) (by norm_num)
    (by norm_num) x
  have h1 : ((5 * 2 ^ 50 : Int) : ℚ) * (2 : ℚ) ^ ((3 : Int) - 52) = 10 := by norm_num
  have h2 : (2 : ℚ) ^ ((3 : Int) - 53) = 1 / 2 ^ 50 := by norm_num
  rw [h1, h2] at h
  exact h

/-- The test `a - b > 3.0` in `float64` holds exactly when the exact
difference exceeds `3 + 2^-52`, the midpoint between `3.0` and the next
`float64`. -/
theorem f64Sub_gt_three (a b : ℚ) : f64Sub a b > 3 ↔ a - b > 3 + 1 / 2 ^ 52 := by
  unfold f64Sub
  rw [gt_iff_lt, gt_iff_lt, ← not_le, ← not_le, f64Round_le_three]

theorem f64Sub_le_three (a b : ℚ) : f64Sub a b ≤ 3 ↔ a - b ≤ 3 + 1 / 2 ^ 52 :=
  f64Round_le_three (a - b)

/-- The test `a - b <= 10.0` in `float64` holds exactly when the exact
difference is at most `10 + 2^-50`, the midpoint between `10.0` and the next
`float64`. -/
theorem f64Sub_le_ten (a b : ℚ) : f64Sub a b ≤ 10 ↔ a - b ≤ 10 + 1 / 2 ^ 50 :=
  f64Round_le_ten (a - b)

theorem f64Sub_le_three_of_le {a b : ℚ} (h : a - b ≤ 3) : f64Sub a b ≤ 3 :=
  (f64Sub_le_three a b).mpr (by
    have : (0 : ℚ) < 1 / 2 ^ 52 := by positivity
    linarith)

theorem f64Sub_le_ten_of_le {a b : ℚ} (h : a - b ≤ 10) : f64Sub a b ≤ 10 :=
  (f64Sub_le_ten a b).mpr (by
    have : (0 : ℚ) < 1 / 2 ^ 50 := by positivity
    linarith)

/-- The `float64` subtraction at work: `float64(3.1) - float64(0.1)` is
exactly `3.0`, although the exact difference of the two values is
`3 + 3 / 2^55`; an integer difference is exact. -/
theorem f64Sub_examples :
    f64Sub (6980579422424269 / 2251799813685248) (3602879701896397 / 36028797018963968) = 3
      ∧ (6980579422424269 / 2251799813685248 : ℚ) - 3602879701896397 / 36028797018963968
          = 3 + 3 / 36028797018963968
      ∧ f64Sub 13 10 = 3 ∧ f64Sub 1 3 = -2 ∧ f64Sub 25 12 = 13 := by
  decide!

theorem wrapInt64_zero_one : wrapInt64 (1 - 0) = 1 ∧ wrapInt64 (1 - 1) = 0 := by
  decide

/-- Where `1 - killerTeam` wraps: at the smallest `int`. -/
theorem wrapInt64_examples :
    wrapInt64 (1 - (-1)) = 2 ∧ wrapInt64 (1 - (-9223372036854775808)) = -9223372036854775807 := by
  decide

theorem updateStat_apply (stats : StatsMap) (k : String)
    (f : advancedPlayerStats → advancedPlayerStats) (u : String) :
    updateStat stats k f u = if u = k then (stats u).map f else stats u := rfl

theorem updateStat_frame {β : Type} {proj : advancedPlayerStats → β}
    {f : advancedPlayerStats → advancedPlayerStats} (hf : Frame proj f)
    (stats : StatsMap) (k u : String) :
    (updateStat stats k f u).map proj = (stats u).map proj := by
  unfold updateStat
  split_ifs
  · cases h : stats u with
    | none => rfl
    | some s => simp [hf s]
  · rfl

theorem tradeLoop_frame {β : Type} {proj : advancedPlayerStats → β}
    (hk : Frame proj incTradeKills) (hd : Frame proj incTradeDeaths)
    (killer victim : String) (eventTime : ℚ) (recentDeaths : List deathEvent) (u : String) :
    ∀ (n : Nat) (stats : StatsMap),
      ((tradeLoop killer victim eventTime n stats recentDeaths).1 u).map proj
        = (stats u).map proj := by
  intro n
  induction n with
  | zero => intro stats; rfl
  | succ i ih =>
    intro stats
    unfold tradeLoop
    cases recentDeaths[i]? with
    | none => rfl
    | some rd =>
      dsimp only
      split_ifs
      · rfl
      · rw [ih, updateStat_frame hd, updateStat_frame hk]
      · exact ih stats

theorem clutchCheck_frame {β : Type} {proj : advancedPlayerStats → β}
    (hc : ∀ n, Frame proj (clutchUpdate n))
    (players : List Player) (alivePlayers : Int → List String) (killer : String)
    (stats : StatsMap) (u : String) :
    (clutchCheck players alivePlayers killer stats u).map proj = (stats u).map proj := by
  unfold clutchCheck
  dsimp only
  split_ifs
  · exact updateStat_frame (hc _) _ _ _
  · rfl
  · rfl

theorem multiKillWalk_frame {β : Type} {proj : advancedPlayerStats → β}
    (hr : ∀ stat count, (recordMultiKill stat count).map proj = stat.map proj)
    (rest : List ℚ) :
    ∀ (stat : Option advancedPlayerStats) (consecutiveKills : Int) (prev : ℚ),
      (multiKillWalk stat consecutiveKills prev rest).1.map proj = stat.map proj := by
  induction rest with
  | nil => intro stat c prev; rfl
  | cons t rest ih =>
    intro stat c prev
    unfold multiKillWalk
    split_ifs
    · exact ih _ _ _
    · rw [ih, hr]

theorem multiKillFor_frame {β : Type} {proj : advancedPlayerStats → β}
    (hr : ∀ stat count, (recordMultiKill stat count).map proj = stat.map proj)
    (ha : Frame proj setAce)
    (stat : Option advancedPlayerStats) (timestamps : List ℚ) (killCount : Int) :
    (multiKillFor stat timestamps killCount).map proj = stat.map proj := by
  cases timestamps with
  | nil => rfl
  | cons first rest =>
    cases rest with
    | nil => rfl
    | cons t rest =>
      have hw := multiKillWalk_frame hr (t :: rest) stat 1 first
      have hc : proj ∘ setAce = proj := funext ha
      simp only [multiKillFor]
      split_ifs
      · rw [Option.map_map, hc, hr, hw]
      · rw [hr, hw]

theorem entryPass_frame {β : Type} {proj : advancedPlayerStats → β}
    (hk : Frame proj setEntryKill) (hd : Frame proj setEntryDeath)
    (events : List MatchUpdate) (stats : StatsMap) (u : String) :
    (entryPass events stats u).map proj = (stats u).map proj := by
  unfold entryPass
  cases events.find? (fun event => event.TypeString = "Kill") with
  | none => rfl
  | some firstKill => exact (updateStat_frame hd _ _ _).trans (updateStat_frame hk _ _ _)

theorem survivalPass_frame {β : Type} {proj : advancedPlayerStats → β}
    (hs : ∀ b, Frame proj (fun stat => { stat with Survived := b }))
    (baseStats : List PlayerRoundStats) (u : String) :
    ∀ stats : StatsMap, (survivalPass baseStats stats u).map proj = (stats u).map proj := by
  unfold survivalPass
  induction baseStats with
  | nil => intro stats; rfl
  | cons b rest ih =>
    intro stats
    rw [List.foldl_cons, ih, updateStat_frame (hs _)]

theorem kostPass_frame {β : Type} {proj : advancedPlayerStats → β}
    (hk : ∀ b c, Frame proj (fun stat => { stat with KOST := b, Survived := c }))
    (baseStats : List PlayerRoundStats) (stats : StatsMap) (u : String) :
    (kostPass baseStats stats u).map proj = (stats u).map proj := by
  unfold kostPass
  split
  · rfl
  · cases h : stats u with
    | none => rfl
    | some s => simpa using hk _ _ s

theorem result_eq_multiKillPass {β : Type} {proj : advancedPlayerStats → β}
    (h : PostFrame proj) (events : List MatchUpdate) (players : List Player)
    (baseStats : List PlayerRoundStats) (u : String) :
    (calculateAdvancedStats events players baseStats u).map proj
      = (multiKillPass (eventLoop players events) u).map proj := by
  unfold calculateAdvancedStats
  rw [kostPass_frame h.kost, survivalPass_frame h.survived,
    entryPass_frame h.entryKill h.entryDeath]

theorem result_eq_eventLoop {β : Type} {proj : advancedPlayerStats → β}
    (h : PostFrame proj) (hm : MultiFrame proj) (events : List MatchUpdate)
    (players : List Player) (baseStats : List PlayerRoundStats) (u : String) :
    (calculateAdvancedStats events players baseStats u).map proj
      = ((eventLoop players events).stats u).map proj := by
  rw [result_eq_multiKillPass h]
  exact multiKillFor_frame hm.record hm.ace _ _ _

theorem eventLoop_nil (players : List Player) : eventLoop players [] = initState players := rfl

theorem eventLoop_snoc (players : List Player) (events : List MatchUpdate) (e : MatchUpdate) :
    eventLoop players (events ++ [e]) = processEvent players (eventLoop players events) e := by
  simp [eventLoop, List.foldl_append]

/-- An event that is not a Kill touches nothing but `stats`. -/
theorem processEvent_of_ne_kill (players : List Player) (st : loopState) (e : MatchUpdate)
    (h : e.TypeString ≠ "Kill") :
    (processEvent players st e).alivePlayers = st.alivePlayers
      ∧ (processEvent players st e).killCounts = st.killCounts
      ∧ (processEvent players st e).killTimestamps = st.killTimestamps
      ∧ (processEvent players st e).recentDeaths = st.recentDeaths := by
  unfold processEvent
  simp only [h, if_false]
  split_ifs <;> exact ⟨rfl, rfl, rfl, rfl⟩

theorem processEvent_of_ne_kill_stats {β : Type} {proj : advancedPlayerStats → β}
    (ho : ObjectiveFrame proj) (players : List Player) (st : loopState) (e : MatchUpdate)
    (h : e.TypeString ≠ "Kill") (u : String) :
    ((processEvent players st e).stats u).map proj = (st.stats u).map proj := by
  unfold processEvent
  simp only [h, if_false]
  split_ifs
  · exact updateStat_frame ho.plants _ _ _
  · rfl
  · exact updateStat_frame ho.defuses _ _ _
  · rfl
  · exact updateStat_frame ho.pickups _ _ _
  · rfl
  · rfl

theorem processEvent_of_kill (players : List Player) (st : loopState) (e : MatchUpdate)
    (h : e.TypeString = "Kill") : processEvent players st e = processKill players st e := by
  unfold processEvent
  simp only [h, if_true]

/-! ## The trade loop -/

theorem tradeLoop_eq (killer victim : String) (eventTime : ℚ) (recentDeaths : List deathEvent) :
    ∀ (n : Nat), n ≤ recentDeaths.length → ∀ stats : StatsMap,
      tradeLoop killer victim eventTime n stats recentDeaths
        = ((tradeHit killer victim)^[tradeHits killer victim (tradeWindow eventTime recentDeaths n)]
              stats,
            recentDeaths.drop (n - (tradeWindow eventTime recentDeaths n).length)) := by
  intro n
  induction n with
  | zero => intro _ stats; simp [tradeLoop, tradeWindow, tradeHits]
  | succ i ih =>
    intro hi stats
    have hlt : i < recentDeaths.length := hi
    have hget : recentDeaths[i]? = some recentDeaths[i] := List.getElem?_eq_getElem hlt
    have hwin : tradeWindow eventTime recentDeaths (i + 1)
        = if inWindow eventTime recentDeaths[i] then
            recentDeaths[i] :: tradeWindow eventTime recentDeaths i
          else [] := by
      unfold tradeWindow
      rw [List.take_succ, hget, Option.toList_some, List.reverse_append,
        List.reverse_singleton, List.singleton_append, List.takeWhile_cons]
    unfold tradeLoop
    rw [hget]
    dsimp only
    by_cases hout : f64Sub eventTime recentDeaths[i].time > 3
    · have hw : inWindow eventTime recentDeaths[i] = false := by simp [inWindow, hout]
      rw [hwin, hw]
      simp [hout, tradeHits]
    · have hw : inWindow eventTime recentDeaths[i] = true := by simp [inWindow, hout]
      rw [hwin, hw]
      simp only [hout, if_false, if_true, List.length_cons, Nat.add_sub_add_right]
      by_cases hm : recentDeaths[i].killer = victim ∧ killer ≠ victim
      · rw [if_pos hm, ih (Nat.le_of_lt hlt)]
        have : tradeHits killer victim (recentDeaths[i] :: tradeWindow eventTime recentDeaths i)
            = tradeHits killer victim (tradeWindow eventTime recentDeaths i) + 1 := by
          simp [tradeHits, List.countP_cons, hm]
        rw [this, Function.iterate_succ_apply]
        rfl
      · rw [if_neg hm, ih (Nat.le_of_lt hlt)]
        have : tradeHits killer victim (recentDeaths[i] :: tradeWindow eventTime recentDeaths i)
            = tradeHits killer victim (tradeWindow eventTime recentDeaths i) := by
          simp [tradeHits, List.countP_cons, hm]
        rw [this]

theorem frame_tradeKills_incTradeDeaths : Frame (·.TradeKills) incTradeDeaths := fun _ => rfl

theorem frame_tradeDeaths_incTradeKills : Frame (·.TradeDeaths) incTradeKills := fun _ => rfl

theorem tradeHit_iterate_tradeKills (killer victim : String) (stats : StatsMap) (P : String) :
    ∀ c : Nat, (((tradeHit killer victim)^[c] stats) P).map (·.TradeKills)
      = (stats P).map (fun s => s.TradeKills + if P = killer then (c : Int) else 0) := by
  intro c
  induction c with
  | zero => rcases h : stats P with _ | s <;> simp [h]
  | succ c ih =>
    rw [Function.iterate_succ_apply']
    unfold tradeHit
    rw [updateStat_frame frame_tradeKills_incTradeDeaths, updateStat_apply]
    by_cases hk : P = killer
    · rw [if_pos hk, Option.map_map]
      have : ((·.TradeKills) ∘ incTradeKills) = (fun x => x + 1) ∘ (·.TradeKills) := rfl
      rw [this, ← Option.map_map]
      erw [ih]
      rcases h : stats P with _ | s <;> simp [hk]
      ring
    · rw [if_neg hk]
      erw [ih]
      simp [hk]

theorem tradeHit_iterate_tradeDeaths (killer victim : String) (stats : StatsMap) (P : String) :
    ∀ c : Nat, (((tradeHit killer victim)^[c] stats) P).map (·.TradeDeaths)
      = (stats P).map (fun s => s.TradeDeaths + if P = victim then (c : Int) else 0) := by
  intro c
  induction c with
  | zero => rcases h : stats P with _ | s <;> simp [h]
  | succ c ih =>
    rw [Function.iterate_succ_apply']
    unfold tradeHit
    rw [updateStat_apply]
    by_cases hv : P = victim
    · rw [if_pos hv, Option.map_map]
      have : ((·.TradeDeaths) ∘ incTradeDeaths) = (fun x => x + 1) ∘ (·.TradeDeaths) := rfl
      rw [this, ← Option.map_map, updateStat_frame frame_tradeDeaths_incTradeKills]
      erw [ih]
      rcases h : stats P with _ | s <;> simp [hv]
      ring
    · rw [if_neg hv, updateStat_frame frame_tradeDeaths_incTradeKills]
      erw [ih]
      simp [hv]

/-- When `p` is inherited by every earlier element of `l`, the leading run of
`p` is all of `p`. -/
theorem takeWhile_eq_filter_of_closed {α : Type} (p : α → Bool) :
    ∀ l : List α, l.Pairwise (fun a b => p b = true → p a = true) →
      l.takeWhile p = l.filter p := by
  intro l
  induction l with
  | nil => intro _; rfl
  | cons a l ih =>
    intro h
    rw [List.pairwise_cons] at h
    rw [List.takeWhile_cons, List.filter_cons]
    by_cases ha : p a = true
    · simp only [ha, if_true]
      rw [ih h.2]
    · have hnil : l.filter p = [] := by
        rw [List.filter_eq_nil_iff]
        intro b hb hpb
        exact ha (h.1 b hb hpb)
      simp [ha, hnil]

theorem drop_length_sub_takeWhile_reverse {α : Type} (p : α → Bool) (l : List α) :
    l.drop (l.length - (l.reverse.takeWhile p).length) = (l.reverse.takeWhile p).reverse := by
  have key : ∀ w r : List α, l = r.reverse ++ w.reverse →
      l.drop (l.length - w.length) = w.reverse := by
    intro w r h
    subst h
    have hlen : (r.reverse ++ w.reverse).length - w.length = r.reverse.length := by simp
    rw [hlen]
    exact List.drop_left' rfl
  apply key _ (l.reverse.dropWhile p)
  rw [← List.reverse_append, List.takeWhile_append_dropWhile, List.reverse_reverse]

/-- Deaths recorded in non-decreasing time: newer entries are never out of
the window while an older one is in it. -/
theorem inWindow_closed (eventTime : ℚ) (recentDeaths : List deathEvent)
    (h : recentDeaths.Pairwise (fun a b => a.time ≤ b.time)) :
    recentDeaths.reverse.Pairwise
      (fun a b => inWindow eventTime b = true → inWindow eventTime a = true) := by
  rw [List.pairwise_reverse]
  refine h.imp ?_
  intro a b hab hb
  simp only [inWindow, Bool.not_eq_true', decide_eq_false_iff_not, f64Sub_gt_three, gt_iff_lt,
    not_lt, Bool.not_eq_eq_eq_not, Bool.not_true] at hb ⊢
  linarith

/-- On a time-ordered `recentDeaths` the trade loop counts the matching
entries that are inside the window and keeps exactly the entries inside the
window. -/
theorem tradeLoop_sorted (killer victim : String) (eventTime : ℚ)
    (recentDeaths : List deathEvent) (stats : StatsMap)
    (h : recentDeaths.Pairwise (fun a b => a.time ≤ b.time)) :
    tradeLoop killer victim eventTime recentDeaths.length stats recentDeaths
      = ((tradeHit killer victim)^[tradeHits killer victim
              (recentDeaths.filter (inWindow eventTime))] stats,
          recentDeaths.filter (inWindow eventTime)) := by
  rw [tradeLoop_eq killer victim eventTime recentDeaths _ (Nat.le_refl _)]
  have hw : tradeWindow eventTime recentDeaths recentDeaths.length
      = (recentDeaths.filter (inWindow eventTime)).reverse := by
    unfold tradeWindow
    rw [List.take_length, takeWhile_eq_filter_of_closed _ _ (inWindow_closed eventTime _ h),
      List.filter_reverse]
  have hd : recentDeaths.drop (recentDeaths.length
        - (tradeWindow eventTime recentDeaths recentDeaths.length).length)
      = recentDeaths.filter (inWindow eventTime) := by
    have := drop_length_sub_takeWhile_reverse (inWindow eventTime) recentDeaths
    unfold tradeWindow
    rw [List.take_length, this,
      takeWhile_eq_filter_of_closed _ _ (inWindow_closed eventTime _ h),
      List.filter_reverse, List.reverse_reverse]
  rw [hd, hw]
  unfold tradeHits
  rw [List.countP_reverse]

/-! ## The roster and the trackers of the event loop -/

theorem initState_stats (players : List Player) (u : String) :
    (initState players).stats u
      = if u ∈ rosterNames players then some { Username := u } else none := by
  unfold initState rosterNames
  dsimp only
  have key : ∀ (l : List Player) (acc : StatsMap),
      l.foldl (fun stats player u =>
        if u = player.Username then some { Username := player.Username } else stats u) acc u
      = if u ∈ l.map (·.Username) then some { Username := u } else acc u := by
    intro l
    induction l with
    | nil => intro acc; simp
    | cons p l ih =>
      intro acc
      rw [List.foldl_cons, ih]
      by_cases h1 : u ∈ l.map (·.Username)
      · simp [h1]
      · by_cases h2 : u = p.Username
        · subst h2; simp
        · simp [h1, h2]
  exact key players _

theorem initState_alivePlayers (players : List Player) (team : Int) :
    (initState players).alivePlayers team
      = (players.filter (fun p => decide (p.TeamIndex = team))).map (·.Username) := by
  unfold initState
  dsimp only
  have key : ∀ (l : List Player) (acc : Int → List String),
      l.foldl (fun alive player team =>
        if team = player.TeamIndex then alive team ++ [player.Username] else alive team) acc team
      = acc team ++ (l.filter (fun p => decide (p.TeamIndex = team))).map (·.Username) := by
    intro l
    induction l with
    | nil => intro acc; simp
    | cons p l ih =>
      intro acc
      rw [List.foldl_cons, ih, List.filter_cons]
      by_cases h : team = p.TeamIndex
      · simp [h]
      · have h2 : ¬ p.TeamIndex = team := fun h3 => h h3.symm
        simp [h, h2]
  simpa using key players (fun _ => [])

theorem killEvents_snoc (events : List MatchUpdate) (e : MatchUpdate) :
    killEvents (events ++ [e])
      = if e.TypeString = "Kill" then killEvents events ++ [e] else killEvents events := by
  unfold killEvents
  rw [List.filter_append]
  by_cases h : e.TypeString = "Kill" <;> simp [isKill, h]

theorem eventLoop_killTimestamps (players : List Player) (events : List MatchUpdate)
    (P : String) : (eventLoop players events).killTimestamps P = killTimes P events := by
  induction events using List.reverseRecOn with
  | nil => rfl
  | append_singleton es e ih =>
    rw [eventLoop_snoc]
    unfold killTimes at ih ⊢
    rw [killEvents_snoc]
    by_cases h : e.TypeString = "Kill"
    · rw [processEvent_of_kill _ _ _ h, if_pos h, List.filter_append, List.map_append, ← ih]
      unfold processKill
      by_cases hu : P = e.Username
      · simp [hu]
      · have hu2 : ¬ e.Username = P := fun h3 => hu h3.symm
        simp [hu, hu2]
    · rw [(processEvent_of_ne_kill players _ e h).2.2.1, if_neg h, ih]

theorem eventLoop_killCounts (players : List Player) (events : List MatchUpdate)
    (P : String) : (eventLoop players events).killCounts P = ((killTimes P events).length : Int) := by
  induction events using List.reverseRecOn with
  | nil => rfl
  | append_singleton es e ih =>
    rw [eventLoop_snoc]
    unfold killTimes at ih ⊢
    rw [killEvents_snoc]
    by_cases h : e.TypeString = "Kill"
    · rw [processEvent_of_kill _ _ _ h, if_pos h, List.filter_append, List.map_append]
      unfold processKill
      by_cases hu : P = e.Username
      · subst hu
        simp [ih]
      · have hu2 : ¬ e.Username = P := fun h3 => hu h3.symm
        simp [hu, hu2, ih]
    · rw [(processEvent_of_ne_kill players _ e h).2.1, if_neg h, ih]

theorem eventLoop_alivePlayers (players : List Player) (events : List MatchUpdate)
    (team : Int) :
    (eventLoop players events).alivePlayers team
      = (victims events).foldl (fun l v => l.erase v) ((initState players).alivePlayers team) := by
  induction events using List.reverseRecOn with
  | nil => rfl
  | append_singleton es e ih =>
    rw [eventLoop_snoc]
    unfold victims at ih ⊢
    rw [killEvents_snoc]
    by_cases h : e.TypeString = "Kill"
    · rw [processEvent_of_kill _ _ _ h, if_pos h, List.map_append, List.foldl_append, ← ih]
      rfl
    · rw [(processEvent_of_ne_kill players _ e h).1, if_neg h, ih]

/-! ## Trades: the sliding window against the all-pairs definition -/

theorem countP_range_getElem {α : Type} (q : α → Bool) (l : List α) :
    (List.range l.length).countP
        (fun i => match l[i]? with
          | some a => q a
          | none => false)
      = l.countP q := by
  induction l using List.reverseRecOn with
  | nil => rfl
  | append_singleton l a ih =>
    rw [List.length_append, List.length_singleton, List.range_succ, List.countP_append,
      List.countP_append, ← ih]
    congr 1
    · apply List.countP_congr
      intro i hi
      rw [List.mem_range] at hi
      rw [List.getElem?_append_left hi]
    · simp [List.countP_cons]

theorem countTradePairs_snoc (sel : MatchUpdate → Bool) (es : List MatchUpdate)
    (e : MatchUpdate) :
    countTradePairs sel (es ++ [e])
      = countTradePairs sel es + es.countP (fun a => tradeTest a e && sel e) := by
  unfold countTradePairs
  rw [List.length_append, List.length_singleton, List.range_succ, List.map_append,
    List.sum_append, List.map_singleton, List.sum_singleton]
  congr 1
  · congr 1
    apply List.map_congr_left
    intro j hj
    rw [List.mem_range] at hj
    apply List.countP_congr
    intro i hi
    rw [List.mem_range] at hi
    unfold tradePair
    rw [List.getElem?_append_left hj, List.getElem?_append_left (Nat.lt_trans hi hj)]
  · rw [← countP_range_getElem (fun a => tradeTest a e && sel e) es]
    apply List.countP_congr
    intro i hi
    rw [List.mem_range] at hi
    unfold tradePair
    have hn : (es ++ [e])[es.length]? = some e := by simp
    rw [List.getElem?_append_left hi, hn]
    cases es[i]? <;> simp

theorem tradeTest_of_ne_kill (a e : MatchUpdate) (h : e.TypeString ≠ "Kill") :
    tradeTest a e = false := by
  simp [tradeTest, isKill, h]

/-- The hits of a Kill event `e` among the in-window deaths of the earlier
events are the earlier events that `e` trades. -/
theorem tradeHits_eq_countP (es : List MatchUpdate) (e : MatchUpdate)
    (h : e.TypeString = "Kill") :
    tradeHits e.Username e.Target
        (((killEvents es).map deathOf).filter (inWindow e.TimeInSeconds))
      = es.countP (fun a => tradeTest a e) := by
  unfold tradeHits killEvents
  rw [List.countP_filter, List.countP_map, List.countP_filter]
  apply List.countP_congr
  intro a _
  simp only [Function.comp, deathOf, inWindow, tradeTest, isKill, h, decide_True,
    Bool.and_true, Bool.and_eq_true, decide_eq_true_eq, Bool.not_eq_true',
    decide_eq_false_iff_not, not_lt, gt_iff_lt, ne_eq, Bool.decide_and, decide_not,
    Bool.not_eq_true]
  constructor
  · rintro ⟨⟨⟨h1, h2⟩, h3⟩, h4⟩
    exact ⟨⟨⟨h4, h1.symm⟩, by simpa using h2⟩, h3⟩
  · rintro ⟨⟨⟨h4, h1⟩, h2⟩, h3⟩
    exact ⟨⟨⟨h1.symm, by simpa using h2⟩, h3⟩, h4⟩

theorem killTimesOrdered_snoc {es : List MatchUpdate} {e : MatchUpdate}
    (h : killTimesOrdered (es ++ [e])) :
    killTimesOrdered es
      ∧ (e.TypeString = "Kill" → ∀ a ∈ killEvents es, a.TimeInSeconds ≤ e.TimeInSeconds) := by
  unfold killTimesOrdered at h ⊢
  rw [killEvents_snoc] at h
  by_cases hk : e.TypeString = "Kill"
  · rw [if_pos hk, List.pairwise_append] at h
    exact ⟨h.1, fun _ a ha => h.2.2 a ha e (List.mem_singleton.2 rfl)⟩
  · rw [if_neg hk] at h
    exact ⟨h, fun hk2 => absurd hk2 hk⟩

theorem inWindow_mono {T T2 : ℚ} (hT : T ≤ T2) (d : deathEvent)
    (h : inWindow T2 d = true) : inWindow T d = true := by
  simp only [inWindow, Bool.not_eq_true', decide_eq_false_iff_not, f64Sub_gt_three, gt_iff_lt,
    not_lt] at h ⊢
  linarith

/-- With Kill events in non-decreasing time, `recentDeaths` is a time-ordered
part of all the deaths so far and holds every death still inside the window
of any later time. -/
theorem eventLoop_recentDeaths (players : List Player) (events : List MatchUpdate)
    (h : killTimesOrdered events) :
    (eventLoop players events).recentDeaths.Sublist ((killEvents events).map deathOf)
      ∧ ∀ T : ℚ, (∀ a ∈ killEvents events, a.TimeInSeconds ≤ T) →
          (eventLoop players events).recentDeaths.filter (inWindow T)
            = ((killEvents events).map deathOf).filter (inWindow T) := by
  induction events using List.reverseRecOn with
  | nil => exact ⟨List.Sublist.refl _, fun _ _ => rfl⟩
  | append_singleton es e ih =>
    obtain ⟨hes, hle⟩ := killTimesOrdered_snoc h
    obtain ⟨hsub, hwin⟩ := ih hes
    rw [eventLoop_snoc, killEvents_snoc]
    by_cases hk : e.TypeString = "Kill"
    · have hsorted : (eventLoop players es).recentDeaths.Pairwise (fun a b => a.time ≤ b.time) := by
        refine List.Pairwise.sublist hsub ?_
        rw [List.pairwise_map]
        exact hes
      have hrd : (processEvent players (eventLoop players es) e).recentDeaths
          = (eventLoop players es).recentDeaths.filter (inWindow e.TimeInSeconds) ++ [deathOf e] := by
        rw [processEvent_of_kill _ _ _ hk]
        unfold processKill
        dsimp only
        rw [tradeLoop_sorted _ _ _ _ _ hsorted]
        rfl
      rw [hrd, if_pos hk, List.map_append, List.map_singleton]
      constructor
      · exact List.Sublist.append ((List.filter_sublist _).trans hsub) (List.Sublist.refl _)
      · intro T hT
        have hTe : e.TimeInSeconds ≤ T := hT e (by simp)
        have hTes : ∀ a ∈ killEvents es, a.TimeInSeconds ≤ T :=
          fun a ha => hT a (List.mem_append_left _ ha)
        rw [List.filter_append, List.filter_append, List.filter_filter, ← hwin T hTes]
        congr 1
        apply List.filter_congr
        intro d _
        by_cases hd : inWindow T d = true
        · simp [hd, inWindow_mono hTe d hd]
        · simp [hd]
    · rw [(processEvent_of_ne_kill players _ e hk).2.2.2, if_neg hk]
      exact ⟨hsub, hwin⟩

theorem postFrame_tradeKills : PostFrame (·.TradeKills) :=
  ⟨fun _ => rfl, fun _ => rfl, fun _ _ => rfl, fun _ _ _ => rfl⟩

theorem postFrame_tradeDeaths : PostFrame (·.TradeDeaths) :=
  ⟨fun _ => rfl, fun _ => rfl, fun _ _ => rfl, fun _ _ _ => rfl⟩

theorem multiFrame_tradeKills : MultiFrame (·.TradeKills) :=
  ⟨fun stat count => by
    cases stat with
    | none => rfl
    | some s => unfold recordMultiKill; dsimp only; split_ifs <;> rfl,
   fun _ => rfl⟩

theorem multiFrame_tradeDeaths : MultiFrame (·.TradeDeaths) :=
  ⟨fun stat count => by
    cases stat with
    | none => rfl
    | some s => unfold recordMultiKill; dsimp only; split_ifs <;> rfl,
   fun _ => rfl⟩

theorem objectiveFrame_tradeKills : ObjectiveFrame (·.TradeKills) :=
  ⟨fun _ => rfl, fun _ => rfl, fun _ => rfl⟩

theorem objectiveFrame_tradeDeaths : ObjectiveFrame (·.TradeDeaths) :=
  ⟨fun _ => rfl, fun _ => rfl, fun _ => rfl⟩

theorem clutchFrame_tradeKills (n : Nat) : Frame (·.TradeKills) (clutchUpdate n) := by
  intro s; unfold clutchUpdate; dsimp only; split_ifs <;> rfl

theorem clutchFrame_tradeDeaths (n : Nat) : Frame (·.TradeDeaths) (clutchUpdate n) := by
  intro s; unfold clutchUpdate; dsimp only; split_ifs <;> rfl

/-- Effect of one Kill event on the trade kills of `P`, on a time-ordered
`recentDeaths`. -/
theorem processKill_tradeKills (players : List Player) (st : loopState) (e : MatchUpdate)
    (hs : st.recentDeaths.Pairwise (fun a b => a.time ≤ b.time)) (P : String) :
    ((processKill players st e).stats P).map (·.TradeKills)
      = ((st.stats P).map (·.TradeKills)).map
          (fun x => x + if P = e.Username then
            ((tradeHits e.Username e.Target
              (st.recentDeaths.filter (inWindow e.TimeInSeconds)) : Nat) : Int) else 0) := by
  unfold processKill
  dsimp only
  rw [clutchCheck_frame clutchFrame_tradeKills, tradeLoop_sorted _ _ _ _ _ hs]
  dsimp only
  rw [tradeHit_iterate_tradeKills, Option.map_map]
  rfl

/-- Effect of one Kill event on the trade deaths of `P`, on a time-ordered
`recentDeaths`. -/
theorem processKill_tradeDeaths (players : List Player) (st : loopState) (e : MatchUpdate)
    (hs : st.recentDeaths.Pairwise (fun a b => a.time ≤ b.time)) (P : String) :
    ((processKill players st e).stats P).map (·.TradeDeaths)
      = ((st.stats P).map (·.TradeDeaths)).map
          (fun x => x + if P = e.Target then
            ((tradeHits e.Username e.Target
              (st.recentDeaths.filter (inWindow e.TimeInSeconds)) : Nat) : Int) else 0) := by
  unfold processKill
  dsimp only
  rw [clutchCheck_frame clutchFrame_tradeDeaths, tradeLoop_sorted _ _ _ _ _ hs]
  dsimp only
  rw [tradeHit_iterate_tradeDeaths, Option.map_map]
  rfl

theorem recentDeaths_sorted (players : List Player) (es : List MatchUpdate)
    (h : killTimesOrdered es) :
    (eventLoop players es).recentDeaths.Pairwise (fun a b => a.time ≤ b.time) := by
  refine List.Pairwise.sublist (eventLoop_recentDeaths players es h).1 ?_
  rw [List.pairwise_map]
  exact h

/-- The hits of the Kill event `e` that follows the time-ordered events
`es`. -/
theorem eventLoop_tradeHits (players : List Player) (es : List MatchUpdate) (e : MatchUpdate)
    (h : killTimesOrdered (es ++ [e])) (hk : e.TypeString = "Kill") :
    tradeHits e.Username e.Target
        ((eventLoop players es).recentDeaths.filter (inWindow e.TimeInSeconds))
      = es.countP (fun a => tradeTest a e) := by
  obtain ⟨hes, hle⟩ := killTimesOrdered_snoc h
  rw [(eventLoop_recentDeaths players es hes).2 _ (hle hk), tradeHits_eq_countP es e hk]

theorem eventLoop_tradeKills (players : List Player) (events : List MatchUpdate)
    (h : killTimesOrdered events) (P : String) :
    ((eventLoop players events).stats P).map (·.TradeKills)
      = if P ∈ rosterNames players then some ((naiveTradeKills events P : Nat) : Int)
        else none := by
  induction events using List.reverseRecOn with
  | nil =>
    rw [eventLoop_nil, initState_stats]
    split_ifs <;> rfl
  | append_singleton es e ih =>
    obtain ⟨hes, hle⟩ := killTimesOrdered_snoc h
    rw [eventLoop_snoc]
    unfold naiveTradeKills at ih ⊢
    rw [countTradePairs_snoc]
    by_cases hk : e.TypeString = "Kill"
    · rw [processEvent_of_kill _ _ _ hk,
        processKill_tradeKills _ _ _ (recentDeaths_sorted players es hes), ih hes,
        eventLoop_tradeHits players es e h hk]
      by_cases hP : P ∈ rosterNames players
      · by_cases hu : P = e.Username
        · subst hu
          simp [hP]
        · have hu2 : ¬ e.Username = P := fun h3 => hu h3.symm
          simp [hP, hu, hu2]
      · simp [hP]
    · rw [processEvent_of_ne_kill_stats objectiveFrame_tradeKills _ _ _ hk, ih hes]
      simp [tradeTest_of_ne_kill _ e hk]

theorem eventLoop_tradeDeaths (players : List Player) (events : List MatchUpdate)
    (h : killTimesOrdered events) (P : String) :
    ((eventLoop players events).stats P).map (·.TradeDeaths)
      = if P ∈ rosterNames players then some ((naiveTradeDeaths events P : Nat) : Int)
        else none := by
  induction events using List.reverseRecOn with
  | nil =>
    rw [eventLoop_nil, initState_stats]
    split_ifs <;> rfl
  | append_singleton es e ih =>
    obtain ⟨hes, hle⟩ := killTimesOrdered_snoc h
    rw [eventLoop_snoc]
    unfold naiveTradeDeaths at ih ⊢
    rw [countTradePairs_snoc]
    by_cases hk : e.TypeString = "Kill"
    · rw [processEvent_of_kill _ _ _ hk,
        processKill_tradeDeaths _ _ _ (recentDeaths_sorted players es hes), ih hes,
        eventLoop_tradeHits players es e h hk]
      by_cases hP : P ∈ rosterNames players
      · by_cases hu : P = e.Target
        · subst hu
          simp [hP]
        · have hu2 : ¬ e.Target = P := fun h3 => hu h3.symm
          simp [hP, hu, hu2]
      · simp [hP]
    · rw [processEvent_of_ne_kill_stats objectiveFrame_tradeDeaths _ _ _ hk, ih hes]
      simp [tradeTest_of_ne_kill _ e hk]

/-! ## The multi-kill pass against the streaks of the kill timeline -/

theorem processEvent_frame {β : Type} {proj : advancedPlayerStats → β} (h : LoopFrame proj)
    (players : List Player) (st : loopState) (e : MatchUpdate) (u : String) :
    ((processEvent players st e).stats u).map proj = (st.stats u).map proj := by
  by_cases hk : e.TypeString = "Kill"
  · rw [processEvent_of_kill _ _ _ hk]
    unfold processKill
    dsimp only
    rw [clutchCheck_frame h.clutch, tradeLoop_frame h.tradeKills h.tradeDeaths]
  · exact processEvent_of_ne_kill_stats h.objective _ _ _ hk _

theorem eventLoop_frame {β : Type} {proj : advancedPlayerStats → β} (h : LoopFrame proj)
    (players : List Player) (events : List MatchUpdate) (u : String) :
    ((eventLoop players events).stats u).map proj = ((initState players).stats u).map proj := by
  induction events using List.reverseRecOn with
  | nil => rfl
  | append_singleton es e ih => rw [eventLoop_snoc, processEvent_frame h, ih]

/-- The entry of a roster participant exists all along the event loop. -/
theorem eventLoop_stats_isSome (players : List Player) (events : List MatchUpdate) (u : String)
    (hu : u ∈ rosterNames players) : ∃ s, (eventLoop players events).stats u = some s := by
  have hf : LoopFrame (fun _ : advancedPlayerStats => ()) :=
    ⟨fun _ => rfl, fun _ => rfl, fun _ _ => rfl, ⟨fun _ => rfl, fun _ => rfl, fun _ => rfl⟩⟩
  have h := eventLoop_frame hf players events u
  rw [initState_stats, if_pos hu] at h
  cases hs : (eventLoop players events).stats u with
  | none => rw [hs] at h; cases h
  | some s => exact ⟨s, rfl⟩

theorem loopFrame_multiView : LoopFrame multiView :=
  ⟨fun _ => rfl, fun _ => rfl,
    fun n s => by unfold clutchUpdate; dsimp only; split_ifs <;> rfl,
    ⟨fun _ => rfl, fun _ => rfl, fun _ => rfl⟩⟩

theorem postFrame_multiView : PostFrame multiView :=
  ⟨fun _ => rfl, fun _ => rfl, fun _ _ => rfl, fun _ _ _ => rfl⟩

theorem streaks_cons_cons (a b : ℚ) (rest : List ℚ) :
    ∃ s ss, streaks (b :: rest) = s :: ss
      ∧ streaks (a :: b :: rest)
          = if f64Sub b a ≤ 10 then (a :: s) :: ss else [a] :: s :: ss := by
  have hne : ∀ (l : List ℚ) (x : ℚ), streaks (x :: l) ≠ [] := by
    intro l
    induction l with
    | nil => intro x; simp [streaks]
    | cons y l ih =>
      intro x
      rw [streaks]
      cases hs : streaks (y :: l) with
      | nil => simp
      | cons s ss => dsimp only; split_ifs <;> simp
  cases hs : streaks (b :: rest) with
  | nil => exact absurd hs (hne rest b)
  | cons s ss =>
    refine ⟨s, ss, rfl, ?_⟩
    rw [streaks, hs]

/-- The walk of the multi-kill pass closes the streaks of the timeline one
after the other; `consecutiveKills - 1` kills already counted belong to the
first streak. -/
theorem multiKillWalk_record (rest : List ℚ) :
    ∀ (stat : Option advancedPlayerStats) (consecutiveKills : Int) (prev : ℚ),
      ∃ s ss, streaks (prev :: rest) = s :: ss
        ∧ recordMultiKill (multiKillWalk stat consecutiveKills prev rest).1
              (multiKillWalk stat consecutiveKills prev rest).2
            = (((consecutiveKills - 1 + (s.length : Int))
                  :: ss.map (fun s => (s.length : Int))).foldl recordMultiKill stat) := by
  induction rest with
  | nil =>
    intro stat c prev
    refine ⟨[prev], [], rfl, ?_⟩
    simp [multiKillWalk]
  | cons t r ih =>
    intro stat c prev
    obtain ⟨s, ss, hs, hcons⟩ := streaks_cons_cons prev t r
    rw [hcons]
    unfold multiKillWalk
    by_cases hgap : f64Sub t prev ≤ 10
    · rw [if_pos hgap, if_pos hgap]
      obtain ⟨s2, ss2, hs2, hrec⟩ := ih stat (c + 1) t
      rw [hs] at hs2
      cases hs2
      refine ⟨prev :: s, ss, rfl, ?_⟩
      rw [hrec]
      simp only [List.foldl_cons, List.length_cons, Nat.cast_add, Nat.cast_one]
      congr 2
      ring
    · rw [if_neg hgap, if_neg hgap]
      obtain ⟨s2, ss2, hs2, hrec⟩ := ih (recordMultiKill stat c) 1 t
      rw [hs] at hs2
      cases hs2
      refine ⟨[prev], s :: ss, rfl, ?_⟩
      rw [hrec]
      simp

/-- The multi-kill pass on one entry: one `recordMultiKill` per streak, then
the ace check on the kill count. -/
theorem multiKillFor_eq (stat : Option advancedPlayerStats) (timestamps : List ℚ)
    (killCount : Int) (h2 : 2 ≤ timestamps.length) :
    multiKillFor stat timestamps killCount
      = if killCount ≥ 5 then
          ((streakLengths timestamps).foldl recordMultiKill stat).map setAce
        else (streakLengths timestamps).foldl recordMultiKill stat := by
  cases timestamps with
  | nil => simp at h2
  | cons first rest =>
    cases rest with
    | nil => simp at h2
    | cons t r =>
      obtain ⟨s, ss, hs, hrec⟩ := multiKillWalk_record (t :: r) stat 1 first
      simp only [multiKillFor]
      rw [hrec]
      unfold streakLengths
      rw [hs]
      simp

/-- The tallies after one `recordMultiKill` call on an existing entry. -/
theorem recordMultiKill_some (s : advancedPlayerStats) (n : Int) :
    ∃ s2, recordMultiKill (some s) n = some s2
      ∧ multiView s2
          = (s.DoubleKills + (if 2 ≤ n then 1 else 0), s.TripleKills + (if 3 ≤ n then 1 else 0),
              s.QuadKills + (if 4 ≤ n then 1 else 0), s.Ace || decide (5 ≤ n)) := by
  unfold recordMultiKill
  dsimp only
  by_cases h5 : n ≥ 5
  · rw [if_pos h5]
    refine ⟨_, rfl, ?_⟩
    have e2 : (2 : Int) ≤ n := by omega
    have e3 : (3 : Int) ≤ n := by omega
    have e4 : (4 : Int) ≤ n := by omega
    have e5 : (5 : Int) ≤ n := by omega
    simp [multiView, e2, e3, e4, e5]
  · rw [if_neg h5]
    by_cases h4 : n = 4
    · rw [if_pos h4]
      refine ⟨_, rfl, ?_⟩
      subst h4
      simp [multiView]
    · rw [if_neg h4]
      by_cases h3 : n = 3
      · rw [if_pos h3]
        refine ⟨_, rfl, ?_⟩
        subst h3
        simp [multiView]
      · rw [if_neg h3]
        by_cases h2 : n = 2
        · rw [if_pos h2]
          refine ⟨_, rfl, ?_⟩
          subst h2
          simp [multiView]
        · rw [if_neg h2]
          refine ⟨_, rfl, ?_⟩
          have e2 : ¬ (2 : Int) ≤ n := by omega
          have e3 : ¬ (3 : Int) ≤ n := by omega
          have e4 : ¬ (4 : Int) ≤ n := by omega
          have e5 : ¬ (5 : Int) ≤ n := by omega
          simp [multiView, e2, e3, e4, e5]

/-- The tallies after a sequence of `recordMultiKill` calls. -/
theorem foldl_recordMultiKill_view (counts : List Int) :
    ∀ s : advancedPlayerStats,
      (counts.foldl recordMultiKill (some s)).map multiView
        = some (s.DoubleKills + (counts.countP (fun n => decide (2 ≤ n)) : Nat),
                s.TripleKills + (counts.countP (fun n => decide (3 ≤ n)) : Nat),
                s.QuadKills + (counts.countP (fun n => decide (4 ≤ n)) : Nat),
                s.Ace || counts.any (fun n => decide (5 ≤ n))) := by
  induction counts with
  | nil => intro s; simp [multiView]
  | cons n ns ih =>
    intro s
    obtain ⟨s2, hs2, hv⟩ := recordMultiKill_some s n
    rw [List.foldl_cons, hs2, ih]
    simp only [multiView, Prod.mk.injEq] at hv
    obtain ⟨h2, h3, h4, h5⟩ := hv
    rw [h2, h3, h4, h5]
    simp only [List.countP_cons, List.any_cons, Option.some.injEq, Prod.mk.injEq]
    refine ⟨?_, ?_, ?_, ?_⟩
    · by_cases e : (2 : Int) ≤ n
      · simp [e]; ring
      · simp [e]
    · by_cases e : (3 : Int) ≤ n
      · simp [e]; ring
      · simp [e]
    · by_cases e : (4 : Int) ≤ n
      · simp [e]; ring
      · simp [e]
    · rw [Bool.or_assoc]

/-- The streaks are consecutive segments of the timeline. -/
theorem streaks_flatten (timestamps : List ℚ) : (streaks timestamps).flatten = timestamps := by
  induction timestamps with
  | nil => rfl
  | cons a l ih =>
    cases l with
    | nil => rfl
    | cons b rest =>
      obtain ⟨s, ss, hs, hc⟩ := streaks_cons_cons a b rest
      rw [hs] at ih
      rw [hc]
      split_ifs
      · rw [List.flatten_cons, List.cons_append, ← List.flatten_cons, ih]
      · rw [List.flatten_cons, List.singleton_append, ih]

/-- Inside a streak every adjacent gap is at most 10.0 s, and no streak is
empty. -/
theorem streaks_chain (timestamps : List ℚ) :
    ∀ s ∈ streaks timestamps, s ≠ [] ∧ s.Chain' (fun a b => f64Sub b a ≤ 10) := by
  induction timestamps with
  | nil => intro s hs; simp [streaks] at hs
  | cons a l ih =>
    cases l with
    | nil =>
      intro s hs
      simp only [streaks, List.mem_singleton] at hs
      subst hs
      simp
    | cons b rest =>
      obtain ⟨s0, ss, hs0, hc⟩ := streaks_cons_cons a b rest
      have hflat := streaks_flatten (b :: rest)
      rw [hs0] at ih hflat
      have h0 := ih s0 (List.mem_cons_self _ _)
      have hhead : ∃ t, s0 = b :: t := by
        cases s0 with
        | nil => exact absurd rfl h0.1
        | cons x t =>
          rw [List.flatten_cons, List.cons_append] at hflat
          have := (List.cons.inj hflat).1
          exact ⟨t, by rw [this]⟩
      rw [hc]
      intro s hs
      split_ifs at hs with hgap
      · rcases List.mem_cons.1 hs with h | h
        · subst h
          obtain ⟨t, ht⟩ := hhead
          subst ht
          exact ⟨by simp, List.chain'_cons.2 ⟨hgap, h0.2⟩⟩
        · exact ih s (List.mem_cons_of_mem _ h)
      · rcases List.mem_cons.1 hs with h | h
        · subst h
          simp
        · exact ih s h

/-- No streak is longer than the timeline. -/
theorem streaks_length_le (timestamps : List ℚ) :
    ∀ s ∈ streaks timestamps, s.length ≤ timestamps.length := by
  intro s hs
  have h := (List.sublist_flatten_of_mem hs).length_le
  rwa [streaks_flatten] at h

/-- A timeline whose adjacent gaps are all at most 10.0 s is one streak. -/
theorem streaks_of_chain (timestamps : List ℚ) (hne : timestamps ≠ [])
    (h : timestamps.Chain' (fun a b => f64Sub b a ≤ 10)) :
    streaks timestamps = [timestamps] := by
  induction timestamps with
  | nil => exact absurd rfl hne
  | cons a l ih =>
    cases l with
    | nil => rfl
    | cons b rest =>
      obtain ⟨s, ss, hs, hc⟩ := streaks_cons_cons a b rest
      rw [List.chain'_cons] at h
      rw [ih (by simp) h.2] at hs
      cases hs
      rw [hc, if_pos h.1]

theorem multiKillFor_short (stat : Option advancedPlayerStats) (timestamps : List ℚ)
    (killCount : Int) (h : timestamps.length < 2) :
    multiKillFor stat timestamps killCount = stat := by
  cases timestamps with
  | nil => rfl
  | cons first rest =>
    cases rest with
    | nil => rfl
    | cons t r =>
      simp only [List.length_cons] at h
      omega

theorem streaks_short (timestamps : List ℚ) (h : timestamps.length < 2) :
    ∀ s ∈ streaks timestamps, s.length < 2 := by
  intro s hs
  exact Nat.lt_of_le_of_lt (streaks_length_le timestamps s hs) h

theorem countP_streakLengths (k : Nat) (timestamps : List ℚ) :
    (streakLengths timestamps).countP (fun n => decide ((k : Int) ≤ n))
      = streaksOfLength k timestamps := by
  unfold streakLengths streaksOfLength
  rw [List.countP_map]
  apply List.countP_congr
  intro s _
  simp

theorem any_streakLengths_five (timestamps : List ℚ) (h : ¬ 5 ≤ timestamps.length) :
    (streakLengths timestamps).any (fun n => decide ((5 : Int) ≤ n)) = false := by
  rw [List.any_eq_false]
  intro n hn
  unfold streakLengths at hn
  obtain ⟨s, hs, rfl⟩ := List.mem_map.1 hn
  have := streaks_length_le timestamps s hs
  simp only [decide_eq_true_eq, not_le]
  omega

/-- The multi-kill tallies of a roster participant: one count per streak
length threshold, and the ace flag exactly for five or more kills. -/
theorem result_multiView (events : List MatchUpdate) (players : List Player)
    (baseStats : List PlayerRoundStats) (P : String) (hP : P ∈ rosterNames players) :
    (calculateAdvancedStats events players baseStats P).map multiView
      = some ((streaksOfLength 2 (killTimes P events) : Int),
              (streaksOfLength 3 (killTimes P events) : Int),
              (streaksOfLength 4 (killTimes P events) : Int),
              decide (5 ≤ (killTimes P events).length)) := by
  rw [result_eq_multiKillPass postFrame_multiView]
  unfold multiKillPass
  rw [eventLoop_killTimestamps, eventLoop_killCounts]
  obtain ⟨s0, hs0⟩ := eventLoop_stats_isSome players events P hP
  have hv := eventLoop_frame loopFrame_multiView players events P
  rw [initState_stats, if_pos hP, hs0] at hv
  simp only [Option.map_some', Option.some.injEq, multiView, Prod.mk.injEq] at hv
  obtain ⟨hd, ht, hq, ha⟩ := hv
  rw [hs0]
  by_cases h2 : 2 ≤ (killTimes P events).length
  · rw [multiKillFor_eq _ _ _ h2]
    have hfold := foldl_recordMultiKill_view (streakLengths (killTimes P events)) s0
    have c2 := countP_streakLengths 2 (killTimes P events)
    have c3 := countP_streakLengths 3 (killTimes P events)
    have c4 := countP_streakLengths 4 (killTimes P events)
    simp only [Nat.cast_ofNat] at c2 c3 c4
    rw [c2, c3, c4, hd, ht, hq, ha] at hfold
    by_cases h5 : 5 ≤ (killTimes P events).length
    · have h5i : ((killTimes P events).length : Int) ≥ 5 := by exact_mod_cast h5
      rw [if_pos h5i]
      cases hr : (streakLengths (killTimes P events)).foldl recordMultiKill (some s0) with
      | none => rw [hr] at hfold; cases hfold
      | some r =>
        rw [hr] at hfold
        simp only [Option.map_some', Option.some.injEq, multiView, Prod.mk.injEq] at hfold
        simp [multiView, setAce, hfold.1, hfold.2.1, hfold.2.2.1, h5]
    · have h5i : ¬ ((killTimes P events).length : Int) ≥ 5 := by
        intro h; exact h5 (by exact_mod_cast h)
      rw [if_neg h5i, hfold, any_streakLengths_five _ h5]
      simp [h5]
  · have hlt : (killTimes P events).length < 2 := Nat.lt_of_not_le h2
    rw [multiKillFor_short _ _ _ hlt]
    have hz : ∀ k, 2 ≤ k → streaksOfLength k (killTimes P events) = 0 := by
      intro k hk
      unfold streaksOfLength
      rw [List.countP_eq_zero]
      intro s hs
      have := streaks_short _ hlt s hs
      simp only [decide_eq_true_eq, not_le]
      omega
    have h5 : ¬ 5 ≤ (killTimes P events).length := by omega
    simp [multiView, hd, ht, hq, ha, hz, h5]

/-- Two neighbouring streaks are more than 10.0 s apart: the streaks are
maximal. -/
theorem streaks_maximal (timestamps : List ℚ) :
    (streaks timestamps).Chain'
      (fun s1 s2 => ∀ a ∈ s1.getLast?, ∀ b ∈ s2.head?, f64Sub b a > 10) := by
  induction timestamps with
  | nil => simp [streaks]
  | cons a l ih =>
    cases l with
    | nil => simp [streaks]
    | cons b rest =>
      obtain ⟨s, ss, hs, hc⟩ := streaks_cons_cons a b rest
      have hflat := streaks_flatten (b :: rest)
      have hne := (streaks_chain (b :: rest) s (by rw [hs]; exact List.mem_cons_self _ _)).1
      rw [hs] at ih hflat
      rw [hc]
      obtain ⟨x, t, rfl⟩ := List.exists_cons_of_ne_nil hne
      have hx : x = b := by
        rw [List.flatten_cons, List.cons_append] at hflat
        exact (List.cons.inj hflat).1
      subst hx
      split_ifs with hgap
      · cases ss with
        | nil => simp
        | cons s2 ss2 =>
          rw [List.chain'_cons] at ih ⊢
          refine ⟨?_, ih.2⟩
          intro u hu v hv
          refine ih.1 u ?_ v hv
          simpa [List.getLast?_cons_cons] using hu
      · rw [List.chain'_cons]
        refine ⟨?_, ih⟩
        intro u hu v hv
        simp only [List.getLast?_singleton, Option.mem_def, Option.some.injEq] at hu
        simp only [List.head?_cons, Option.mem_def, Option.some.injEq] at hv
        subst hu hv
        exact not_le.1 hgap

theorem result_field_of_multiView {x : Option advancedPlayerStats} {d t q : Int} {a : Bool}
    (h : x.map multiView = some (d, t, q, a)) :
    x.map (·.DoubleKills) = some d ∧ x.map (·.TripleKills) = some t
      ∧ x.map (·.QuadKills) = some q ∧ x.map (·.Ace) = some a := by
  cases x with
  | none => cases h
  | some s =>
    simp only [Option.map_some', Option.some.injEq, multiView, Prod.mk.injEq] at h
    simp [h.1, h.2.1, h.2.2.1, h.2.2.2]

theorem killTimes_pairwise (events : List MatchUpdate) (P : String)
    (h : killTimesOrdered events) : (killTimes P events).Pairwise (· ≤ ·) := by
  unfold killTimes
  rw [List.pairwise_map]
  exact List.Pairwise.sublist (List.filter_sublist _) h

/-! ## Claims on multi-kills -/

/-- C4, as amended: for every input and every roster participant `P`,
`doubleKills[P]`, `tripleKills[P]` and `quadKills[P]` are the numbers of
maximal streaks of length at least 2, 3 and 4 in the kill timeline of `P`,
the list of the times of P's Kill events in event order, a streak being cut
where the `float64` difference of two adjacent times, as the program computes
it, exceeds 10.0 (it is `≤ 10.0` exactly when the exact difference is at most
`10 + 2^-50`). Whenever the Kill events carry non-decreasing times the kill
timeline is the time-ordered list of P's kill times (sorting it by time
changes nothing). -/
theorem multiKill_tallies_count_streaks (events : List MatchUpdate) (players : List Player)
    (baseStats : List PlayerRoundStats) (P : String) (hP : P ∈ rosterNames players) :
    (calculateAdvancedStats events players baseStats P).map (·.DoubleKills)
        = some ((streaksOfLength 2 (killTimes P events) : Nat) : Int)
      ∧ (calculateAdvancedStats events players baseStats P).map (·.TripleKills)
        = some ((streaksOfLength 3 (killTimes P events) : Nat) : Int)
      ∧ (calculateAdvancedStats events players baseStats P).map (·.QuadKills)
        = some ((streaksOfLength 4 (killTimes P events) : Nat) : Int)
      ∧ (killTimesOrdered events →
          (killTimes P events).insertionSort (· ≤ ·) = killTimes P events)
      ∧ (∀ a b : ℚ, f64Sub b a ≤ 10 ↔ b - a ≤ 10 + 1 / 2 ^ 50) := by
  have h := result_field_of_multiView (result_multiView events players baseStats P hP)
  exact ⟨h.1, h.2.1, h.2.2.1,
    fun hord => List.Sorted.insertionSort_eq (killTimes_pairwise events P hord),
    fun a b => f64Sub_le_ten b a⟩

/-- C4 applied to the kills of `P` at 0, 3 and 25 s: `doubleKills = 1`,
`tripleKills = 0` and `quadKills = 0`. -/
theorem multiKill_tallies_count_streaks_witness :
    (calculateAdvancedStats [kill "P" "X" 0, kill "P" "Y" 3, kill "P" "Z" 25]
        [⟨"P", 0⟩, ⟨"X", 1⟩, ⟨"Y", 1⟩, ⟨"Z", 1⟩] [] "P").map (·.DoubleKills)
        = some ((streaksOfLength 2
            (killTimes "P" [kill "P" "X" 0, kill "P" "Y" 3, kill "P" "Z" 25]) : Nat) : Int)
      ∧ (calculateAdvancedStats [kill "P" "X" 0, kill "P" "Y" 3, kill "P" "Z" 25]
        [⟨"P", 0⟩, ⟨"X", 1⟩, ⟨"Y", 1⟩, ⟨"Z", 1⟩] [] "P").map (·.TripleKills)
        = some ((streaksOfLength 3
            (killTimes "P" [kill "P" "X" 0, kill "P" "Y" 3, kill "P" "Z" 25]) : Nat) : Int)
      ∧ streaksOfLength 2 (killTimes "P" [kill "P" "X" 0, kill "P" "Y" 3, kill "P" "Z" 25]) = 1
      ∧ streaksOfLength 3 (killTimes "P" [kill "P" "X" 0, kill "P" "Y" 3, kill "P" "Z" 25])
          = 0 :=
  ⟨(multiKill_tallies_count_streaks [kill "P" "X" 0, kill "P" "Y" 3, kill "P" "Z" 25]
      [⟨"P", 0⟩, ⟨"X", 1⟩, ⟨"Y", 1⟩, ⟨"Z", 1⟩] [] "P" (by decide)).1,
   (multiKill_tallies_count_streaks [kill "P" "X" 0, kill "P" "Y" 3, kill "P" "Z" 25]
      [⟨"P", 0⟩, ⟨"X", 1⟩, ⟨"Y", 1⟩, ⟨"Z", 1⟩] [] "P" (by decide)).2.1,
   by decide!, by decide!⟩

/-- C4 as stated fails when the Kill events are not in time order: for the
kills of `P` at 25, 0 and 3 s, in this event order, the program walks the
timeline `[25, 0, 3]`, finds both gaps (-25 and 3) at most 10.0 and tallies
one streak of three, `tripleKills[P] = 1`; the time-ordered list `[0, 3, 25]`
of the claim splits into the streaks `{0, 3}` and `{25}` and has no streak of
three. It fails as well when the gap is read as the exact difference: the
kills at the `float64` values nearest to 0.3, 10.3 and 20.3 are in time order
and the first exact gap exceeds 10.0, but the program computes the gap 10.0
and tallies one streak of three. -/
theorem time_ordered_streaks_differ :
    "P" ∈ rosterNames [⟨"P", 0⟩, ⟨"X", 1⟩, ⟨"Y", 1⟩, ⟨"Z", 1⟩]
      ∧ (calculateAdvancedStats [kill "P" "X" 25, kill "P" "Y" 0, kill "P" "Z" 3]
          [⟨"P", 0⟩, ⟨"X", 1⟩, ⟨"Y", 1⟩, ⟨"Z", 1⟩] [] "P").map (·.TripleKills) = some 1
      ∧ (killTimes "P" [kill "P" "X" 25, kill "P" "Y" 0, kill "P" "Z" 3]).insertionSort (· ≤ ·)
          = [0, 3, 25]
      ∧ streaksOfLength 3
          ((killTimes "P" [kill "P" "X" 25, kill "P" "Y" 0, kill "P" "Z" 3]).insertionSort
            (· ≤ ·)) = 0
      ∧ killTimesOrdered
          [kill "P" "X" (5404319552844595 / 18014398509481984),
            kill "P" "Y" (2899192260119757 / 281474976710656),
            kill "P" "Z" (5713942027226317 / 281474976710656)]
      ∧ (2899192260119757 / 281474976710656 : ℚ) - 5404319552844595 / 18014398509481984 > 10
      ∧ (calculateAdvancedStats
          [kill "P" "X" (5404319552844595 / 18014398509481984),
            kill "P" "Y" (2899192260119757 / 281474976710656),
            kill "P" "Z" (5713942027226317 / 281474976710656)]
          [⟨"P", 0⟩, ⟨"X", 1⟩, ⟨"Y", 1⟩, ⟨"Z", 1⟩] [] "P").map (·.TripleKills) = some 1 := by
  decide!

/-- Kills at 0, 3 and 25 s: the streaks are `{0, 3}` and `{25}`, so
`doubleKills = 1` and `tripleKills = 0`. -/
theorem streak_break_example :
    streaks (killTimes "P" [kill "P" "X" 0, kill "P" "Y" 3, kill "P" "Z" 25]) = [[0, 3], [25]]
      ∧ (calculateAdvancedStats [kill "P" "X" 0, kill "P" "Y" 3, kill "P" "Z" 25]
            [⟨"P", 0⟩, ⟨"X", 1⟩, ⟨"Y", 1⟩, ⟨"Z", 1⟩] [] "P").map
          (fun s => (s.DoubleKills, s.TripleKills)) = some (1, 0) := by
  decide!

/-- C5: a roster participant `P` whose `n ≥ 2` kills all have adjacent gaps of
at most 10.0 s gets `doubleKills = 1`, `tripleKills = 1` if `n ≥ 3` else 0,
`quadKills = 1` if `n ≥ 4` else 0, and `ace = (n ≥ 5)`. -/
theorem single_streak_tallies (events : List MatchUpdate) (players : List Player)
    (baseStats : List PlayerRoundStats) (P : String) (hP : P ∈ rosterNames players)
    (hn : 2 ≤ (killTimes P events).length)
    (hgaps : (killTimes P events).Chain' (fun a b => b - a ≤ 10)) :
    (calculateAdvancedStats events players baseStats P).map (·.DoubleKills) = some 1
      ∧ (calculateAdvancedStats events players baseStats P).map (·.TripleKills)
        = some (if 3 ≤ (killTimes P events).length then 1 else 0)
      ∧ (calculateAdvancedStats events players baseStats P).map (·.QuadKills)
        = some (if 4 ≤ (killTimes P events).length then 1 else 0)
      ∧ (calculateAdvancedStats events players baseStats P).map (·.Ace)
        = some (decide (5 ≤ (killTimes P events).length)) := by
  have h := result_field_of_multiView (result_multiView events players baseStats P hP)
  have hne : killTimes P events ≠ [] := by
    intro h0
    rw [h0] at hn
    simp at hn
  have hk : ∀ k, streaksOfLength k (killTimes P events)
      = if k ≤ (killTimes P events).length then 1 else 0 := by
    intro k
    unfold streaksOfLength
    rw [streaks_of_chain _ hne (hgaps.imp (fun {a b} (h : b - a ≤ 10) => f64Sub_le_ten_of_le h))]
    by_cases hkn : k ≤ (killTimes P events).length <;> simp [hkn]
  rw [hk 2, hk 3, hk 4] at h
  refine ⟨?_, ?_, ?_, h.2.2.2⟩
  · rw [h.1, if_pos hn]; rfl
  · rw [h.2.1]; split_ifs <;> rfl
  · rw [h.2.2.1]; split_ifs <;> rfl

/-- C5 at five kills of `P` at 0, 3, 6, 9 and 12 s. -/
theorem single_streak_tallies_witness :
    ("P" ∈ rosterNames [⟨"P", 0⟩, ⟨"V", 1⟩]
        ∧ 2 ≤ (killTimes "P" [kill "P" "V" 0, kill "P" "V" 3, kill "P" "V" 6,
            kill "P" "V" 9, kill "P" "V" 12]).length
        ∧ (killTimes "P" [kill "P" "V" 0, kill "P" "V" 3, kill "P" "V" 6,
            kill "P" "V" 9, kill "P" "V" 12]).Chain' (fun a b => b - a ≤ 10))
      ∧ ((calculateAdvancedStats [kill "P" "V" 0, kill "P" "V" 3, kill "P" "V" 6,
            kill "P" "V" 9, kill "P" "V" 12] [⟨"P", 0⟩, ⟨"V", 1⟩] [] "P").map
              (·.DoubleKills) = some 1
        ∧ (calculateAdvancedStats [kill "P" "V" 0, kill "P" "V" 3, kill "P" "V" 6,
            kill "P" "V" 9, kill "P" "V" 12] [⟨"P", 0⟩, ⟨"V", 1⟩] [] "P").map
              (·.TripleKills)
            = some (if 3 ≤ (killTimes "P" [kill "P" "V" 0, kill "P" "V" 3, kill "P" "V" 6,
                kill "P" "V" 9, kill "P" "V" 12]).length then 1 else 0)
        ∧ (calculateAdvancedStats [kill "P" "V" 0, kill "P" "V" 3, kill "P" "V" 6,
            kill "P" "V" 9, kill "P" "V" 12] [⟨"P", 0⟩, ⟨"V", 1⟩] [] "P").map
              (·.QuadKills)
            = some (if 4 ≤ (killTimes "P" [kill "P" "V" 0, kill "P" "V" 3, kill "P" "V" 6,
                kill "P" "V" 9, kill "P" "V" 12]).length then 1 else 0)
        ∧ (calculateAdvancedStats [kill "P" "V" 0, kill "P" "V" 3, kill "P" "V" 6,
            kill "P" "V" 9, kill "P" "V" 12] [⟨"P", 0⟩, ⟨"V", 1⟩] [] "P").map (·.Ace)
            = some (decide (5 ≤ (killTimes "P" [kill "P" "V" 0, kill "P" "V" 3,
                kill "P" "V" 6, kill "P" "V" 9, kill "P" "V" 12]).length))) :=
  ⟨⟨by decide, by decide, by norm_num [killTimes, killEvents, isKill, kill]⟩,
    single_streak_tallies [kill "P" "V" 0, kill "P" "V" 3, kill "P" "V" 6,
      kill "P" "V" 9, kill "P" "V" 12] [⟨"P", 0⟩, ⟨"V", 1⟩] [] "P"
      (by decide) (by decide) (by norm_num [killTimes, killEvents, isKill, kill])⟩

/-- Five kills at 0, 3, 6, 9 and 12 s are one streak of five:
`doubleKills = tripleKills = quadKills = 1` and `ace = true`. -/
theorem five_kill_streak_example :
    (calculateAdvancedStats [kill "P" "V" 0, kill "P" "V" 3, kill "P" "V" 6,
        kill "P" "V" 9, kill "P" "V" 12] [⟨"P", 0⟩, ⟨"V", 1⟩] [] "P").map multiView
      = some (1, 1, 1, true) := by
  decide!

theorem killTimes_length (P : String) (events : List MatchUpdate) :
    (killTimes P events).length = killsBy P events := by
  unfold killTimes killsBy killEvents
  rw [List.length_map, ← List.countP_eq_length_filter, List.countP_filter]
  apply List.countP_congr
  intro e _
  simp [and_comm]

/-- C6: for every input and every roster participant `P`, `ace[P]` is true if
and only if `P` is the killer in at least 5 Kill events, whatever the gaps
between those kills. -/
theorem ace_iff_five_kills (events : List MatchUpdate) (players : List Player)
    (baseStats : List PlayerRoundStats) (P : String) (hP : P ∈ rosterNames players) :
    ∃ s, calculateAdvancedStats events players baseStats P = some s
      ∧ (s.Ace = true ↔ 5 ≤ killsBy P events) := by
  have h := (result_field_of_multiView (result_multiView events players baseStats P hP)).2.2.2
  rw [killTimes_length] at h
  cases hr : calculateAdvancedStats events players baseStats P with
  | none => rw [hr] at h; cases h
  | some s =>
    rw [hr] at h
    refine ⟨s, rfl, ?_⟩
    simp only [Option.map_some', Option.some.injEq] at h
    rw [h]
    simp

/-- C6 at five kills of `P` more than 10 s apart from each other. -/
theorem ace_iff_five_kills_witness :
    "P" ∈ rosterNames [⟨"P", 0⟩, ⟨"V", 1⟩]
      ∧ ∃ s, calculateAdvancedStats [kill "P" "V" 0, kill "P" "V" 20, kill "P" "V" 40,
            kill "P" "V" 60, kill "P" "V" 80] [⟨"P", 0⟩, ⟨"V", 1⟩] [] "P" = some s
        ∧ (s.Ace = true ↔ 5 ≤ killsBy "P" [kill "P" "V" 0, kill "P" "V" 20, kill "P" "V" 40,
            kill "P" "V" 60, kill "P" "V" 80]) :=
  ⟨by decide,
    ace_iff_five_kills [kill "P" "V" 0, kill "P" "V" 20, kill "P" "V" 40,
      kill "P" "V" 60, kill "P" "V" 80] [⟨"P", 0⟩, ⟨"V", 1⟩] [] "P" (by decide)⟩

/-! ## Invariants of the entries along the event loop -/

theorem updateStat_all {Q : advancedPlayerStats → Prop}
    {f : advancedPlayerStats → advancedPlayerStats} (hf : ∀ s, Q s → Q (f s))
    {stats : StatsMap} (h : AllStats Q stats) (k : String) :
    AllStats Q (updateStat stats k f) := by
  intro u s hs
  unfold updateStat at hs
  split_ifs at hs
  · cases hu : stats u with
    | none => rw [hu] at hs; cases hs
    | some s0 =>
      rw [hu] at hs
      cases hs
      exact hf s0 (h u s0 hu)
  · exact h u s hs

theorem tradeLoop_all {Q : advancedPlayerStats → Prop} (hk : ∀ s, Q s → Q (incTradeKills s))
    (hd : ∀ s, Q s → Q (incTradeDeaths s)) (killer victim : String) (eventTime : ℚ)
    (recentDeaths : List deathEvent) :
    ∀ (n : Nat) (stats : StatsMap), AllStats Q stats →
      AllStats Q (tradeLoop killer victim eventTime n stats recentDeaths).1 := by
  intro n
  induction n with
  | zero => intro stats h; exact h
  | succ i ih =>
    intro stats h
    unfold tradeLoop
    cases recentDeaths[i]? with
    | none => exact h
    | some rd =>
      dsimp only
      split_ifs
      · exact h
      · exact ih _ (updateStat_all hd (updateStat_all hk h _) _)
      · exact ih _ h

theorem clutchCheck_all {Q : advancedPlayerStats → Prop}
    (hc : ∀ n s, Q s → Q (clutchUpdate n s)) (players : List Player)
    (alivePlayers : Int → List String) (killer : String) {stats : StatsMap}
    (h : AllStats Q stats) : AllStats Q (clutchCheck players alivePlayers killer stats) := by
  unfold clutchCheck
  dsimp only
  split_ifs
  · exact updateStat_all (hc _) h _
  · exact h
  · exact h

theorem processEvent_all {Q : advancedPlayerStats → Prop} (hQ : LoopInvariant Q)
    (players : List Player) (st : loopState) (e : MatchUpdate) (h : AllStats Q st.stats) :
    AllStats Q (processEvent players st e).stats := by
  unfold processEvent
  dsimp only
  split_ifs
  · unfold processKill
    dsimp only
    exact clutchCheck_all hQ.clutch _ _ _ (tradeLoop_all hQ.tradeKills hQ.tradeDeaths _ _ _ _ _ _ h)
  · exact updateStat_all hQ.plants h _
  · exact h
  · exact updateStat_all hQ.defuses h _
  · exact h
  · exact updateStat_all hQ.pickups h _
  · exact h
  · exact h

theorem eventLoop_all {Q : advancedPlayerStats → Prop} (hQ : LoopInvariant Q)
    (players : List Player) (events : List MatchUpdate) :
    AllStats Q (eventLoop players events).stats := by
  induction events using List.reverseRecOn with
  | nil =>
    intro u s hs
    rw [eventLoop_nil, initState_stats] at hs
    split_ifs at hs
    cases hs
    exact hQ.init u
  | append_singleton es e ih =>
    rw [eventLoop_snoc]
    exact processEvent_all hQ players _ e ih

/-! ## The alive lists against the roster -/

theorem foldl_erase_eq_filter (vs : List String) :
    ∀ l : List String, l.Nodup →
      vs.foldl (fun l v => l.erase v) l = l.filter (fun x => decide (x ∉ vs)) := by
  induction vs with
  | nil => intro l _; simp
  | cons v vs ih =>
    intro l hl
    rw [List.foldl_cons, hl.erase_eq_filter, ih _ (hl.filter _), List.filter_filter]
    apply List.filter_congr
    intro x _
    by_cases hx : x = v
    · simp [hx]
    · by_cases hxs : x ∈ vs <;> simp [hx, hxs]

/-- With unique roster usernames, the alive list of a team after the events
has one entry per roster participant of the team who was not killed. -/
theorem eventLoop_alive_length (players : List Player) (events : List MatchUpdate)
    (hnodup : (rosterNames players).Nodup) (team : Int) :
    ((eventLoop players events).alivePlayers team).length
      = (players.filter fun p =>
          decide (p.Username ∉ victims events) && decide (p.TeamIndex = team)).length := by
  have hsub : ((players.filter (fun p => decide (p.TeamIndex = team))).map (·.Username)).Nodup :=
    List.Nodup.sublist ((List.filter_sublist _).map _) hnodup
  rw [eventLoop_alivePlayers, initState_alivePlayers, foldl_erase_eq_filter _ _ hsub,
    List.filter_map, List.length_map, List.filter_filter]
  rfl

theorem getPlayerTeam_of_mem (players : List Player) (hnodup : (rosterNames players).Nodup)
    (p : Player) (hp : p ∈ players) : getPlayerTeam p.Username players = p.TeamIndex := by
  induction players with
  | nil => cases hp
  | cons q rest ih =>
    unfold getPlayerTeam
    unfold rosterNames at hnodup ih
    rw [List.map_cons, List.nodup_cons] at hnodup
    rcases List.mem_cons.1 hp with h | h
    · subst h
      simp
    · have hne : q.Username ≠ p.Username := by
        intro heq
        apply hnodup.1
        rw [heq]
        exact List.mem_map_of_mem _ h
      rw [if_neg hne]
      exact ih hnodup.2 h

/-! ## The clutch check -/

theorem clutchView_clutchUpdate (n : Nat) (s : advancedPlayerStats) :
    clutchView (clutchUpdate n s) = clutchStep n (clutchView s) := by
  unfold clutchUpdate clutchStep clutchView
  dsimp only
  by_cases h1 : n = 1
  · subst h1; simp
  · by_cases h2 : n = 2
    · subst h2; simp
    · by_cases h3 : n = 3
      · subst h3; simp
      · by_cases h4 : n = 4
        · subst h4; simp
        · by_cases h5 : n = 5
          · subst h5; simp
          · simp [h1, h2, h3, h4, h5]

theorem frame_clutchView_incTradeKills : Frame clutchView incTradeKills := fun _ => rfl

theorem frame_clutchView_incTradeDeaths : Frame clutchView incTradeDeaths := fun _ => rfl

theorem objectiveFrame_clutchView : ObjectiveFrame clutchView :=
  ⟨fun _ => rfl, fun _ => rfl, fun _ => rfl⟩

theorem postFrame_clutchView : PostFrame clutchView :=
  ⟨fun _ => rfl, fun _ => rfl, fun _ _ => rfl, fun _ _ _ => rfl⟩

theorem multiFrame_clutchView : MultiFrame clutchView :=
  ⟨fun stat count => by
    cases stat with
    | none => rfl
    | some s => unfold recordMultiKill; dsimp only; split_ifs <;> rfl,
   fun _ => rfl⟩

/-- The clutch statistics of the result are those at the end of the event
loop. -/
theorem result_clutchView (events : List MatchUpdate) (players : List Player)
    (baseStats : List PlayerRoundStats) (u : String) :
    (calculateAdvancedStats events players baseStats u).map clutchView
      = ((eventLoop players events).stats u).map clutchView :=
  result_eq_eventLoop postFrame_clutchView multiFrame_clutchView events players baseStats u

/-- Effect of one Kill event on the clutch statistics of `K`: the update is
made for the killer, when the killer is found in the roster with a team index
other than `-1`, exactly one member of that team is alive after the victim's
removal and at least one member of the team `1 - killerTeam` (an `int`
subtraction, which wraps). -/
theorem processKill_clutchView (players : List Player) (st : loopState) (e : MatchUpdate)
    (K : String) :
    ((processKill players st e).stats K).map clutchView
      = if K = e.Username ∧ getPlayerTeam e.Username players ≠ -1
            ∧ ((processKill players st e).alivePlayers
                (getPlayerTeam e.Username players)).length = 1
            ∧ ((processKill players st e).alivePlayers
                (wrapInt64 (1 - getPlayerTeam e.Username players))).length > 0 then
          ((st.stats K).map clutchView).map
            (clutchStep ((processKill players st e).alivePlayers
              (wrapInt64 (1 - getPlayerTeam e.Username players))).length)
        else (st.stats K).map clutchView := by
  have htr := tradeLoop_frame frame_clutchView_incTradeKills frame_clutchView_incTradeDeaths
    e.Username e.Target e.TimeInSeconds st.recentDeaths K st.recentDeaths.length st.stats
  unfold processKill clutchCheck
  dsimp only
  by_cases h1 : getPlayerTeam e.Username players ≠ -1
  · by_cases h2 : ((st.alivePlayers (getPlayerTeam e.Username players)).erase e.Target).length = 1
        ∧ ((st.alivePlayers (wrapInt64 (1 - getPlayerTeam e.Username players))).erase e.Target).length > 0
    · rw [if_pos h1, if_pos h2, updateStat_apply]
      by_cases h3 : K = e.Username
      · rw [if_pos h3, if_pos ⟨h3, h1, h2⟩, Option.map_map]
        have hc : clutchView ∘ clutchUpdate
              ((st.alivePlayers (wrapInt64 (1 - getPlayerTeam e.Username players))).erase e.Target).length
            = clutchStep
                ((st.alivePlayers (wrapInt64 (1 - getPlayerTeam e.Username players))).erase e.Target).length
              ∘ clutchView := funext (clutchView_clutchUpdate _)
        rw [hc, ← Option.map_map, htr]
      · rw [if_neg h3, if_neg (fun h => h3 h.1), htr]
    · rw [if_pos h1, if_neg h2, if_neg (fun h => h2 h.2.2), htr]
  · rw [if_neg h1, if_neg (fun h => h1 h.2.1), htr]

theorem countP_range_snoc (f g : Nat → Bool) (n : Nat) (h : ∀ i, i < n → f i = g i) :
    (List.range (n + 1)).countP f = (List.range n).countP g + if f n = true then 1 else 0 := by
  rw [List.range_succ, List.countP_append]
  congr 1
  · apply List.countP_congr
    intro i hi
    rw [h i (List.mem_range.1 hi)]
  · by_cases hf : f n = true <;> simp [hf]

theorem any_range_snoc (f g : Nat → Bool) (n : Nat) (h : ∀ i, i < n → f i = g i) :
    (List.range (n + 1)).any f = ((List.range n).any g || f n) := by
  rw [List.range_succ, List.any_append]
  congr 1
  · rw [Bool.eq_iff_iff, List.any_eq_true, List.any_eq_true]
    constructor
    · rintro ⟨i, hi, hfi⟩
      exact ⟨i, hi, by rw [← h i (List.mem_range.1 hi)]; exact hfi⟩
    · rintro ⟨i, hi, hgi⟩
      exact ⟨i, hi, by rw [h i (List.mem_range.1 hi)]; exact hgi⟩
  · simp

theorem aliveAfter_snoc (players : List Player) (es : List MatchUpdate) (e : MatchUpdate)
    (i : Nat) (hi : i < es.length) (team : Int) :
    aliveAfter players (es ++ [e]) i team = aliveAfter players es i team := by
  unfold aliveAfter
  rw [List.take_append_of_le_length hi]

theorem clutchAt_snoc (players : List Player) (es : List MatchUpdate) (e : MatchUpdate)
    (K : String) (team : Int) (i : Nat) (hi : i < es.length) :
    clutchAt players (es ++ [e]) K team i = clutchAt players es K team i := by
  unfold clutchAt
  rw [List.getElem?_append_left hi, aliveAfter_snoc _ _ _ _ hi, aliveAfter_snoc _ _ _ _ hi]

theorem clutchVsAt_snoc (players : List Player) (es : List MatchUpdate) (e : MatchUpdate)
    (K : String) (team : Int) (N : Nat) (i : Nat) (hi : i < es.length) :
    clutchVsAt players (es ++ [e]) K team N i = clutchVsAt players es K team N i := by
  unfold clutchVsAt
  rw [List.getElem?_append_left hi, aliveAfter_snoc _ _ _ _ hi, aliveAfter_snoc _ _ _ _ hi]

theorem clutchAt_last (players : List Player) (es : List MatchUpdate) (e : MatchUpdate)
    (K : String) (team : Int) :
    clutchAt players (es ++ [e]) K team es.length
      = (isKill e && decide (e.Username = K)
          && decide (aliveAfter players (es ++ [e]) es.length team = 1)
          && decide (aliveAfter players (es ++ [e]) es.length (1 - team) > 0)) := by
  unfold clutchAt
  rw [List.getElem?_concat_length]

theorem clutchVsAt_last (players : List Player) (es : List MatchUpdate) (e : MatchUpdate)
    (K : String) (team : Int) (N : Nat) :
    clutchVsAt players (es ++ [e]) K team N es.length
      = (isKill e && decide (e.Username = K)
          && decide (aliveAfter players (es ++ [e]) es.length team = 1)
          && decide (aliveAfter players (es ++ [e]) es.length (1 - team) = N)) := by
  unfold clutchVsAt
  rw [List.getElem?_concat_length]

theorem clutchCount_snoc (players : List Player) (es : List MatchUpdate) (e : MatchUpdate)
    (K : String) (team : Int) :
    clutchCount players (es ++ [e]) K team
      = clutchCount players es K team
        + if clutchAt players (es ++ [e]) K team es.length = true then 1 else 0 := by
  unfold clutchCount
  rw [List.length_append, List.length_singleton]
  exact countP_range_snoc _ _ _ (fun i hi => clutchAt_snoc players es e K team i hi)

theorem clutchVsCount_snoc (players : List Player) (es : List MatchUpdate) (e : MatchUpdate)
    (K : String) (team : Int) (N : Nat) :
    clutchVsCount players (es ++ [e]) K team N
      = clutchVsCount players es K team N
        + if clutchVsAt players (es ++ [e]) K team N es.length = true then 1 else 0 := by
  unfold clutchVsCount
  rw [List.length_append, List.length_singleton]
  exact countP_range_snoc _ _ _ (fun i hi => clutchVsAt_snoc players es e K team N i hi)

theorem clutchVsSome_snoc (players : List Player) (es : List MatchUpdate) (e : MatchUpdate)
    (K : String) (team : Int) (N : Nat) :
    clutchVsSome players (es ++ [e]) K team N
      = (clutchVsSome players es K team N
          || clutchVsAt players (es ++ [e]) K team N es.length) := by
  unfold clutchVsSome
  rw [List.length_append, List.length_singleton]
  exact any_range_snoc _ _ _ (fun i hi => clutchVsAt_snoc players es e K team N i hi)

/-- The clutch statistics read off the event list, one event later. -/
theorem clutchSpec_snoc (players : List Player) (es : List MatchUpdate) (e : MatchUpdate)
    (K : String) (team : Int) :
    clutchSpec players (es ++ [e]) K team
      = if e.TypeString = "Kill" ∧ e.Username = K
            ∧ aliveAfter players (es ++ [e]) es.length team = 1
            ∧ aliveAfter players (es ++ [e]) es.length (1 - team) > 0 then
          clutchStep (aliveAfter players (es ++ [e]) es.length (1 - team))
            (clutchSpec players es K team)
        else clutchSpec players es K team := by
  unfold clutchSpec
  rw [clutchCount_snoc, clutchVsCount_snoc, clutchVsSome_snoc, clutchVsSome_snoc,
    clutchVsSome_snoc, clutchVsSome_snoc, clutchVsSome_snoc, clutchAt_last, clutchVsAt_last,
    clutchVsAt_last, clutchVsAt_last, clutchVsAt_last, clutchVsAt_last]
  by_cases hc : e.TypeString = "Kill" ∧ e.Username = K
      ∧ aliveAfter players (es ++ [e]) es.length team = 1
      ∧ aliveAfter players (es ++ [e]) es.length (1 - team) > 0
  · rw [if_pos hc]
    obtain ⟨h1, h2, h3, h4⟩ := hc
    simp [clutchStep, isKill, h1, h2, h3, h4]
  · rw [if_neg hc]
    by_cases h1 : e.TypeString = "Kill"
    · by_cases h2 : e.Username = K
      · by_cases h3 : aliveAfter players (es ++ [e]) es.length team = 1
        · have h4 : aliveAfter players (es ++ [e]) es.length (1 - team) = 0 := by
            by_contra h4
            exact hc ⟨h1, h2, h3, Nat.pos_of_ne_zero h4⟩
          simp [isKill, h1, h2, h3, h4]
        · simp [isKill, h1, h2, h3]
      · simp [isKill, h1, h2]
    · simp [isKill, h1]

/-- With unique roster usernames, the clutch statistics of a roster
participant on team 0 or team 1 are those read off the event list. -/
theorem eventLoop_clutchView (players : List Player) (hnodup : (rosterNames players).Nodup)
    (p : Player) (hp : p ∈ players) (hteam : p.TeamIndex = 0 ∨ p.TeamIndex = 1)
    (events : List MatchUpdate) :
    ((eventLoop players events).stats p.Username).map clutchView
      = some (clutchSpec players events p.Username p.TeamIndex) := by
  have hmem : p.Username ∈ rosterNames players := List.mem_map_of_mem _ hp
  have hne : p.TeamIndex ≠ -1 := by
    rcases hteam with h | h <;> rw [h] <;> decide
  have hwrap : wrapInt64 (1 - p.TeamIndex) = 1 - p.TeamIndex := by
    rcases hteam with h | h <;> rw [h] <;> decide
  induction events using List.reverseRecOn with
  | nil =>
    rw [eventLoop_nil, initState_stats, if_pos hmem]
    rfl
  | append_singleton es e ih =>
    rw [clutchSpec_snoc]
    by_cases hk : e.TypeString = "Kill"
    · have hst : processKill players (eventLoop players es) e = eventLoop players (es ++ [e]) := by
        rw [eventLoop_snoc, processEvent_of_kill _ _ _ hk]
      have hal : ∀ t, ((eventLoop players (es ++ [e])).alivePlayers t).length
          = aliveAfter players (es ++ [e]) es.length t := by
        intro t
        rw [eventLoop_alive_length _ _ hnodup]
        unfold aliveAfter
        rw [List.take_of_length_le (by simp)]
      rw [eventLoop_snoc, processEvent_of_kill _ _ _ hk, processKill_clutchView, hst, ih]
      by_cases hu : e.Username = p.Username
      · rw [hu, getPlayerTeam_of_mem players hnodup p hp, hwrap, hal, hal]
        by_cases hc : aliveAfter players (es ++ [e]) es.length p.TeamIndex = 1
            ∧ aliveAfter players (es ++ [e]) es.length (1 - p.TeamIndex) > 0
        · rw [if_pos ⟨rfl, hne, hc⟩, if_pos ⟨hk, rfl, hc⟩]
          rfl
        · rw [if_neg (fun h => hc h.2.2), if_neg (fun h => hc h.2.2)]
      · rw [if_neg (fun h => hu h.1.symm), if_neg (fun h => hu h.2.1)]
    · rw [eventLoop_snoc, processEvent_of_ne_kill_stats objectiveFrame_clutchView _ _ _ hk, ih,
        if_neg (fun h => hk h.1)]

theorem result_clutchSpec (events : List MatchUpdate) (players : List Player)
    (baseStats : List PlayerRoundStats) (hnodup : (rosterNames players).Nodup)
    (p : Player) (hp : p ∈ players) (hteam : p.TeamIndex = 0 ∨ p.TeamIndex = 1) :
    (calculateAdvancedStats events players baseStats p.Username).map clutchView
      = some (clutchSpec players events p.Username p.TeamIndex) := by
  rw [result_clutchView, eventLoop_clutchView players hnodup p hp hteam]

theorem take_succ_eq_snoc (events : List MatchUpdate) (i : Nat) (e : MatchUpdate)
    (h : events[i]? = some e) : events.take (i + 1) = events.take i ++ [e] := by
  rw [List.take_succ, h]
  rfl

theorem length_take_of_getElem? (events : List MatchUpdate) (i : Nat) (e : MatchUpdate)
    (h : events[i]? = some e) : (events.take i).length = i := by
  have hlt : i < events.length := by
    by_contra hge
    rw [List.getElem?_eq_none (Nat.le_of_not_lt hge)] at h
    cases h
  rw [List.length_take]
  exact Nat.min_eq_left (Nat.le_of_lt hlt)

theorem aliveAfter_take (players : List Player) (events : List MatchUpdate) (i : Nat)
    (team : Int) :
    aliveAfter players (events.take (i + 1)) i team = aliveAfter players events i team := by
  unfold aliveAfter
  rw [List.take_take, Nat.min_self]

/-- The clutch statistics of a roster participant after the events up to
event `i`, against those after the events before event `i`. -/
theorem result_clutchView_step (events : List MatchUpdate) (players : List Player)
    (baseStats : List PlayerRoundStats) (hnodup : (rosterNames players).Nodup)
    (p : Player) (hp : p ∈ players) (hteam : p.TeamIndex = 0 ∨ p.TeamIndex = 1)
    (i : Nat) (e : MatchUpdate) (he : events[i]? = some e) :
    (calculateAdvancedStats (events.take (i + 1)) players baseStats p.Username).map clutchView
      = if e.TypeString = "Kill" ∧ e.Username = p.Username
            ∧ aliveAfter players events i p.TeamIndex = 1
            ∧ aliveAfter players events i (1 - p.TeamIndex) > 0 then
          ((calculateAdvancedStats (events.take i) players baseStats p.Username).map
            clutchView).map (clutchStep (aliveAfter players events i (1 - p.TeamIndex)))
        else (calculateAdvancedStats (events.take i) players baseStats p.Username).map
            clutchView := by
  rw [result_clutchSpec _ _ _ hnodup p hp hteam, result_clutchSpec _ _ _ hnodup p hp hteam]
  have h1 := clutchSpec_snoc players (events.take i) e p.Username p.TeamIndex
  rw [← take_succ_eq_snoc events i e he, length_take_of_getElem? events i e he,
    aliveAfter_take, aliveAfter_take] at h1
  rw [h1]
  split_ifs <;> rfl

/-! ## Claims on trades -/

theorem result_tradeKills (events : List MatchUpdate) (players : List Player)
    (baseStats : List PlayerRoundStats) (h : killTimesOrdered events) (P : String) :
    (calculateAdvancedStats events players baseStats P).map (·.TradeKills)
      = if P ∈ rosterNames players then some ((naiveTradeKills events P : Nat) : Int)
        else none := by
  rw [result_eq_eventLoop postFrame_tradeKills multiFrame_tradeKills,
    eventLoop_tradeKills players events h]

theorem result_tradeDeaths (events : List MatchUpdate) (players : List Player)
    (baseStats : List PlayerRoundStats) (h : killTimesOrdered events) (P : String) :
    (calculateAdvancedStats events players baseStats P).map (·.TradeDeaths)
      = if P ∈ rosterNames players then some ((naiveTradeDeaths events P : Nat) : Int)
        else none := by
  rw [result_eq_eventLoop postFrame_tradeDeaths multiFrame_tradeDeaths,
    eventLoop_tradeDeaths players events h]

theorem killTimesOrdered_pair (X B A V : String) (t1 t2 : ℚ) (ht : t1 ≤ t2) :
    killTimesOrdered [kill X B t1, kill A V t2] := by
  simp [killTimesOrdered, killEvents, isKill, kill, ht]

theorem naiveTradeKills_pair (A X B P : String) (t1 t2 : ℚ) (hAX : A ≠ X) :
    naiveTradeKills [kill X B t1, kill A X t2] P
      = if f64Sub t2 t1 ≤ 3 ∧ A = P then 1 else 0 := by
  simp [naiveTradeKills, countTradePairs, tradePair, tradeTest, isKill, kill, List.range_succ,
    hAX, List.countP_cons]

theorem naiveTradeDeaths_pair (A X B P : String) (t1 t2 : ℚ) (hAX : A ≠ X) :
    naiveTradeDeaths [kill X B t1, kill A X t2] P
      = if f64Sub t2 t1 ≤ 3 ∧ X = P then 1 else 0 := by
  simp [naiveTradeDeaths, countTradePairs, tradePair, tradeTest, isKill, kill, List.range_succ,
    hAX, List.countP_cons]

/-- C1, as amended: for a roster containing three distinct participants `A`,
`X`, `B` and times `t1 ≤ t2`, the events `Kill(X, B, t1)`, `Kill(A, X, t2)`
give `tradeKills[A] = 1` and `tradeDeaths[X] = 1` when the `float64`
difference `t2 - t1` that the program computes is `≤ 3.0`, and
`tradeKills = tradeDeaths = 0` for every participant when it is `> 3.0`. The
trade is counted for every exact gap of at most 3.0 (a gap of exactly 3.0
included), and the computed difference is `> 3.0` exactly when the exact gap
exceeds `3 + 2^-52`: an exact gap between 3.0 and `3 + 2^-52` is rounded to
3.0 and still counts. -/
theorem trade_window_two_kills (players : List Player) (baseStats : List PlayerRoundStats)
    (A X B : String) (t1 t2 : ℚ)
    (hA : A ∈ rosterNames players) (hX : X ∈ rosterNames players)
    (hB : B ∈ rosterNames players) (hAX : A ≠ X) (hAB : A ≠ B) (hXB : X ≠ B)
    (ht : t1 ≤ t2) :
    (f64Sub t2 t1 ≤ 3 →
        (calculateAdvancedStats [kill X B t1, kill A X t2] players baseStats A).map
            (·.TradeKills) = some 1
          ∧ (calculateAdvancedStats [kill X B t1, kill A X t2] players baseStats X).map
            (·.TradeDeaths) = some 1)
      ∧ (f64Sub t2 t1 > 3 → ∀ P ∈ rosterNames players,
          (calculateAdvancedStats [kill X B t1, kill A X t2] players baseStats P).map
              (·.TradeKills) = some 0
            ∧ (calculateAdvancedStats [kill X B t1, kill A X t2] players baseStats P).map
              (·.TradeDeaths) = some 0)
      ∧ (t2 - t1 ≤ 3 →
        (calculateAdvancedStats [kill X B t1, kill A X t2] players baseStats A).map
            (·.TradeKills) = some 1
          ∧ (calculateAdvancedStats [kill X B t1, kill A X t2] players baseStats X).map
            (·.TradeDeaths) = some 1)
      ∧ (f64Sub t2 t1 > 3 ↔ t2 - t1 > 3 + 1 / 2 ^ 52) := by
  have _hB := hB
  have _hAB := hAB
  have _hXB := hXB
  have hord := killTimesOrdered_pair X B A X t1 t2 ht
  have hin : f64Sub t2 t1 ≤ 3 →
      (calculateAdvancedStats [kill X B t1, kill A X t2] players baseStats A).map
          (·.TradeKills) = some 1
        ∧ (calculateAdvancedStats [kill X B t1, kill A X t2] players baseStats X).map
          (·.TradeDeaths) = some 1 := by
    intro hgap
    constructor
    · rw [result_tradeKills _ _ _ hord, if_pos hA, naiveTradeKills_pair A X B A t1 t2 hAX]
      simp [hgap]
    · rw [result_tradeDeaths _ _ _ hord, if_pos hX, naiveTradeDeaths_pair A X B X t1 t2 hAX]
      simp [hgap]
  refine ⟨hin, fun hgap P hP => ⟨?_, ?_⟩, fun hgap => hin (f64Sub_le_three_of_le hgap),
    f64Sub_gt_three t2 t1⟩
  · rw [result_tradeKills _ _ _ hord, if_pos hP, naiveTradeKills_pair A X B P t1 t2 hAX]
    simp [not_le.2 hgap]
  · rw [result_tradeDeaths _ _ _ hord, if_pos hP, naiveTradeDeaths_pair A X B P t1 t2 hAX]
    simp [not_le.2 hgap]

/-- C1 applied to the roster `A`, `B` (team 0), `X` (team 1): with the times
10 and 13 (a gap of exactly 3.0) the trade is counted, with the times 10 and
14 it is not. -/
theorem trade_window_two_kills_witness :
    ((calculateAdvancedStats [kill "X" "B" 10, kill "A" "X" 13]
          [⟨"A", 0⟩, ⟨"B", 0⟩, ⟨"X", 1⟩] [] "A").map (·.TradeKills) = some 1
        ∧ (calculateAdvancedStats [kill "X" "B" 10, kill "A" "X" 13]
          [⟨"A", 0⟩, ⟨"B", 0⟩, ⟨"X", 1⟩] [] "X").map (·.TradeDeaths) = some 1)
      ∧ ((calculateAdvancedStats [kill "X" "B" 10, kill "A" "X" 14]
          [⟨"A", 0⟩, ⟨"B", 0⟩, ⟨"X", 1⟩] [] "A").map (·.TradeKills) = some 0
        ∧ (calculateAdvancedStats [kill "X" "B" 10, kill "A" "X" 14]
          [⟨"A", 0⟩, ⟨"B", 0⟩, ⟨"X", 1⟩] [] "A").map (·.TradeDeaths) = some 0) :=
  ⟨(trade_window_two_kills [⟨"A", 0⟩, ⟨"B", 0⟩, ⟨"X", 1⟩] [] "A" "X" "B" 10 13
      (by decide) (by decide) (by decide) (by decide) (by decide) (by decide)
      (by norm_num)).1 (by decide!),
   (trade_window_two_kills [⟨"A", 0⟩, ⟨"B", 0⟩, ⟨"X", 1⟩] [] "A" "X" "B" 10 14
      (by decide) (by decide) (by decide) (by decide) (by decide) (by decide)
      (by norm_num)).2.1 (by decide!) "A" (by decide)⟩

/-- C1 as stated fails for an exact gap just above 3.0: with `t1` the
`float64` nearest to 0.1 and `t2` the `float64` nearest to 3.1, `t1 ≤ t2` and
the exact gap `t2 - t1 = 3 + 3 / 2^55` is greater than 3.0, but the `float64`
subtraction yields exactly 3.0, the eviction test `> 3.0` fails and the trade
is counted: `tradeKills[A] = 1` and `tradeDeaths[X] = 1`. -/
theorem trade_counted_for_gap_above_three :
    (3602879701896397 / 36028797018963968 : ℚ) ≤ 6980579422424269 / 2251799813685248
      ∧ (6980579422424269 / 2251799813685248 : ℚ) - 3602879701896397 / 36028797018963968 > 3
      ∧ (calculateAdvancedStats
          [kill "X" "B" (3602879701896397 / 36028797018963968),
            kill "A" "X" (6980579422424269 / 2251799813685248)]
          [⟨"A", 0⟩, ⟨"B", 0⟩, ⟨"X", 1⟩] [] "A").map (·.TradeKills) = some 1
      ∧ (calculateAdvancedStats
          [kill "X" "B" (3602879701896397 / 36028797018963968),
            kill "A" "X" (6980579422424269 / 2251799813685248)]
          [⟨"A", 0⟩, ⟨"B", 0⟩, ⟨"X", 1⟩] [] "X").map (·.TradeDeaths) = some 1 := by
  decide!

/-- The trade test in exact terms: the `float64` difference of the two times
is `≤ 3.0` exactly when the exact difference is at most `3 + 2^-52`. -/
theorem tradeTest_iff (a b : MatchUpdate) :
    tradeTest a b = true
      ↔ a.TypeString = "Kill" ∧ b.TypeString = "Kill" ∧ b.Target = a.Username
        ∧ b.Username ≠ b.Target ∧ b.TimeInSeconds - a.TimeInSeconds ≤ 3 + 1 / 2 ^ 52 := by
  unfold tradeTest isKill
  simp only [Bool.and_eq_true, decide_eq_true_eq, f64Sub_le_three, and_assoc]

/-- C2, as amended: when the Kill events carry non-decreasing times, the
sliding-window trade detector agrees with the all-pairs definition: for every
roster participant `P`, `tradeKills[P]` is the number of pairs `i < j` of Kill
events with `killer_j = P`, `victim_j = killer_i`, `killer_j ≠ victim_j` and
`time_j - time_i ≤ 3.0`, the difference being the `float64` difference that
the program computes (it is `≤ 3.0` exactly when the exact difference is at
most `3 + 2^-52`), and `tradeDeaths[P]` is the number of such pairs with
`victim_j = P`. -/
theorem trade_window_refines_all_pairs (events : List MatchUpdate) (players : List Player)
    (baseStats : List PlayerRoundStats) (h : killTimesOrdered events)
    (P : String) (hP : P ∈ rosterNames players) :
    (calculateAdvancedStats events players baseStats P).map (·.TradeKills)
        = some ((naiveTradeKills events P : Nat) : Int)
      ∧ (calculateAdvancedStats events players baseStats P).map (·.TradeDeaths)
        = some ((naiveTradeDeaths events P : Nat) : Int) := by
  rw [result_tradeKills _ _ _ h, result_tradeDeaths _ _ _ h, if_pos hP, if_pos hP]
  exact ⟨rfl, rfl⟩

/-- C2 at three kills in which the last one avenges two earlier deaths. -/
theorem trade_window_refines_all_pairs_witness :
    (killTimesOrdered [kill "V" "W" 0, kill "V" "U" 1, kill "K" "V" 2]
        ∧ "K" ∈ rosterNames [⟨"K", 0⟩, ⟨"U", 0⟩, ⟨"W", 0⟩, ⟨"V", 1⟩])
      ∧ ((calculateAdvancedStats [kill "V" "W" 0, kill "V" "U" 1, kill "K" "V" 2]
            [⟨"K", 0⟩, ⟨"U", 0⟩, ⟨"W", 0⟩, ⟨"V", 1⟩] [] "K").map (·.TradeKills)
          = some ((naiveTradeKills [kill "V" "W" 0, kill "V" "U" 1, kill "K" "V" 2] "K" : Nat) : Int)
        ∧ (calculateAdvancedStats [kill "V" "W" 0, kill "V" "U" 1, kill "K" "V" 2]
            [⟨"K", 0⟩, ⟨"U", 0⟩, ⟨"W", 0⟩, ⟨"V", 1⟩] [] "K").map (·.TradeDeaths)
          = some ((naiveTradeDeaths [kill "V" "W" 0, kill "V" "U" 1, kill "K" "V" 2] "K" : Nat)
              : Int)) :=
  ⟨⟨by decide!, by decide⟩,
    trade_window_refines_all_pairs [kill "V" "W" 0, kill "V" "U" 1, kill "K" "V" 2]
      [⟨"K", 0⟩, ⟨"U", 0⟩, ⟨"W", 0⟩, ⟨"V", 1⟩] [] (by decide!) "K" (by decide)⟩

/-- C2 as stated fails when the gap is read as the exact difference: for the
Kill events of X at the `float64` nearest to 0.1 and of A (on X) at the
`float64` nearest to 3.1, in non-decreasing time, no pair of Kill events has
an exact gap of at most 3.0, so the all-pairs count on exact gaps is 0, but
the program computes the gap 3.0 and returns `tradeKills[A] = 1`. -/
theorem all_pairs_on_exact_gaps_miss_a_trade :
    killTimesOrdered
        [kill "X" "B" (3602879701896397 / 36028797018963968),
          kill "A" "X" (6980579422424269 / 2251799813685248)]
      ∧ "A" ∈ rosterNames [⟨"A", 0⟩, ⟨"B", 0⟩, ⟨"X", 1⟩]
      ∧ exactTradeKills
          [kill "X" "B" (3602879701896397 / 36028797018963968),
            kill "A" "X" (6980579422424269 / 2251799813685248)] "A" = 0
      ∧ naiveTradeKills
          [kill "X" "B" (3602879701896397 / 36028797018963968),
            kill "A" "X" (6980579422424269 / 2251799813685248)] "A" = 1
      ∧ (calculateAdvancedStats
          [kill "X" "B" (3602879701896397 / 36028797018963968),
            kill "A" "X" (6980579422424269 / 2251799813685248)]
          [⟨"A", 0⟩, ⟨"B", 0⟩, ⟨"X", 1⟩] [] "A").map (·.TradeKills) = some 1 := by
  decide!

/-- One kill that avenges two earlier deaths is counted twice. -/
theorem one_kill_two_trades :
    naiveTradeKills [kill "V" "W" 0, kill "V" "U" 1, kill "K" "V" 2] "K" = 2
      ∧ (calculateAdvancedStats [kill "V" "W" 0, kill "V" "U" 1, kill "K" "V" 2]
            [⟨"K", 0⟩, ⟨"U", 0⟩, ⟨"W", 0⟩, ⟨"V", 1⟩] [] "K").map (·.TradeKills) = some 2 := by
  decide!

/-- C3, evaluated where it fails: team 0 = {K}, team 1 = {V, W}; V kills the
own teammate W at 10 s and K kills V at 12 s. The roster usernames are
unique and `tradeKills[K] = 1`, but the only earlier victim W is on the other
team, so no teammate of K was avenged. -/
theorem trade_kill_without_teammate :
    (rosterNames [⟨"K", 0⟩, ⟨"V", 1⟩, ⟨"W", 1⟩]).Nodup
      ∧ (calculateAdvancedStats [kill "V" "W" 10, kill "K" "V" 12]
            [⟨"K", 0⟩, ⟨"V", 1⟩, ⟨"W", 1⟩] [] "K").map (·.TradeKills) = some 1
      ∧ avengesTeammate [⟨"K", 0⟩, ⟨"V", 1⟩, ⟨"W", 1⟩]
            [kill "V" "W" 10, kill "K" "V" 12] "K" = false := by
  decide!

/-- C9, evaluated on its scenario: team 0 = {A, B}, team 1 = {X, Y, Z} and the
kills `Kill(A,X,1)`, `Kill(B,Y,2)`, `Kill(Z,B,3)`, `Kill(A,Z,4)`. The kill of
A at t=4 leaves no enemy alive, so the test `aliveEnemies > 0` fails and A
gets nothing: `clutch1v1[A] = false`, `clutchWins[A] = 0`,
`clutchAttempts[A] = 0`. The 1v1 flag and the win go to Z at t=3. -/
theorem clutch_last_kill_not_credited :
    (calculateAdvancedStats [kill "A" "X" 1, kill "B" "Y" 2, kill "Z" "B" 3, kill "A" "Z" 4]
        [⟨"A", 0⟩, ⟨"B", 0⟩, ⟨"X", 1⟩, ⟨"Y", 1⟩, ⟨"Z", 1⟩] [] "A").map
          (fun s => (s.Clutch1v1, s.ClutchWins, s.ClutchAttempts)) = some (false, 0, 0)
      ∧ (calculateAdvancedStats [kill "A" "X" 1, kill "B" "Y" 2, kill "Z" "B" 3, kill "A" "Z" 4]
        [⟨"A", 0⟩, ⟨"B", 0⟩, ⟨"X", 1⟩, ⟨"Y", 1⟩, ⟨"Z", 1⟩] [] "Z").map
          (fun s => (s.Clutch1v1, s.ClutchWins, s.ClutchAttempts)) = some (true, 1, 1) := by
  decide!

/-! ## Claims on clutches -/

theorem clutchVsSome_iff (players : List Player) (events : List MatchUpdate) (K : String)
    (team : Int) (N : Nat) :
    clutchVsSome players events K team N = true ↔ leavesOneVs players events K team N := by
  unfold clutchVsSome leavesOneVs
  rw [List.any_eq_true]
  constructor
  · rintro ⟨i, _, hi⟩
    unfold clutchVsAt at hi
    cases he : events[i]? with
    | none => rw [he] at hi; cases hi
    | some e =>
      rw [he] at hi
      simp only [isKill, Bool.and_eq_true, decide_eq_true_eq] at hi
      exact ⟨i, e, he, hi.1.1.1, hi.1.1.2, hi.1.2, hi.2⟩
  · rintro ⟨i, e, he, h1, h2, h3, h4⟩
    have hlt : i < events.length := by
      by_contra hge
      rw [List.getElem?_eq_none (Nat.le_of_not_lt hge)] at he
      cases he
    refine ⟨i, List.mem_range.2 hlt, ?_⟩
    unfold clutchVsAt
    rw [he]
    simp [isKill, h1, h2, h3, h4]

theorem exists_of_map_eq_some {β : Type} {x : Option advancedPlayerStats}
    {f : advancedPlayerStats → β} {v : β} (h : x.map f = some v) :
    ∃ s, x = some s ∧ f s = v := by
  cases x with
  | none => cases h
  | some s => exact ⟨s, rfl, Option.some.inj h⟩

/-- C7: for every input with unique roster usernames and every roster
participant `K` (on team 0 or team 1, the two team indices of the data
model), `clutchAttempts[K]` is the number of Kill events `i` by `K` with
`alive_i(team of K) = 1` and `alive_i(1 - team of K) > 0`; and a Kill event
by `K` after which the team of `K` still has 2 or more alive leaves the clutch
statistics of `K` as they were before that event. -/
theorem clutchAttempts_counts_lone_survivor_kills (events : List MatchUpdate)
    (players : List Player) (baseStats : List PlayerRoundStats)
    (hnodup : (rosterNames players).Nodup) (p : Player) (hp : p ∈ players)
    (hteam : p.TeamIndex = 0 ∨ p.TeamIndex = 1) :
    (calculateAdvancedStats events players baseStats p.Username).map (·.ClutchAttempts)
        = some ((clutchCount players events p.Username p.TeamIndex : Nat) : Int)
      ∧ ∀ i e, events[i]? = some e → e.TypeString = "Kill" → e.Username = p.Username →
          2 ≤ aliveAfter players events i p.TeamIndex →
          (calculateAdvancedStats (events.take (i + 1)) players baseStats p.Username).map
              clutchView
            = (calculateAdvancedStats (events.take i) players baseStats p.Username).map
              clutchView := by
  constructor
  · obtain ⟨s, hs, hv⟩ :=
      exists_of_map_eq_some (result_clutchSpec events players baseStats hnodup p hp hteam)
    rw [hs]
    simp only [clutchView, clutchSpec, Prod.mk.injEq] at hv
    simp [hv.1]
  · intro i e he _ _ h2
    rw [result_clutchView_step events players baseStats hnodup p hp hteam i e he,
      if_neg (fun h => by omega)]

/-- C7 at team 0 = {K}, team 1 = {Y, Z} and the kill of Y by K. -/
theorem clutchAttempts_counts_lone_survivor_kills_witness :
    ((rosterNames [⟨"K", 0⟩, ⟨"Y", 1⟩, ⟨"Z", 1⟩]).Nodup
        ∧ (⟨"K", 0⟩ : Player) ∈ [(⟨"K", 0⟩ : Player), ⟨"Y", 1⟩, ⟨"Z", 1⟩]
        ∧ ((⟨"K", 0⟩ : Player).TeamIndex = 0 ∨ (⟨"K", 0⟩ : Player).TeamIndex = 1))
      ∧ ((calculateAdvancedStats [kill "K" "Y" 5] [⟨"K", 0⟩, ⟨"Y", 1⟩, ⟨"Z", 1⟩] []
            (⟨"K", 0⟩ : Player).Username).map (·.ClutchAttempts)
          = some ((clutchCount [⟨"K", 0⟩, ⟨"Y", 1⟩, ⟨"Z", 1⟩] [kill "K" "Y" 5]
              (⟨"K", 0⟩ : Player).Username (⟨"K", 0⟩ : Player).TeamIndex : Nat) : Int)
        ∧ ∀ i e, [kill "K" "Y" 5][i]? = some e → e.TypeString = "Kill" →
            e.Username = (⟨"K", 0⟩ : Player).Username →
            2 ≤ aliveAfter [⟨"K", 0⟩, ⟨"Y", 1⟩, ⟨"Z", 1⟩] [kill "K" "Y" 5] i
                (⟨"K", 0⟩ : Player).TeamIndex →
            (calculateAdvancedStats ([kill "K" "Y" 5].take (i + 1))
                [⟨"K", 0⟩, ⟨"Y", 1⟩, ⟨"Z", 1⟩] [] (⟨"K", 0⟩ : Player).Username).map clutchView
              = (calculateAdvancedStats ([kill "K" "Y" 5].take i)
                [⟨"K", 0⟩, ⟨"Y", 1⟩, ⟨"Z", 1⟩] [] (⟨"K", 0⟩ : Player).Username).map
                  clutchView) :=
  ⟨⟨by decide, by decide, by decide⟩,
    clutchAttempts_counts_lone_survivor_kills [kill "K" "Y" 5]
      [⟨"K", 0⟩, ⟨"Y", 1⟩, ⟨"Z", 1⟩] [] (by decide) ⟨"K", 0⟩ (by decide) (by decide)⟩

/-- Outside the data model (team indices other than 0 and 1) the count of C7
is not what the code returns: the team index `-1` is the value
`getPlayerTeam` returns for a username that is not in the roster, and the
clutch check skips it. With the roster K (team -1), Y and Z (team 2) and the
kill of Z by K, one member of K's team and one member of the team
`1 - (-1) = 2` are alive after the kill, but `clutchAttempts[K] = 0`. -/
theorem clutchAttempts_skips_team_minus_one :
    (rosterNames [⟨"K", -1⟩, ⟨"Y", 2⟩, ⟨"Z", 2⟩]).Nodup
      ∧ (⟨"K", -1⟩ : Player) ∈ [(⟨"K", -1⟩ : Player), ⟨"Y", 2⟩, ⟨"Z", 2⟩]
      ∧ clutchCount [⟨"K", -1⟩, ⟨"Y", 2⟩, ⟨"Z", 2⟩] [kill "K" "Z" 5] "K" (-1) = 1
      ∧ (calculateAdvancedStats [kill "K" "Z" 5] [⟨"K", -1⟩, ⟨"Y", 2⟩, ⟨"Z", 2⟩] [] "K").map
          (·.ClutchAttempts) = some 0 := by
  decide!

/-- C8: for every input with unique roster usernames, every roster
participant `K` (on team 0 or team 1, the two team indices of the data model)
and every `N` in 1..5, `clutch1vN[K]` is true if and only if some Kill event
by `K` leaves exactly 1 participant alive on the team of `K` and exactly `N`
on the enemy team, the counts taken after the victim's removal; and a Kill
event by `K` that leaves `K`'s team with 1 alive and the enemy team with more
than 5 increments `clutchAttempts[K]` and changes no `clutch1vN` flag. -/
theorem clutch_flag_iff_one_versus_N (events : List MatchUpdate) (players : List Player)
    (baseStats : List PlayerRoundStats) (hnodup : (rosterNames players).Nodup)
    (p : Player) (hp : p ∈ players) (hteam : p.TeamIndex = 0 ∨ p.TeamIndex = 1)
    (N : Nat) (hN1 : 1 ≤ N) (hN5 : N ≤ 5) :
    (∃ s, calculateAdvancedStats events players baseStats p.Username = some s
        ∧ (clutchFlag N s = true ↔ leavesOneVs players events p.Username p.TeamIndex N))
      ∧ ∀ i e, events[i]? = some e → e.TypeString = "Kill" → e.Username = p.Username →
          aliveAfter players events i p.TeamIndex = 1 →
          5 < aliveAfter players events i (1 - p.TeamIndex) →
          ∃ s0 s1, calculateAdvancedStats (events.take i) players baseStats p.Username = some s0
            ∧ calculateAdvancedStats (events.take (i + 1)) players baseStats p.Username
                = some s1
            ∧ s1.ClutchAttempts = s0.ClutchAttempts + 1
            ∧ ∀ M, clutchFlag M s1 = clutchFlag M s0 := by
  constructor
  · obtain ⟨s, hs, hv⟩ :=
      exists_of_map_eq_some (result_clutchSpec events players baseStats hnodup p hp hteam)
    refine ⟨s, hs, ?_⟩
    simp only [clutchView, clutchSpec, Prod.mk.injEq] at hv
    obtain ⟨_, _, h1, h2, h3, h4, h5⟩ := hv
    rw [← clutchVsSome_iff]
    interval_cases N
    · rw [← h1]; simp [clutchFlag]
    · rw [← h2]; simp [clutchFlag]
    · rw [← h3]; simp [clutchFlag]
    · rw [← h4]; simp [clutchFlag]
    · rw [← h5]; simp [clutchFlag]
  · intro i e he hk hu h1 hgt
    have hstep := result_clutchView_step events players baseStats hnodup p hp hteam i e he
    rw [if_pos ⟨hk, hu, h1, by omega⟩] at hstep
    obtain ⟨s0, hs0, _⟩ := exists_of_map_eq_some
      (result_clutchSpec (events.take i) players baseStats hnodup p hp hteam)
    rw [hs0] at hstep
    obtain ⟨s1, hs1, hv⟩ := exists_of_map_eq_some hstep
    refine ⟨s0, s1, hs0, hs1, ?_⟩
    simp only [clutchView, clutchStep, Prod.mk.injEq] at hv
    obtain ⟨ha, _, c1, c2, c3, c4, c5⟩ := hv
    have n1 : ¬ aliveAfter players events i (1 - p.TeamIndex) = 1 := by omega
    have n2 : ¬ aliveAfter players events i (1 - p.TeamIndex) = 2 := by omega
    have n3 : ¬ aliveAfter players events i (1 - p.TeamIndex) = 3 := by omega
    have n4 : ¬ aliveAfter players events i (1 - p.TeamIndex) = 4 := by omega
    have n5 : ¬ aliveAfter players events i (1 - p.TeamIndex) = 5 := by omega
    simp only [n1, n2, n3, n4, n5, decide_False, Bool.or_false] at c1 c2 c3 c4 c5
    refine ⟨ha, fun M => ?_⟩
    unfold clutchFlag
    rw [c1, c2, c3, c4, c5]

/-- C8 at team 0 = {K}, team 1 = {Y, Z} and the kill of Y by K, for
`N = 1`. -/
theorem clutch_flag_iff_one_versus_N_witness :
    ((rosterNames [⟨"K", 0⟩, ⟨"Y", 1⟩, ⟨"Z", 1⟩]).Nodup
        ∧ (⟨"K", 0⟩ : Player) ∈ [(⟨"K", 0⟩ : Player), ⟨"Y", 1⟩, ⟨"Z", 1⟩]
        ∧ ((⟨"K", 0⟩ : Player).TeamIndex = 0 ∨ (⟨"K", 0⟩ : Player).TeamIndex = 1)
        ∧ 1 ≤ 1 ∧ 1 ≤ 5)
      ∧ ((∃ s, calculateAdvancedStats [kill "K" "Y" 5] [⟨"K", 0⟩, ⟨"Y", 1⟩, ⟨"Z", 1⟩] []
              (⟨"K", 0⟩ : Player).Username = some s
          ∧ (clutchFlag 1 s = true ↔ leavesOneVs [⟨"K", 0⟩, ⟨"Y", 1⟩, ⟨"Z", 1⟩]
              [kill "K" "Y" 5] (⟨"K", 0⟩ : Player).Username (⟨"K", 0⟩ : Player).TeamIndex 1))
        ∧ ∀ i e, [kill "K" "Y" 5][i]? = some e → e.TypeString = "Kill" →
            e.Username = (⟨"K", 0⟩ : Player).Username →
            aliveAfter [⟨"K", 0⟩, ⟨"Y", 1⟩, ⟨"Z", 1⟩] [kill "K" "Y" 5] i
                (⟨"K", 0⟩ : Player).TeamIndex = 1 →
            5 < aliveAfter [⟨"K", 0⟩, ⟨"Y", 1⟩, ⟨"Z", 1⟩] [kill "K" "Y" 5] i
                (1 - (⟨"K", 0⟩ : Player).TeamIndex) →
            ∃ s0 s1, calculateAdvancedStats ([kill "K" "Y" 5].take i)
                  [⟨"K", 0⟩, ⟨"Y", 1⟩, ⟨"Z", 1⟩] [] (⟨"K", 0⟩ : Player).Username = some s0
              ∧ calculateAdvancedStats ([kill "K" "Y" 5].take (i + 1))
                  [⟨"K", 0⟩, ⟨"Y", 1⟩, ⟨"Z", 1⟩] [] (⟨"K", 0⟩ : Player).Username = some s1
              ∧ s1.ClutchAttempts = s0.ClutchAttempts + 1
              ∧ ∀ M, clutchFlag M s1 = clutchFlag M s0) :=
  ⟨⟨by decide, by decide, by decide, by decide, by decide⟩,
    clutch_flag_iff_one_versus_N [kill "K" "Y" 5] [⟨"K", 0⟩, ⟨"Y", 1⟩, ⟨"Z", 1⟩] []
      (by decide) ⟨"K", 0⟩ (by decide) (by decide) 1 (by decide) (by decide)⟩

/-- Outside the data model (team indices other than 0 and 1): with the roster
K (team -1), Y and Z (team 2) and the kill of Z by K, the kill leaves exactly
1 alive on K's team and exactly 1 on the team `1 - (-1) = 2`, but
`clutch1v1[K]` stays false, because the clutch check skips the team index
`-1`. -/
theorem clutch_flag_skips_team_minus_one :
    (rosterNames [⟨"K", -1⟩, ⟨"Y", 2⟩, ⟨"Z", 2⟩]).Nodup
      ∧ (⟨"K", -1⟩ : Player) ∈ [(⟨"K", -1⟩ : Player), ⟨"Y", 2⟩, ⟨"Z", 2⟩]
      ∧ leavesOneVs [⟨"K", -1⟩, ⟨"Y", 2⟩, ⟨"Z", 2⟩] [kill "K" "Z" 5] "K" (-1) 1
      ∧ (calculateAdvancedStats [kill "K" "Z" 5] [⟨"K", -1⟩, ⟨"Y", 2⟩, ⟨"Z", 2⟩] [] "K").map
          (clutchFlag 1) = some false :=
  ⟨by decide, by decide, ⟨0, kill "K" "Z" 5, rfl, rfl, rfl, by decide, by decide⟩, by decide!⟩

theorem loopInvariant_flagHasAttempt : LoopInvariant flagHasAttempt where
  init := fun u => ⟨le_refl _, fun h => by simp at h⟩
  tradeKills := fun _ h => h
  tradeDeaths := fun _ h => h
  clutch := fun n s h => by
    have hv := clutchView_clutchUpdate n s
    simp only [clutchView, clutchStep, Prod.mk.injEq] at hv
    unfold flagHasAttempt
    rw [hv.1]
    have := h.1
    exact ⟨by omega, fun _ => by omega⟩
  plants := fun _ h => h
  defuses := fun _ h => h
  pickups := fun _ h => h

/-- C10: for every input and every participant `P` of the result, if any of
`clutch1v1[P]` .. `clutch1v5[P]` is true then `clutchAttempts[P] ≥ 1`. -/
theorem clutch_flag_implies_attempt (events : List MatchUpdate) (players : List Player)
    (baseStats : List PlayerRoundStats) (P : String) (s : advancedPlayerStats)
    (hs : calculateAdvancedStats events players baseStats P = some s)
    (hflag : s.Clutch1v1 = true ∨ s.Clutch1v2 = true ∨ s.Clutch1v3 = true
      ∨ s.Clutch1v4 = true ∨ s.Clutch1v5 = true) :
    1 ≤ s.ClutchAttempts := by
  have hv := result_clutchView events players baseStats P
  rw [hs] at hv
  obtain ⟨s0, hs0, hview⟩ := exists_of_map_eq_some hv.symm
  have hQ := eventLoop_all loopInvariant_flagHasAttempt players events P s0 hs0
  simp only [clutchView, Prod.mk.injEq] at hview
  obtain ⟨ha, _, c1, c2, c3, c4, c5⟩ := hview
  unfold flagHasAttempt at hQ
  rw [ha, c1, c2, c3, c4, c5] at hQ
  exact hQ.2 hflag

/-- C10 at team 0 = {K}, team 1 = {Y, Z} and the kill of Y by K, which sets
`clutch1v1[K]`. -/
theorem clutch_flag_implies_attempt_witness :
    (calculateAdvancedStats [kill "K" "Y" 5] [⟨"K", 0⟩, ⟨"Y", 1⟩, ⟨"Z", 1⟩] [] "K"
          = some { Username := "K", EntryKill := true, ClutchAttempts := 1, ClutchWins := 1,
                   Clutch1v1 := true }
        ∧ ((({ Username := "K", EntryKill := true, ClutchAttempts := 1, ClutchWins := 1,
                Clutch1v1 := true } : advancedPlayerStats).Clutch1v1 = true)
          ∨ (({ Username := "K", EntryKill := true, ClutchAttempts := 1, ClutchWins := 1,
                Clutch1v1 := true } : advancedPlayerStats).Clutch1v2 = true)
          ∨ (({ Username := "K", EntryKill := true, ClutchAttempts := 1, ClutchWins := 1,
                Clutch1v1 := true } : advancedPlayerStats).Clutch1v3 = true)
          ∨ (({ Username := "K", EntryKill := true, ClutchAttempts := 1, ClutchWins := 1,
                Clutch1v1 := true } : advancedPlayerStats).Clutch1v4 = true)
          ∨ (({ Username := "K", EntryKill := true, ClutchAttempts := 1, ClutchWins := 1,
                Clutch1v1 := true } : advancedPlayerStats).Clutch1v5 = true)))
      ∧ 1 ≤ ({ Username := "K", EntryKill := true, ClutchAttempts := 1, ClutchWins := 1,
                Clutch1v1 := true } : advancedPlayerStats).ClutchAttempts :=
  ⟨⟨by decide!, Or.inl rfl⟩,
    clutch_flag_implies_attempt [kill "K" "Y" 5] [⟨"K", 0⟩, ⟨"Y", 1⟩, ⟨"Z", 1⟩] [] "K"
      { Username := "K", EntryKill := true, ClutchAttempts := 1, ClutchWins := 1,
        Clutch1v1 := true }
      (by decide!) (Or.inl rfl)⟩

/-! ## The finalising passes, entry by entry -/

theorem find?_kill_eq_firstKill (events : List MatchUpdate) :
    events.find? (fun event => decide (event.TypeString = "Kill")) = firstKill events := by
  unfold firstKill killEvents
  induction events with
  | nil => rfl
  | cons e es ih =>
    by_cases h : e.TypeString = "Kill"
    · simp [List.find?_cons, List.filter_cons, isKill, h]
    · simp only [List.find?_cons, List.filter_cons, isKill, h, decide_False, ih]
      rfl

theorem entryPass_apply (events : List MatchUpdate) (stats : StatsMap) (P : String) :
    entryPass events stats P = (stats P).map (entryStep events P) := by
  unfold entryPass entryStep
  rw [find?_kill_eq_firstKill]
  cases firstKill events with
  | none => simp
  | some fk =>
    dsimp only
    rw [updateStat_apply, updateStat_apply]
    by_cases h1 : P = fk.Username
    · by_cases h2 : P = fk.Target
      · simp only [if_pos h1, if_pos h2, Option.map_map]
        rfl
      · simp only [if_pos h1, if_neg h2]
    · by_cases h2 : P = fk.Target
      · simp only [if_neg h1, if_pos h2]
      · simp only [if_neg h1, if_neg h2]
        cases stats P <;> rfl

theorem survivalPass_snoc (baseStats : List PlayerRoundStats) (b : PlayerRoundStats)
    (stats : StatsMap) :
    survivalPass (baseStats ++ [b]) stats
      = updateStat (survivalPass baseStats stats) b.Username
          (fun stat => { stat with Survived := !b.Died }) := by
  unfold survivalPass
  rw [List.foldl_append]
  rfl

theorem survivalPass_apply (baseStats : List PlayerRoundStats) (stats : StatsMap) (P : String) :
    survivalPass baseStats stats P = (stats P).map (survivalStep baseStats P) := by
  induction baseStats using List.reverseRecOn with
  | nil =>
    unfold survivalPass survivalStep
    simp
  | append_singleton bs b ih =>
    rw [survivalPass_snoc, updateStat_apply, ih]
    unfold survivalStep
    rw [List.filter_append]
    by_cases h : b.Username = P
    · have hP : P = b.Username := h.symm
      rw [if_pos hP]
      simp only [List.filter_cons, h, decide_True, if_true, List.filter_nil,
        List.getLast?_append, List.getLast?_singleton, Option.or_some, Option.map_map]
      cases hl : (bs.filter (fun b => decide (b.Username = P))).getLast? <;>
        cases stats P <;> rfl
    · have hP : ¬ P = b.Username := fun h2 => h h2.symm
      rw [if_neg hP]
      simp [List.filter_cons, h]

theorem kostPass_apply (baseStats : List PlayerRoundStats) (stats : StatsMap) (P : String) :
    kostPass baseStats stats P = (stats P).map (kostStep baseStats P) := by
  unfold kostPass kostStep baseStatsOf
  cases baseStats.find? (fun b => decide (b.Username = P)) with
  | none => simp
  | some b =>
    cases stats P with
    | none => rfl
    | some s =>
      rfl

/-- The result entry of `P` is the entry after the multi-kill pass, run
through the entry-duel, survival and KOST passes. -/
theorem result_eq_steps (events : List MatchUpdate) (players : List Player)
    (baseStats : List PlayerRoundStats) (P : String) :
    calculateAdvancedStats events players baseStats P
      = (multiKillPass (eventLoop players events) P).map
          (fun s => kostStep baseStats P (survivalStep baseStats P (entryStep events P s))) := by
  unfold calculateAdvancedStats
  rw [kostPass_apply, survivalPass_apply, entryPass_apply, Option.map_map, Option.map_map]
  rfl

theorem multiKillPass_frame {β : Type} {proj : advancedPlayerStats → β} (hl : LoopFrame proj)
    (hm : MultiFrame proj) (players : List Player) (events : List MatchUpdate) (u : String) :
    (multiKillPass (eventLoop players events) u).map proj
      = ((initState players).stats u).map proj := by
  unfold multiKillPass
  rw [multiKillFor_frame hm.record hm.ace, eventLoop_frame hl]

theorem multiFrame_of_fields {β : Type} (proj : advancedPlayerStats → β)
    (h : ∀ (s : advancedPlayerStats) (d t q : Int) (a : Bool),
      proj { s with DoubleKills := d, TripleKills := t, QuadKills := q, Ace := a } = proj s) :
    MultiFrame proj := by
  refine ⟨fun stat count => ?_, fun s => ?_⟩
  · cases stat with
    | none => rfl
    | some s =>
      unfold recordMultiKill
      dsimp only
      split_ifs
      · exact congrArg some (h s _ _ _ _)
      · exact congrArg some (h s _ _ _ _)
      · exact congrArg some (h s _ _ _ _)
      · exact congrArg some (h s _ _ _ _)
      · rfl
  · exact h s _ _ _ _

theorem loopFrame_of_fields {β : Type} (proj : advancedPlayerStats → β)
    (h : ∀ (s : advancedPlayerStats) (dp dd du ca cw tk td : Int) (c1 c2 c3 c4 c5 : Bool),
      proj { s with DefuserPlants := dp, DefuserDefuses := dd, DefuserPickups := du,
                    ClutchAttempts := ca, ClutchWins := cw, Clutch1v1 := c1, Clutch1v2 := c2,
                    Clutch1v3 := c3, Clutch1v4 := c4, Clutch1v5 := c5, TradeKills := tk,
                    TradeDeaths := td } = proj s) :
    LoopFrame proj := by
  refine ⟨fun s => h s _ _ _ _ _ _ _ _ _ _ _ _, fun s => h s _ _ _ _ _ _ _ _ _ _ _ _,
    fun n s => ?_, ⟨fun s => h s _ _ _ _ _ _ _ _ _ _ _ _, fun s => h s _ _ _ _ _ _ _ _ _ _ _ _,
      fun s => h s _ _ _ _ _ _ _ _ _ _ _ _⟩⟩
  unfold clutchUpdate
  dsimp only
  split_ifs <;> exact h s _ _ _ _ _ _ _ _ _ _ _ _

/-- After the multi-kill pass the entry of a roster participant carries its
username and none of the flags of the finalising passes. -/
theorem multiKillPass_late (players : List Player) (events : List MatchUpdate) (P : String)
    (hP : P ∈ rosterNames players) :
    ∃ s, multiKillPass (eventLoop players events) P = some s
      ∧ lateView s = (false, false, false, false) ∧ s.Username = P := by
  have hl : LoopFrame (fun s => (lateView s, s.Username)) :=
    loopFrame_of_fields _ (fun _ _ _ _ _ _ _ _ _ _ _ _ _ => rfl)
  have hm : MultiFrame (fun s => (lateView s, s.Username)) :=
    multiFrame_of_fields _ (fun _ _ _ _ _ => rfl)
  have h := multiKillPass_frame hl hm players events P
  rw [initState_stats, if_pos hP] at h
  obtain ⟨s, hs, hv⟩ := exists_of_map_eq_some h
  simp only [Prod.mk.injEq] at hv
  exact ⟨s, hs, hv.1, hv.2⟩

/-- A username outside the roster has no entry after the multi-kill pass. -/
theorem multiKillPass_none (players : List Player) (events : List MatchUpdate) (u : String)
    (hu : u ∉ rosterNames players) : multiKillPass (eventLoop players events) u = none := by
  have hl : LoopFrame (fun _ : advancedPlayerStats => ()) :=
    loopFrame_of_fields _ (fun _ _ _ _ _ _ _ _ _ _ _ _ _ => rfl)
  have hm : MultiFrame (fun _ : advancedPlayerStats => ()) :=
    multiFrame_of_fields _ (fun _ _ _ _ _ => rfl)
  have h := multiKillPass_frame hl hm players events u
  rw [initState_stats, if_neg hu] at h
  cases hs : multiKillPass (eventLoop players events) u with
  | none => rfl
  | some s => rw [hs] at h; cases h

theorem result_none (events : List MatchUpdate) (players : List Player)
    (baseStats : List PlayerRoundStats) (u : String) (hu : u ∉ rosterNames players) :
    calculateAdvancedStats events players baseStats u = none := by
  rw [result_eq_steps, multiKillPass_none players events u hu]
  rfl

theorem entryView_kostStep (baseStats : List PlayerRoundStats) (P : String)
    (s : advancedPlayerStats) : entryView (kostStep baseStats P s) = entryView s := by
  unfold kostStep
  cases baseStatsOf baseStats P <;> rfl

theorem entryView_survivalStep (baseStats : List PlayerRoundStats) (P : String)
    (s : advancedPlayerStats) : entryView (survivalStep baseStats P s) = entryView s := by
  unfold survivalStep
  cases (baseStats.filter (fun b => decide (b.Username = P))).getLast? <;> rfl

theorem entryView_entryStep (events : List MatchUpdate) (P : String) (s : advancedPlayerStats)
    (hs : entryView s = (false, false)) : entryView (entryStep events P s) = entrySpec events P := by
  unfold entryStep entrySpec
  simp only [entryView, Prod.mk.injEq] at hs
  cases firstKill events with
  | none => simp [entryView, hs.1, hs.2]
  | some fk =>
    dsimp only
    by_cases h1 : P = fk.Username
    · by_cases h2 : P = fk.Target
      · simp [entryView, setEntryKill, setEntryDeath, if_pos h1, if_pos h2, h1.symm, h2.symm]
      · have h2b : ¬ fk.Target = P := fun h => h2 h.symm
        simp [entryView, setEntryKill, if_pos h1, if_neg h2, h1.symm, h2b, hs.2]
    · have h1b : ¬ fk.Username = P := fun h => h1 h.symm
      by_cases h2 : P = fk.Target
      · simp [entryView, setEntryDeath, if_neg h1, if_pos h2, h1b, h2.symm, hs.1]
      · have h2b : ¬ fk.Target = P := fun h => h2 h.symm
        simp [entryView, if_neg h1, if_neg h2, h1b, h2b, hs.1, hs.2]

/-- The entry-duel flags of a roster participant in the result. -/
theorem result_entryView (events : List MatchUpdate) (players : List Player)
    (baseStats : List PlayerRoundStats) (P : String) (hP : P ∈ rosterNames players) :
    (calculateAdvancedStats events players baseStats P).map entryView
      = some (entrySpec events P) := by
  obtain ⟨s, hs, hv, _⟩ := multiKillPass_late players events P hP
  rw [result_eq_steps, hs]
  simp only [Option.map_some', Option.some.injEq]
  rw [entryView_kostStep, entryView_survivalStep, entryView_entryStep]
  simp only [lateView, Prod.mk.injEq] at hv
  simp [entryView, hv.1, hv.2.1]

theorem firstKill_append (events later : List MatchUpdate) (h : killEvents events ≠ []) :
    firstKill (events ++ later) = firstKill events := by
  unfold firstKill
  have : killEvents (events ++ later) = killEvents events ++ killEvents later := by
    unfold killEvents
    exact List.filter_append _ _
  rw [this, List.head?_append_of_ne_nil _ h]

theorem entryKill_true_iff (events : List MatchUpdate) (players : List Player)
    (baseStats : List PlayerRoundStats) (u : String) :
    (calculateAdvancedStats events players baseStats u).map (·.EntryKill) = some true
      ↔ u ∈ rosterNames players ∧ ∃ fk, firstKill events = some fk ∧ fk.Username = u := by
  by_cases hu : u ∈ rosterNames players
  · obtain ⟨s, hs, hv⟩ := exists_of_map_eq_some (result_entryView events players baseStats u hu)
    rw [hs]
    simp only [entryView, entrySpec] at hv
    simp only [Option.map_some', Option.some.injEq, hu, true_and]
    cases hf : firstKill events with
    | none =>
      rw [hf] at hv
      simp only [Prod.mk.injEq] at hv
      simp [hv.1]
    | some fk =>
      rw [hf] at hv
      simp only [Prod.mk.injEq] at hv
      simp [hv.1]
  · rw [result_none events players baseStats u hu]
    simp [hu]

theorem entryDeath_true_iff (events : List MatchUpdate) (players : List Player)
    (baseStats : List PlayerRoundStats) (u : String) :
    (calculateAdvancedStats events players baseStats u).map (·.EntryDeath) = some true
      ↔ u ∈ rosterNames players ∧ ∃ fk, firstKill events = some fk ∧ fk.Target = u := by
  by_cases hu : u ∈ rosterNames players
  · obtain ⟨s, hs, hv⟩ := exists_of_map_eq_some (result_entryView events players baseStats u hu)
    rw [hs]
    simp only [entryView, entrySpec] at hv
    simp only [Option.map_some', Option.some.injEq, hu, true_and]
    cases hf : firstKill events with
    | none =>
      rw [hf] at hv
      simp only [Prod.mk.injEq] at hv
      simp [hv.2]
    | some fk =>
      rw [hf] at hv
      simp only [Prod.mk.injEq] at hv
      simp [hv.2]
  · rw [result_none events players baseStats u hu]
    simp [hu]

/-! ## Claims on the entry duel -/

/-- C12: for every input and every roster participant `P`, `entryKill[P]` is
true if and only if the event list contains a Kill event and `P` is the
killer of the first Kill event in list order, `entryDeath[P]` is true if and
only if `P` is the victim of that first Kill event, and events that come
after a Kill event change neither flag. -/
theorem entry_flags_first_kill (events : List MatchUpdate) (players : List Player)
    (baseStats : List PlayerRoundStats) (P : String) (hP : P ∈ rosterNames players) :
    ∃ s, calculateAdvancedStats events players baseStats P = some s
      ∧ (s.EntryKill = true ↔ ∃ fk, firstKill events = some fk ∧ fk.Username = P)
      ∧ (s.EntryDeath = true ↔ ∃ fk, firstKill events = some fk ∧ fk.Target = P)
      ∧ ∀ later, killEvents events ≠ [] →
          ∃ s2, calculateAdvancedStats (events ++ later) players baseStats P = some s2
            ∧ s2.EntryKill = s.EntryKill ∧ s2.EntryDeath = s.EntryDeath := by
  obtain ⟨s, hs, hv⟩ := exists_of_map_eq_some (result_entryView events players baseStats P hP)
  refine ⟨s, hs, ?_, ?_, ?_⟩
  · have h := entryKill_true_iff events players baseStats P
    rw [hs] at h
    simpa [hP] using h
  · have h := entryDeath_true_iff events players baseStats P
    rw [hs] at h
    simpa [hP] using h
  · intro later hne
    obtain ⟨s2, hs2, hv2⟩ :=
      exists_of_map_eq_some (result_entryView (events ++ later) players baseStats P hP)
    refine ⟨s2, hs2, ?_⟩
    have hspec : entrySpec (events ++ later) P = entrySpec events P := by
      unfold entrySpec
      rw [firstKill_append events later hne]
    rw [hspec, ← hv] at hv2
    simp only [entryView, Prod.mk.injEq] at hv2
    exact hv2

/-- C12 at the roster A (team 0), B (team 1) and the kills of B by A and of A
by B. -/
theorem entry_flags_first_kill_witness :
    "A" ∈ rosterNames [⟨"A", 0⟩, ⟨"B", 1⟩]
      ∧ ∃ s, calculateAdvancedStats [kill "A" "B" 1, kill "B" "A" 2] [⟨"A", 0⟩, ⟨"B", 1⟩] [] "A"
            = some s
        ∧ (s.EntryKill = true
            ↔ ∃ fk, firstKill [kill "A" "B" 1, kill "B" "A" 2] = some fk ∧ fk.Username = "A")
        ∧ (s.EntryDeath = true
            ↔ ∃ fk, firstKill [kill "A" "B" 1, kill "B" "A" 2] = some fk ∧ fk.Target = "A")
        ∧ ∀ later, killEvents [kill "A" "B" 1, kill "B" "A" 2] ≠ [] →
            ∃ s2, calculateAdvancedStats ([kill "A" "B" 1, kill "B" "A" 2] ++ later)
                  [⟨"A", 0⟩, ⟨"B", 1⟩] [] "A" = some s2
              ∧ s2.EntryKill = s.EntryKill ∧ s2.EntryDeath = s.EntryDeath :=
  ⟨by decide,
    entry_flags_first_kill [kill "A" "B" 1, kill "B" "A" 2] [⟨"A", 0⟩, ⟨"B", 1⟩] [] "A"
      (by decide)⟩

/-- C13, as amended: for every input whose event list contains a Kill event,
exactly one result entry has `entryKill = true` when the killer of the first
Kill event is a roster participant and none has it otherwise, and exactly one
result entry has `entryDeath = true` when the victim of the first Kill event
is a roster participant and none has it otherwise. -/
theorem entry_flags_one_holder (events : List MatchUpdate) (players : List Player)
    (baseStats : List PlayerRoundStats) (fk : MatchUpdate) (hfk : firstKill events = some fk) :
    (fk.Username ∈ rosterNames players →
        ∃! u, (calculateAdvancedStats events players baseStats u).map (·.EntryKill) = some true)
      ∧ (fk.Username ∉ rosterNames players →
        ∀ u, (calculateAdvancedStats events players baseStats u).map (·.EntryKill) ≠ some true)
      ∧ (fk.Target ∈ rosterNames players →
        ∃! u, (calculateAdvancedStats events players baseStats u).map (·.EntryDeath) = some true)
      ∧ (fk.Target ∉ rosterNames players →
        ∀ u, (calculateAdvancedStats events players baseStats u).map (·.EntryDeath)
          ≠ some true) := by
  refine ⟨fun hin => ?_, fun hout u hu => ?_, fun hin => ?_, fun hout u hu => ?_⟩
  · refine ⟨fk.Username, (entryKill_true_iff _ _ _ _).2 ⟨hin, fk, hfk, rfl⟩, ?_⟩
    intro u hu
    obtain ⟨_, fk2, hfk2, h2⟩ := (entryKill_true_iff _ _ _ _).1 hu
    rw [hfk] at hfk2
    cases hfk2
    exact h2.symm
  · obtain ⟨hmem, fk2, hfk2, h2⟩ := (entryKill_true_iff _ _ _ _).1 hu
    rw [hfk] at hfk2
    cases hfk2
    exact hout (h2 ▸ hmem)
  · refine ⟨fk.Target, (entryDeath_true_iff _ _ _ _).2 ⟨hin, fk, hfk, rfl⟩, ?_⟩
    intro u hu
    obtain ⟨_, fk2, hfk2, h2⟩ := (entryDeath_true_iff _ _ _ _).1 hu
    rw [hfk] at hfk2
    cases hfk2
    exact h2.symm
  · obtain ⟨hmem, fk2, hfk2, h2⟩ := (entryDeath_true_iff _ _ _ _).1 hu
    rw [hfk] at hfk2
    cases hfk2
    exact hout (h2 ▸ hmem)

/-- C13 as amended, at the roster A (team 0), B (team 1) and the kill of B by
A. -/
theorem entry_flags_one_holder_witness :
    firstKill [kill "A" "B" 1] = some (kill "A" "B" 1)
      ∧ ((kill "A" "B" 1).Username ∈ rosterNames [⟨"A", 0⟩, ⟨"B", 1⟩] →
          ∃! u, (calculateAdvancedStats [kill "A" "B" 1] [⟨"A", 0⟩, ⟨"B", 1⟩] [] u).map
            (·.EntryKill) = some true)
      ∧ ((kill "A" "B" 1).Username ∉ rosterNames [⟨"A", 0⟩, ⟨"B", 1⟩] →
          ∀ u, (calculateAdvancedStats [kill "A" "B" 1] [⟨"A", 0⟩, ⟨"B", 1⟩] [] u).map
            (·.EntryKill) ≠ some true)
      ∧ ((kill "A" "B" 1).Target ∈ rosterNames [⟨"A", 0⟩, ⟨"B", 1⟩] →
          ∃! u, (calculateAdvancedStats [kill "A" "B" 1] [⟨"A", 0⟩, ⟨"B", 1⟩] [] u).map
            (·.EntryDeath) = some true)
      ∧ ((kill "A" "B" 1).Target ∉ rosterNames [⟨"A", 0⟩, ⟨"B", 1⟩] →
          ∀ u, (calculateAdvancedStats [kill "A" "B" 1] [⟨"A", 0⟩, ⟨"B", 1⟩] [] u).map
            (·.EntryDeath) ≠ some true) :=
  ⟨rfl, entry_flags_one_holder [kill "A" "B" 1] [⟨"A", 0⟩, ⟨"B", 1⟩] [] (kill "A" "B" 1) rfl⟩

/-- C13 as stated fails when the killer of the first Kill event is not in the
roster: with the roster A and the kill of A by the outsider X the event list
contains a Kill event, but no result entry has `entryKill = true`. -/
theorem entry_kill_without_holder :
    killEvents [kill "X" "A" 1] ≠ []
      ∧ ¬ ∃ u, (calculateAdvancedStats [kill "X" "A" 1] [⟨"A", 0⟩] [] u).map (·.EntryKill)
          = some true := by
  refine ⟨by decide!, ?_⟩
  rintro ⟨u, hu⟩
  obtain ⟨hmem, fk, hfk, h2⟩ := (entryKill_true_iff _ _ _ _).1 hu
  have hfk2 : firstKill [kill "X" "A" 1] = some (kill "X" "A" 1) := rfl
  rw [hfk2] at hfk
  cases hfk
  simp only [rosterNames, List.map_cons, List.map_nil, List.mem_singleton] at hmem
  rw [hmem] at h2
  revert h2
  decide

/-! ## Claims on the finaliser and on the keys of the result -/

theorem lateView_entryStep (events : List MatchUpdate) (P : String) (s : advancedPlayerStats) :
    (entryStep events P s).Survived = s.Survived ∧ (entryStep events P s).KOST = s.KOST
      ∧ (entryStep events P s).Username = s.Username := by
  unfold entryStep
  cases firstKill events with
  | none => exact ⟨rfl, rfl, rfl⟩
  | some fk => dsimp only; split_ifs <;> exact ⟨rfl, rfl, rfl⟩

theorem kost_survivalStep (baseStats : List PlayerRoundStats) (P : String)
    (s : advancedPlayerStats) :
    (survivalStep baseStats P s).KOST = s.KOST
      ∧ (survivalStep baseStats P s).Username = s.Username := by
  unfold survivalStep
  cases (baseStats.filter (fun b => decide (b.Username = P))).getLast? <;> exact ⟨rfl, rfl⟩

theorem filter_eq_nil_of_baseStatsOf_none (baseStats : List PlayerRoundStats) (P : String)
    (h : baseStatsOf baseStats P = none) :
    baseStats.filter (fun b => decide (b.Username = P)) = [] := by
  unfold baseStatsOf at h
  rw [List.find?_eq_none] at h
  rw [List.filter_eq_nil_iff]
  exact h

theorem survivalStep_of_none (baseStats : List PlayerRoundStats) (P : String)
    (s : advancedPlayerStats) (h : baseStatsOf baseStats P = none) :
    survivalStep baseStats P s = s := by
  unfold survivalStep
  rw [filter_eq_nil_of_baseStatsOf_none baseStats P h]
  rfl

theorem kostStep_of_none (baseStats : List PlayerRoundStats) (P : String)
    (s : advancedPlayerStats) (h : baseStatsOf baseStats P = none) :
    kostStep baseStats P s = s := by
  unfold kostStep
  rw [h]

/-- The result entry of a roster participant, from the entry after the
multi-kill pass. -/
theorem result_entry (events : List MatchUpdate) (players : List Player)
    (baseStats : List PlayerRoundStats) (P : String) (hP : P ∈ rosterNames players) :
    ∃ s0, multiKillPass (eventLoop players events) P = some s0
      ∧ lateView s0 = (false, false, false, false) ∧ s0.Username = P
      ∧ calculateAdvancedStats events players baseStats P
          = some (kostStep baseStats P (survivalStep baseStats P (entryStep events P s0))) := by
  obtain ⟨s0, hs0, hv, hu⟩ := multiKillPass_late players events P hP
  refine ⟨s0, hs0, hv, hu, ?_⟩
  rw [result_eq_steps, hs0]
  rfl

/-- C14: for every input and every roster participant `P`, `kost[P]` is true
if and only if `P` has a base-stats entry `b` (the first one with P's
username) and at least one of these holds: `b.kills > 0`,
`defuserPlants[P] > 0` or `defuserDefuses[P] > 0`, `b.died = false`,
`tradeDeaths[P] > 0`. -/
theorem kost_iff_some_leg (events : List MatchUpdate) (players : List Player)
    (baseStats : List PlayerRoundStats) (P : String) (hP : P ∈ rosterNames players) :
    ∃ s, calculateAdvancedStats events players baseStats P = some s
      ∧ (s.KOST = true ↔ ∃ b, baseStatsOf baseStats P = some b
          ∧ (b.Kills > 0 ∨ (s.DefuserPlants > 0 ∨ s.DefuserDefuses > 0) ∨ b.Died = false
              ∨ s.TradeDeaths > 0)) := by
  obtain ⟨s0, _, hv, _, hres⟩ := result_entry events players baseStats P hP
  refine ⟨_, hres, ?_⟩
  simp only [lateView, Prod.mk.injEq] at hv
  have hk : (survivalStep baseStats P (entryStep events P s0)).KOST = false := by
    rw [(kost_survivalStep _ _ _).1, (lateView_entryStep _ _ _).2.1]
    exact hv.2.2.2
  cases hb : baseStatsOf baseStats P with
  | none =>
    rw [kostStep_of_none _ _ _ hb, hk]
    simp
  | some b =>
    unfold kostStep
    rw [hb]
    simp only [Bool.or_eq_true, decide_eq_true_eq, Bool.not_eq_true', Option.some.injEq,
      exists_eq_left', gt_iff_lt]
    tauto

/-- C14 at a roster participant who died without a kill and whose only
contribution is a plant. -/
theorem kost_iff_some_leg_witness :
    "P" ∈ rosterNames [⟨"P", 0⟩]
      ∧ ∃ s, calculateAdvancedStats [⟨"DefuserPlantComplete", "P", "", 30⟩] [⟨"P", 0⟩]
            [⟨"P", 0, true, 0, 0, 0⟩] "P" = some s
        ∧ (s.KOST = true ↔ ∃ b, baseStatsOf [⟨"P", 0, true, 0, 0, 0⟩] "P" = some b
            ∧ (b.Kills > 0 ∨ (s.DefuserPlants > 0 ∨ s.DefuserDefuses > 0) ∨ b.Died = false
                ∨ s.TradeDeaths > 0)) :=
  ⟨by decide,
    kost_iff_some_leg [⟨"DefuserPlantComplete", "P", "", 30⟩] [⟨"P", 0⟩]
      [⟨"P", 0, true, 0, 0, 0⟩] "P" (by decide)⟩

/-- The four legs of KOST one at a time: no leg gives `kost = false`, and a
base kill, a plant, survival or a traded death each give `kost = true`. -/
theorem kost_legs_example :
    (calculateAdvancedStats [] [⟨"P", 0⟩] [⟨"P", 0, true, 0, 0, 0⟩] "P").map (·.KOST)
        = some false
      ∧ (calculateAdvancedStats [] [⟨"P", 0⟩] [⟨"P", 1, true, 0, 0, 0⟩] "P").map (·.KOST)
        = some true
      ∧ (calculateAdvancedStats [⟨"DefuserPlantStart", "P", "", 30⟩] [⟨"P", 0⟩]
          [⟨"P", 0, true, 0, 0, 0⟩] "P").map (·.KOST) = some true
      ∧ (calculateAdvancedStats [] [⟨"P", 0⟩] [⟨"P", 0, false, 0, 0, 0⟩] "P").map (·.KOST)
        = some true
      ∧ (calculateAdvancedStats [kill "P" "Q" 1, kill "R" "P" 2] [⟨"P", 0⟩, ⟨"Q", 1⟩, ⟨"R", 1⟩]
          [⟨"P", 0, true, 0, 0, 0⟩] "P").map (·.KOST) = some true := by
  decide!

/-- C15: for every input and every roster participant `P`, `survived[P]` is
true if and only if `P` has a base-stats entry (the first one with P's
username) whose `died` field is false; a roster participant without a
base-stats entry has `survived = false` and `kost = false`, whatever the
events. -/
theorem survived_iff_first_base_entry_alive (events : List MatchUpdate)
    (players : List Player) (baseStats : List PlayerRoundStats) (P : String)
    (hP : P ∈ rosterNames players) :
    ∃ s, calculateAdvancedStats events players baseStats P = some s
      ∧ (s.Survived = true ↔ ∃ b, baseStatsOf baseStats P = some b ∧ b.Died = false)
      ∧ (baseStatsOf baseStats P = none → s.Survived = false ∧ s.KOST = false) := by
  obtain ⟨s0, _, hv, _, hres⟩ := result_entry events players baseStats P hP
  refine ⟨_, hres, ?_⟩
  simp only [lateView, Prod.mk.injEq] at hv
  cases hb : baseStatsOf baseStats P with
  | none =>
    rw [kostStep_of_none _ _ _ hb, survivalStep_of_none _ _ _ hb,
      (lateView_entryStep _ _ _).1, (lateView_entryStep _ _ _).2.1, hv.2.2.1, hv.2.2.2]
    simp
  | some b =>
    unfold kostStep
    rw [hb]
    simp

/-- C15 at a roster participant with two base-stats rows, of which the first
says that the participant survived. -/
theorem survived_iff_first_base_entry_alive_witness :
    "P" ∈ rosterNames [⟨"P", 0⟩]
      ∧ ∃ s, calculateAdvancedStats [] [⟨"P", 0⟩]
            [⟨"P", 0, false, 0, 0, 0⟩, ⟨"P", 0, true, 0, 0, 0⟩] "P" = some s
        ∧ (s.Survived = true
            ↔ ∃ b, baseStatsOf [⟨"P", 0, false, 0, 0, 0⟩, ⟨"P", 0, true, 0, 0, 0⟩] "P" = some b
              ∧ b.Died = false)
        ∧ (baseStatsOf [⟨"P", 0, false, 0, 0, 0⟩, ⟨"P", 0, true, 0, 0, 0⟩] "P" = none →
            s.Survived = false ∧ s.KOST = false) :=
  ⟨by decide,
    survived_iff_first_base_entry_alive [] [⟨"P", 0⟩]
      [⟨"P", 0, false, 0, 0, 0⟩, ⟨"P", 0, true, 0, 0, 0⟩] "P" (by decide)⟩

theorem multiKillPass_nil (players : List Player) (P : String) :
    multiKillPass (eventLoop players []) P = (initState players).stats P := rfl

/-- C17, as amended: for every roster and every base stats, analysing an empty
event list produces a mapping in which every roster participant is present
with every statistic zero/false except `survived` and `kost`, which come from
the first base-stats row of the participant: `survived = !died` and
`kost = (kills > 0 || !died)`, both false when there is no such row. -/
theorem empty_events_entry (players : List Player) (baseStats : List PlayerRoundStats)
    (P : String) (hP : P ∈ rosterNames players) :
    calculateAdvancedStats [] players baseStats P = some (emptyRoundEntry baseStats P) := by
  rw [result_eq_steps, multiKillPass_nil, initState_stats, if_pos hP]
  simp only [Option.map_some', Option.some.injEq]
  have he : ∀ s, entryStep [] P s = s := fun _ => rfl
  rw [he]
  unfold emptyRoundEntry
  cases hb : baseStatsOf baseStats P with
  | none => rw [kostStep_of_none _ _ _ hb, survivalStep_of_none _ _ _ hb]
  | some b =>
    unfold kostStep survivalStep
    rw [hb]
    cases (baseStats.filter (fun b => decide (b.Username = P))).getLast? <;> simp

/-- C17 as amended, at a roster of one participant who survived. -/
theorem empty_events_entry_witness :
    "P" ∈ rosterNames [⟨"P", 0⟩]
      ∧ calculateAdvancedStats [] [⟨"P", 0⟩] [⟨"P", 0, false, 0, 0, 0⟩] "P"
          = some (emptyRoundEntry [⟨"P", 0, false, 0, 0, 0⟩] "P") :=
  ⟨by decide, empty_events_entry [⟨"P", 0⟩] [⟨"P", 0, false, 0, 0, 0⟩] "P" (by decide)⟩

/-- C17 as stated fails when the base stats say that the participant
survived: with the roster P, the base-stats row (P, 0 kills, not died) and no
event, the entry of P is not all zero/false: `survived = true` and
`kost = true`. -/
theorem empty_events_entry_not_zero :
    "P" ∈ rosterNames [⟨"P", 0⟩]
      ∧ calculateAdvancedStats [] [⟨"P", 0⟩] [⟨"P", 0, false, 0, 0, 0⟩] "P"
          ≠ some { Username := "P" }
      ∧ (calculateAdvancedStats [] [⟨"P", 0⟩] [⟨"P", 0, false, 0, 0, 0⟩] "P").map
          (fun s => (s.Survived, s.KOST)) = some (true, true) := by
  decide!

theorem updateStat_apply_of_ne (stats : StatsMap) (k : String)
    (f : advancedPlayerStats → advancedPlayerStats) (u : String) (h : u ≠ k) :
    updateStat stats k f u = stats u := by
  rw [updateStat_apply, if_neg h]

theorem tradeLoop_apply_of_ne (killer victim : String) (eventTime : ℚ)
    (recentDeaths : List deathEvent) (P : String) (hk : P ≠ killer) (hv : P ≠ victim) :
    ∀ (n : Nat) (stats : StatsMap),
      (tradeLoop killer victim eventTime n stats recentDeaths).1 P = stats P := by
  intro n
  induction n with
  | zero => intro stats; rfl
  | succ i ih =>
    intro stats
    unfold tradeLoop
    cases recentDeaths[i]? with
    | none => rfl
    | some rd =>
      dsimp only
      split_ifs
      · rfl
      · rw [ih, updateStat_apply_of_ne _ _ _ _ hv, updateStat_apply_of_ne _ _ _ _ hk]
      · exact ih stats

theorem clutchCheck_apply_of_ne (players : List Player) (alivePlayers : Int → List String)
    (killer : String) (stats : StatsMap) (P : String) (hk : P ≠ killer) :
    clutchCheck players alivePlayers killer stats P = stats P := by
  unfold clutchCheck
  dsimp only
  split_ifs
  · exact updateStat_apply_of_ne _ _ _ _ hk
  · rfl
  · rfl

/-- An event that names `P` neither as username nor as target leaves the
entry of `P` as it is. -/
theorem processEvent_stats_of_ne (players : List Player) (st : loopState) (e : MatchUpdate)
    (P : String) (hu : e.Username ≠ P) (ht : e.Target ≠ P) :
    (processEvent players st e).stats P = st.stats P := by
  have hu2 : P ≠ e.Username := fun h => hu h.symm
  have ht2 : P ≠ e.Target := fun h => ht h.symm
  unfold processEvent
  dsimp only
  split_ifs
  · unfold processKill
    dsimp only
    rw [clutchCheck_apply_of_ne _ _ _ _ _ hu2, tradeLoop_apply_of_ne _ _ _ _ _ hu2 ht2]
  · exact updateStat_apply_of_ne _ _ _ _ hu2
  · rfl
  · exact updateStat_apply_of_ne _ _ _ _ hu2
  · rfl
  · exact updateStat_apply_of_ne _ _ _ _ hu2
  · rfl
  · rfl

theorem eventLoop_stats_of_unmentioned (players : List Player) (events : List MatchUpdate)
    (P : String) (h : ∀ e ∈ events, e.Username ≠ P ∧ e.Target ≠ P) :
    (eventLoop players events).stats P = (initState players).stats P := by
  induction events using List.reverseRecOn with
  | nil => rfl
  | append_singleton es e ih =>
    have he := h e (by simp)
    rw [eventLoop_snoc, processEvent_stats_of_ne _ _ _ _ he.1 he.2]
    exact ih (fun x hx => h x (List.mem_append_left _ hx))

theorem killTimes_of_unmentioned (events : List MatchUpdate) (P : String)
    (h : ∀ e ∈ events, e.Username ≠ P ∧ e.Target ≠ P) : killTimes P events = [] := by
  unfold killTimes
  rw [List.map_eq_nil_iff, List.filter_eq_nil_iff]
  intro e he
  have := (h e (List.mem_of_mem_filter he)).1
  simpa using this

theorem entryStep_of_unmentioned (events : List MatchUpdate) (P : String)
    (h : ∀ e ∈ events, e.Username ≠ P ∧ e.Target ≠ P) (s : advancedPlayerStats) :
    entryStep events P s = s := by
  unfold entryStep
  cases hf : firstKill events with
  | none => rfl
  | some fk =>
    have hmem : fk ∈ events := by
      unfold firstKill killEvents at hf
      exact List.mem_of_mem_filter (List.mem_of_mem_head? hf)
    have := h fk hmem
    dsimp only
    rw [if_neg (fun h2 => this.2 h2.symm), if_neg (fun h1 => this.1 h1.symm)]

theorem baseStatsOf_none_of_unmentioned (baseStats : List PlayerRoundStats) (P : String)
    (h : ∀ b ∈ baseStats, b.Username ≠ P) : baseStatsOf baseStats P = none := by
  unfold baseStatsOf
  rw [List.find?_eq_none]
  intro b hb
  simpa using h b hb

theorem username_kostStep (baseStats : List PlayerRoundStats) (P : String)
    (s : advancedPlayerStats) : (kostStep baseStats P s).Username = s.Username := by
  unfold kostStep
  cases baseStatsOf baseStats P <;> rfl

/-- C16: for every roster, base stats and event list, the keys of the result
mapping are exactly the usernames of the roster (each entry carries its key
as username, usernames that occur only in events or base stats have no entry,
an empty roster gives an empty mapping), and a participant named by no event
and no base-stats row has every field zero/false. -/
theorem result_keys_are_roster (events : List MatchUpdate) (players : List Player)
    (baseStats : List PlayerRoundStats) :
    (∀ u, (∃ s, calculateAdvancedStats events players baseStats u = some s)
        ↔ u ∈ rosterNames players)
      ∧ (∀ u s, calculateAdvancedStats events players baseStats u = some s → s.Username = u)
      ∧ (players = [] → ∀ u, calculateAdvancedStats events players baseStats u = none)
      ∧ (∀ P, P ∈ rosterNames players → (∀ e ∈ events, e.Username ≠ P ∧ e.Target ≠ P) →
          (∀ b ∈ baseStats, b.Username ≠ P) →
          calculateAdvancedStats events players baseStats P = some { Username := P }) := by
  have hkeys : ∀ u, (∃ s, calculateAdvancedStats events players baseStats u = some s)
      ↔ u ∈ rosterNames players := by
    intro u
    by_cases hu : u ∈ rosterNames players
    · obtain ⟨s0, _, _, _, hres⟩ := result_entry events players baseStats u hu
      exact ⟨fun _ => hu, fun _ => ⟨_, hres⟩⟩
    · rw [result_none events players baseStats u hu]
      exact ⟨fun ⟨s, hs⟩ => (by cases hs), fun h => absurd h hu⟩
  refine ⟨hkeys, ?_, ?_, ?_⟩
  · intro u s hs
    have hu : u ∈ rosterNames players := (hkeys u).1 ⟨s, hs⟩
    obtain ⟨s0, _, _, hname, hres⟩ := result_entry events players baseStats u hu
    rw [hres] at hs
    cases hs
    rw [username_kostStep, (kost_survivalStep _ _ _).2, (lateView_entryStep _ _ _).2.2, hname]
  · intro hnil u
    apply result_none
    rw [hnil]
    simp [rosterNames]
  · intro P hP hev hbase
    have hb := baseStatsOf_none_of_unmentioned baseStats P hbase
    rw [result_eq_steps]
    unfold multiKillPass
    rw [eventLoop_killTimestamps, killTimes_of_unmentioned events P hev,
      eventLoop_stats_of_unmentioned players events P hev, initState_stats, if_pos hP]
    simp only [multiKillFor, Option.map_some', Option.some.injEq]
    rw [kostStep_of_none _ _ _ hb, survivalStep_of_none _ _ _ hb,
      entryStep_of_unmentioned events P hev]

/-- C16 applied to the roster A, B, C, the kill of B by A and the base-stats
row of A: C is named by no event and no base-stats row and has the zero
entry. -/
theorem result_keys_are_roster_witness :
    calculateAdvancedStats [kill "A" "B" 1] [⟨"A", 0⟩, ⟨"B", 1⟩, ⟨"C", 1⟩]
      [⟨"A", 1, false, 0, 0, 0⟩] "C" = some { Username := "C" } :=
  (result_keys_are_roster [kill "A" "B" 1] [⟨"A", 0⟩, ⟨"B", 1⟩, ⟨"C", 1⟩]
    [⟨"A", 1, false, 0, 0, 0⟩]).2.2.2 "C" (by decide) (by decide) (by decide)

/-- C16 at the roster A, B, C in which C is named by no event and no
base-stats row. -/
theorem result_zero_entry_example :
    calculateAdvancedStats [kill "A" "B" 1, kill "X" "A" 2] [⟨"A", 0⟩, ⟨"B", 1⟩, ⟨"C", 1⟩]
        [⟨"A", 1, true, 0, 0, 0⟩, ⟨"Y", 0, false, 0, 0, 0⟩] "C" = some { Username := "C" }
      ∧ calculateAdvancedStats [kill "A" "B" 1, kill "X" "A" 2] [⟨"A", 0⟩, ⟨"B", 1⟩, ⟨"C", 1⟩]
        [⟨"A", 1, true, 0, 0, 0⟩, ⟨"Y", 0, false, 0, 0, 0⟩] "X" = none
      ∧ calculateAdvancedStats [kill "A" "B" 1, kill "X" "A" 2] [⟨"A", 0⟩, ⟨"B", 1⟩, ⟨"C", 1⟩]
        [⟨"A", 1, true, 0, 0, 0⟩, ⟨"Y", 0, false, 0, 0, 0⟩] "Y" = none := by
  decide!

/-! ## Rosters in another order -/

theorem getPlayerTeam_of_not_mem (players : List Player) (u : String)
    (hu : u ∉ rosterNames players) : getPlayerTeam u players = -1 := by
  induction players with
  | nil => rfl
  | cons q rest ih =>
    unfold getPlayerTeam
    unfold rosterNames at hu ih
    rw [List.map_cons, List.mem_cons, not_or] at hu
    rw [if_neg (fun h => hu.1 h.symm)]
    exact ih hu.2

theorem rosterNames_perm {players players2 : List Player} (hperm : players.Perm players2) :
    (rosterNames players).Perm (rosterNames players2) :=
  hperm.map _

/-- With unique usernames, `getPlayerTeam` does not depend on the order of
the roster. -/
theorem getPlayerTeam_perm {players players2 : List Player} (hperm : players.Perm players2)
    (hnodup : (rosterNames players).Nodup) (u : String) :
    getPlayerTeam u players = getPlayerTeam u players2 := by
  have hnodup2 : (rosterNames players2).Nodup := (rosterNames_perm hperm).nodup_iff.1 hnodup
  by_cases hu : u ∈ rosterNames players
  · obtain ⟨p, hp, hpu⟩ := List.mem_map.1 hu
    have hp2 : p ∈ players2 := hperm.mem_iff.1 hp
    rw [← hpu, getPlayerTeam_of_mem players hnodup p hp,
      getPlayerTeam_of_mem players2 hnodup2 p hp2]
  · have hu2 : u ∉ rosterNames players2 := fun h => hu ((rosterNames_perm hperm).mem_iff.2 h)
    rw [getPlayerTeam_of_not_mem players u hu, getPlayerTeam_of_not_mem players2 u hu2]

theorem initState_perm {players players2 : List Player} (hperm : players.Perm players2) :
    sameUpToAliveOrder (initState players) (initState players2) := by
  refine ⟨?_, ?_, rfl, rfl, rfl⟩
  · funext u
    rw [initState_stats, initState_stats]
    by_cases hu : u ∈ rosterNames players
    · rw [if_pos hu, if_pos ((rosterNames_perm hperm).mem_iff.1 hu)]
    · rw [if_neg hu, if_neg (fun h => hu ((rosterNames_perm hperm).mem_iff.2 h))]
  · intro team
    rw [initState_alivePlayers, initState_alivePlayers]
    exact (hperm.filter _).map _

theorem clutchCheck_perm (players players2 : List Player)
    (hteam : ∀ u, getPlayerTeam u players = getPlayerTeam u players2)
    (alive alive2 : Int → List String) (halive : ∀ team, (alive team).Perm (alive2 team))
    (killer : String) (stats : StatsMap) :
    clutchCheck players alive killer stats = clutchCheck players2 alive2 killer stats := by
  unfold clutchCheck
  dsimp only
  rw [hteam killer, (halive (getPlayerTeam killer players2)).length_eq,
    (halive (wrapInt64 (1 - getPlayerTeam killer players2))).length_eq]

theorem processEvent_perm (players players2 : List Player)
    (hteam : ∀ u, getPlayerTeam u players = getPlayerTeam u players2)
    (st st2 : loopState) (h : sameUpToAliveOrder st st2) (e : MatchUpdate) :
    sameUpToAliveOrder (processEvent players st e) (processEvent players2 st2 e) := by
  obtain ⟨hstats, halive, hcounts, htimes, hdeaths⟩ := h
  unfold processEvent
  dsimp only
  split_ifs
  · unfold processKill
    dsimp only
    rw [← hstats, ← hdeaths, ← hcounts, ← htimes]
    refine ⟨?_, fun team => (halive team).erase _, rfl, rfl, rfl⟩
    dsimp only
    exact clutchCheck_perm players players2 hteam _ _ (fun team => (halive team).erase _) _ _
  · exact ⟨by dsimp only; rw [hstats], halive, hcounts, htimes, hdeaths⟩
  · exact ⟨hstats, halive, hcounts, htimes, hdeaths⟩
  · exact ⟨by dsimp only; rw [hstats], halive, hcounts, htimes, hdeaths⟩
  · exact ⟨hstats, halive, hcounts, htimes, hdeaths⟩
  · exact ⟨by dsimp only; rw [hstats], halive, hcounts, htimes, hdeaths⟩
  · exact ⟨hstats, halive, hcounts, htimes, hdeaths⟩
  · exact ⟨hstats, halive, hcounts, htimes, hdeaths⟩

theorem eventLoop_perm {players players2 : List Player} (hperm : players.Perm players2)
    (hnodup : (rosterNames players).Nodup) (events : List MatchUpdate) :
    sameUpToAliveOrder (eventLoop players events) (eventLoop players2 events) := by
  induction events using List.reverseRecOn with
  | nil => exact initState_perm hperm
  | append_singleton es e ih =>
    rw [eventLoop_snoc, eventLoop_snoc]
    exact processEvent_perm players players2 (getPlayerTeam_perm hperm hnodup) _ _ ih e

/-- With unique usernames, the result does not depend on the order of the
roster. -/
theorem calculateAdvancedStats_perm {players players2 : List Player}
    (hperm : players.Perm players2) (hnodup : (rosterNames players).Nodup)
    (events : List MatchUpdate) (baseStats : List PlayerRoundStats) :
    calculateAdvancedStats events players baseStats
      = calculateAdvancedStats events players2 baseStats := by
  obtain ⟨hstats, _, hcounts, htimes, _⟩ := eventLoop_perm hperm hnodup events
  unfold calculateAdvancedStats multiKillPass
  rw [hstats, hcounts, htimes]

/-- C18: for every roster with pairwise distinct usernames and every
permutation of that roster, `calculateAdvancedStats` returns the same mapping
(the same entry, or no entry, for every username) for the same base stats and
event list. -/
theorem result_independent_of_roster_order (events : List MatchUpdate)
    (players players2 : List Player) (baseStats : List PlayerRoundStats)
    (hnodup : (rosterNames players).Nodup) (hperm : players.Perm players2) :
    ∀ u, calculateAdvancedStats events players2 baseStats u
      = calculateAdvancedStats events players baseStats u := by
  intro u
  rw [calculateAdvancedStats_perm hperm hnodup events baseStats]

/-- C18 at the roster A (team 0), B, C (team 1) and the same roster
reversed. -/
theorem result_independent_of_roster_order_witness :
    ((rosterNames [⟨"A", 0⟩, ⟨"B", 1⟩, ⟨"C", 1⟩]).Nodup
        ∧ ([⟨"A", 0⟩, ⟨"B", 1⟩, ⟨"C", 1⟩] : List Player).Perm [⟨"C", 1⟩, ⟨"B", 1⟩, ⟨"A", 0⟩])
      ∧ ∀ u, calculateAdvancedStats [kill "A" "B" 1, kill "C" "A" 2]
            [⟨"C", 1⟩, ⟨"B", 1⟩, ⟨"A", 0⟩] [⟨"A", 1, true, 0, 0, 0⟩] u
          = calculateAdvancedStats [kill "A" "B" 1, kill "C" "A" 2]
            [⟨"A", 0⟩, ⟨"B", 1⟩, ⟨"C", 1⟩] [⟨"A", 1, true, 0, 0, 0⟩] u :=
  ⟨⟨by decide, by decide⟩,
    result_independent_of_roster_order [kill "A" "B" 1, kill "C" "A" 2]
      [⟨"A", 0⟩, ⟨"B", 1⟩, ⟨"C", 1⟩] [⟨"C", 1⟩, ⟨"B", 1⟩, ⟨"A", 0⟩] [⟨"A", 1, true, 0, 0, 0⟩]
      (by decide) (by decide)⟩

/-! ## Claims on the clutch win -/

theorem nodup_three_names (K Y Z : String) (hKY : K ≠ Y) (hKZ : K ≠ Z) (hYZ : Y ≠ Z) :
    (rosterNames [⟨K, 0⟩, ⟨Y, 1⟩, ⟨Z, 1⟩]).Nodup := by
  simp [rosterNames, hKY, hKZ, hYZ]

theorem clutchSpec_two_kills (K Y Z : String) (t1 t2 : ℚ) (hKY : K ≠ Y) (hKZ : K ≠ Z)
    (hYZ : Y ≠ Z) :
    clutchSpec [⟨K, 0⟩, ⟨Y, 1⟩, ⟨Z, 1⟩] [kill K Y t1, kill K Z t2] K 0
      = (1, 1, true, false, false, false, false) := by
  have hYK : Y ≠ K := fun h => hKY h.symm
  have hZK : Z ≠ K := fun h => hKZ h.symm
  have hZY : Z ≠ Y := fun h => hYZ h.symm
  simp [clutchSpec, clutchCount, clutchVsCount, clutchVsSome, clutchAt, clutchVsAt, aliveAfter,
    victims, killEvents, isKill, kill, List.range_succ, List.filter_cons, List.countP_cons,
    hKY, hKZ, hYZ, hYK, hZK, hZY]

theorem clutchSpec_one_kill (K Y Z : String) (t1 : ℚ) (hKY : K ≠ Y) (hKZ : K ≠ Z)
    (hYZ : Y ≠ Z) :
    clutchSpec [⟨K, 0⟩, ⟨Y, 1⟩, ⟨Z, 1⟩] [kill K Y t1] K 0
      = (1, 1, true, false, false, false, false) := by
  have hYK : Y ≠ K := fun h => hKY h.symm
  have hZK : Z ≠ K := fun h => hKZ h.symm
  have hZY : Z ≠ Y := fun h => hYZ h.symm
  simp [clutchSpec, clutchCount, clutchVsCount, clutchVsSome, clutchAt, clutchVsAt, aliveAfter,
    victims, killEvents, isKill, kill, List.range_succ, List.filter_cons, List.countP_cons,
    hKY, hKZ, hYZ, hYK, hZK, hZY]

/-- C11: for a roster with team 0 = {K} and team 1 = {Y, Z} (in any order)
and the events `Kill(K,Y,t1)`, `Kill(K,Z,t2)` with `t1 ≤ t2`, the result has
`clutchWins[K] = 1`, `clutchAttempts[K] = 1`, `clutch1v1[K] = true` and
`clutch1v2[K] = false`, and the single event `Kill(K,Y,t1)` already gives the
same values: the win is counted when the enemy count after the kill is 1,
not when the last enemy is eliminated. -/
theorem clutch_win_counted_at_one_enemy_left (players : List Player)
    (baseStats : List PlayerRoundStats) (K Y Z : String) (t1 t2 : ℚ)
    (hKY : K ≠ Y) (hKZ : K ≠ Z) (hYZ : Y ≠ Z) (ht : t1 ≤ t2)
    (hroster : players.Perm [⟨K, 0⟩, ⟨Y, 1⟩, ⟨Z, 1⟩]) :
    (calculateAdvancedStats [kill K Y t1, kill K Z t2] players baseStats K).map
        (fun s => (s.ClutchWins, s.ClutchAttempts, s.Clutch1v1, s.Clutch1v2))
        = some (1, 1, true, false)
      ∧ (calculateAdvancedStats [kill K Y t1] players baseStats K).map
        (fun s => (s.ClutchWins, s.ClutchAttempts, s.Clutch1v1, s.Clutch1v2))
        = some (1, 1, true, false) := by
  have _ht := ht
  have hnd := nodup_three_names K Y Z hKY hKZ hYZ
  have hnodup : (rosterNames players).Nodup := (rosterNames_perm hroster).nodup_iff.2 hnd
  have hmem : (⟨K, 0⟩ : Player) ∈ [(⟨K, 0⟩ : Player), ⟨Y, 1⟩, ⟨Z, 1⟩] :=
    List.mem_cons_self _ _
  have hteam : (⟨K, 0⟩ : Player).TeamIndex = 0 ∨ (⟨K, 0⟩ : Player).TeamIndex = 1 :=
    Or.inl rfl
  rw [calculateAdvancedStats_perm hroster hnodup, calculateAdvancedStats_perm hroster hnodup]
  constructor
  · obtain ⟨s, hs, hv⟩ := exists_of_map_eq_some
      (result_clutchSpec [kill K Y t1, kill K Z t2] _ baseStats hnd ⟨K, 0⟩ hmem hteam)
    rw [clutchSpec_two_kills K Y Z t1 t2 hKY hKZ hYZ] at hv
    simp only [clutchView, Prod.mk.injEq] at hv
    rw [hs]
    simp [hv.1, hv.2.1, hv.2.2.1, hv.2.2.2.1]
  · obtain ⟨s, hs, hv⟩ := exists_of_map_eq_some
      (result_clutchSpec [kill K Y t1] _ baseStats hnd ⟨K, 0⟩ hmem hteam)
    rw [clutchSpec_one_kill K Y Z t1 hKY hKZ hYZ] at hv
    simp only [clutchView, Prod.mk.injEq] at hv
    rw [hs]
    simp [hv.1, hv.2.1, hv.2.2.1, hv.2.2.2.1]

/-- C11 at the roster K (team 0), Y, Z (team 1) and the times 10 and 20. -/
theorem clutch_win_counted_at_one_enemy_left_witness :
    ("K" ≠ "Y" ∧ "K" ≠ "Z" ∧ "Y" ≠ "Z" ∧ (10 : ℚ) ≤ 20
        ∧ ([⟨"K", 0⟩, ⟨"Y", 1⟩, ⟨"Z", 1⟩] : List Player).Perm [⟨"K", 0⟩, ⟨"Y", 1⟩, ⟨"Z", 1⟩])
      ∧ ((calculateAdvancedStats [kill "K" "Y" 10, kill "K" "Z" 20]
            [⟨"K", 0⟩, ⟨"Y", 1⟩, ⟨"Z", 1⟩] [] "K").map
          (fun s => (s.ClutchWins, s.ClutchAttempts, s.Clutch1v1, s.Clutch1v2))
          = some (1, 1, true, false)
        ∧ (calculateAdvancedStats [kill "K" "Y" 10] [⟨"K", 0⟩, ⟨"Y", 1⟩, ⟨"Z", 1⟩] [] "K").map
          (fun s => (s.ClutchWins, s.ClutchAttempts, s.Clutch1v1, s.Clutch1v2))
          = some (1, 1, true, false)) :=
  ⟨⟨by decide, by decide, by decide, by norm_num, List.Perm.refl _⟩,
    clutch_win_counted_at_one_enemy_left [⟨"K", 0⟩, ⟨"Y", 1⟩, ⟨"Z", 1⟩] [] "K" "Y" "Z" 10 20
      (by decide) (by decide) (by decide) (by norm_num) (List.Perm.refl _)⟩

/-! ## Claims on events of usernames outside the roster -/

theorem eventLoop_stats_none (players : List Player) (events : List MatchUpdate) (u : String)
    (hu : u ∉ rosterNames players) : (eventLoop players events).stats u = none := by
  have hl : LoopFrame (fun _ : advancedPlayerStats => ()) :=
    loopFrame_of_fields _ (fun _ _ _ _ _ _ _ _ _ _ _ _ _ => rfl)
  have h := eventLoop_frame hl players events u
  rw [initState_stats, if_neg hu] at h
  cases hs : (eventLoop players events).stats u with
  | none => rfl
  | some s => rw [hs] at h; cases h

theorem updateStat_of_none (stats : StatsMap) (k : String)
    (f : advancedPlayerStats → advancedPlayerStats) (h : stats k = none) :
    updateStat stats k f = stats := by
  funext u
  rw [updateStat_apply]
  by_cases hu : u = k
  · rw [if_pos hu, hu, h]
    rfl
  · rw [if_neg hu]

/-- An event that is not a Kill and whose username has no entry changes
nothing. -/
theorem processEvent_of_no_entry (players : List Player) (st : loopState) (e : MatchUpdate)
    (hk : e.TypeString ≠ "Kill") (hu : st.stats e.Username = none) :
    processEvent players st e = st := by
  unfold processEvent
  simp only [hk, if_false]
  split_ifs <;> simp [updateStat_of_none _ _ _ hu]

theorem eventLoop_append (players : List Player) (pre post : List MatchUpdate) :
    eventLoop players (pre ++ post)
      = post.foldl (processEvent players) (eventLoop players pre) := by
  unfold eventLoop
  rw [List.foldl_append]

theorem eventLoop_delete_outsider (players : List Player) (pre post : List MatchUpdate)
    (e : MatchUpdate) (hk : e.TypeString ≠ "Kill") (hu : e.Username ∉ rosterNames players) :
    eventLoop players (pre ++ e :: post) = eventLoop players (pre ++ post) := by
  rw [eventLoop_append, eventLoop_append, List.foldl_cons,
    processEvent_of_no_entry players _ e hk (eventLoop_stats_none players pre _ hu)]

theorem entryPass_delete_non_kill (pre post : List MatchUpdate) (e : MatchUpdate)
    (hk : e.TypeString ≠ "Kill") (stats : StatsMap) :
    entryPass (pre ++ e :: post) stats = entryPass (pre ++ post) stats := by
  unfold entryPass
  rw [List.find?_append, List.find?_append, List.find?_cons_of_neg _ (by simpa using hk)]

/-- C19, as amended: for every roster, base stats and event list, deleting
from the list any one event that is not a Kill event (a plant, defuse or
pickup event) and whose acting username is not a roster participant leaves
the result mapping unchanged. -/
theorem outsider_objective_event_is_noop (pre post : List MatchUpdate) (e : MatchUpdate)
    (players : List Player) (baseStats : List PlayerRoundStats)
    (hk : e.TypeString ≠ "Kill") (hu : e.Username ∉ rosterNames players) :
    calculateAdvancedStats (pre ++ e :: post) players baseStats
      = calculateAdvancedStats (pre ++ post) players baseStats := by
  unfold calculateAdvancedStats
  rw [eventLoop_delete_outsider players pre post e hk hu, entryPass_delete_non_kill pre post e hk]

/-- C19 as amended, at a plant by the outsider X between two kills. -/
theorem outsider_objective_event_is_noop_witness :
    ((⟨"DefuserPlantStart", "X", "", 15⟩ : MatchUpdate).TypeString ≠ "Kill"
        ∧ (⟨"DefuserPlantStart", "X", "", 15⟩ : MatchUpdate).Username
            ∉ rosterNames [⟨"A", 0⟩, ⟨"B", 1⟩])
      ∧ calculateAdvancedStats ([kill "A" "B" 10] ++ ⟨"DefuserPlantStart", "X", "", 15⟩
            :: [kill "B" "A" 20]) [⟨"A", 0⟩, ⟨"B", 1⟩] []
          = calculateAdvancedStats ([kill "A" "B" 10] ++ [kill "B" "A" 20])
            [⟨"A", 0⟩, ⟨"B", 1⟩] [] :=
  ⟨⟨by decide, by decide⟩,
    outsider_objective_event_is_noop [kill "A" "B" 10] [kill "B" "A" 20]
      ⟨"DefuserPlantStart", "X", "", 15⟩ [⟨"A", 0⟩, ⟨"B", 1⟩] [] (by decide) (by decide)⟩

/-- C19 as stated fails for a Kill event: with the roster V and the kill of V
by the outsider X, the kill is the entry duel and sets `entryDeath[V]`;
deleting the event leaves `entryDeath[V] = false`. -/
theorem outsider_kill_is_not_noop :
    (kill "X" "V" 1).Username ∉ rosterNames [⟨"V", 0⟩]
      ∧ calculateAdvancedStats ([] ++ kill "X" "V" 1 :: []) [⟨"V", 0⟩] [] "V"
          ≠ calculateAdvancedStats ([] ++ []) [⟨"V", 0⟩] [] "V"
      ∧ (calculateAdvancedStats ([] ++ kill "X" "V" 1 :: []) [⟨"V", 0⟩] [] "V").map
          (·.EntryDeath) = some true
      ∧ (calculateAdvancedStats ([] ++ []) [⟨"V", 0⟩] [] "V").map (·.EntryDeath)
          = some false := by
  decide!

/-! ## The checked run: every guard holds -/

theorem guardedStoreAt_eq (stats : StatsMap) (k : String)
    (f : advancedPlayerStats → advancedPlayerStats) :
    guardedStoreAt stats k f = some (updateStat stats k f) := by
  unfold guardedStoreAt storeAt derefStore
  cases h : stats k with
  | none =>
    simp only [Option.isSome_none, Bool.false_eq_true, if_false]
    rw [updateStat_of_none stats k f h]
  | some s =>
    simp only [Option.isSome_some, if_true]
    congr 1
    funext u
    rw [updateStat_apply]
    by_cases hu : u = k
    · rw [if_pos hu, if_pos hu, hu, h]
      rfl
    · rw [if_neg hu, if_neg hu]

theorem forEachChecked_eq {σ α : Type} (step : σ → α → Option σ) (g : σ → α → σ)
    (Inv : σ → Prop) (hstep : ∀ s a, Inv s → step s a = some (g s a))
    (hinv : ∀ s a, Inv s → Inv (g s a)) :
    ∀ (l : List α) (s : σ), Inv s → forEachChecked step l s = some (l.foldl g s) := by
  intro l
  induction l with
  | nil => intro s _; rfl
  | cons a rest ih =>
    intro s hs
    rw [forEachChecked, hstep s a hs]
    exact ih (g s a) (hinv s a hs)

theorem forKeys_eq {K V : Type} [DecidableEq K] (body : K → V → Option V) (g : K → V → V) :
    ∀ (keys : List K) (m : K → V), keys.Nodup →
      (∀ k, k ∈ keys → body k (m k) = some (g k (m k))) →
      forKeys body keys m = some (fun k => if k ∈ keys then g k (m k) else m k) := by
  intro keys
  induction keys with
  | nil =>
    intro m _ _
    simp only [forKeys, List.not_mem_nil, if_false]
  | cons k rest ih =>
    intro m hnd hbody
    rw [List.nodup_cons] at hnd
    rw [forKeys, hbody k (List.mem_cons_self k rest)]
    dsimp only
    have hrest : ∀ k2, k2 ∈ rest → k2 ≠ k := fun k2 h2 h => hnd.1 (h ▸ h2)
    rw [ih _ hnd.2 (fun k2 h2 => by
      rw [if_neg (hrest k2 h2)]
      exact hbody k2 (List.mem_cons_of_mem k h2))]
    congr 1
    funext k2
    by_cases h2 : k2 ∈ rest
    · rw [if_pos h2, if_pos (List.mem_cons_of_mem k h2), if_neg (hrest k2 h2)]
    · rw [if_neg h2]
      by_cases hk : k2 = k
      · rw [if_pos hk, hk, if_pos (List.mem_cons_self k rest)]
      · rw [if_neg hk, if_neg (fun h => (List.mem_cons.mp h).elim hk h2)]

theorem removeVictimLoop_eq (l : List String) (victim : String) :
    ∀ (rest pre : List String), l = pre ++ rest → victim ∉ pre →
      removeVictimLoop l victim pre.length rest = some (l.erase victim) := by
  intro rest
  induction rest with
  | nil =>
    intro pre hl hpre
    rw [List.append_nil] at hl
    rw [removeVictimLoop, hl, List.erase_of_not_mem hpre]
  | cons p rest ih =>
    intro pre hl hpre
    rw [removeVictimLoop]
    by_cases hp : p = victim
    · rw [if_pos hp]
      have h1 : sliceTo l pre.length = some pre := by
        unfold sliceTo
        rw [if_pos (by rw [hl, List.length_append]; omega), hl, List.take_left]
      have h2 : sliceFrom l (pre.length + 1) = some rest := by
        unfold sliceFrom
        rw [if_pos (by rw [hl, List.length_append, List.length_cons]; omega), hl]
        congr 1
        rw [← List.drop_drop, List.drop_left]
        rfl
      rw [h1, h2, hl, List.erase_append_right _ hpre, hp, List.erase_cons_head]
    · rw [if_neg hp]
      have h := ih (pre ++ [p]) (by rw [hl, List.append_assoc]; rfl)
        (by
          intro hmem
          rcases List.mem_append.mp hmem with h | h
          · exact hpre h
          · exact hp (List.mem_singleton.mp h).symm)
      rw [List.length_append, List.length_singleton] at h
      exact h

theorem removeVictimChecked_eq (l : List String) (victim : String) :
    removeVictimChecked l victim = some (l.erase victim) :=
  removeVictimLoop_eq l victim l [] rfl (List.not_mem_nil victim)

theorem tradeLoopChecked_eq (killer victim : String) (eventTime : ℚ) :
    ∀ (n : Nat) (stats : StatsMap) (recentDeaths : List deathEvent), n ≤ recentDeaths.length →
      tradeLoopChecked killer victim eventTime n stats recentDeaths
        = some (tradeLoop killer victim eventTime n stats recentDeaths) := by
  intro n
  induction n with
  | zero => intro stats recentDeaths _; rfl
  | succ i ih =>
    intro stats recentDeaths hn
    have hi : i < recentDeaths.length := hn
    rw [tradeLoopChecked, tradeLoop, List.getElem?_eq_getElem hi]
    dsimp only
    by_cases h1 : f64Sub eventTime recentDeaths[i].time > 3
    · rw [if_pos h1, if_pos h1]
      unfold sliceFrom
      rw [if_pos hn]
    · rw [if_neg h1, if_neg h1]
      by_cases h2 : recentDeaths[i].killer = victim ∧ killer ≠ victim
      · rw [if_pos h2, if_pos h2, guardedStoreAt_eq]
        dsimp only
        rw [guardedStoreAt_eq]
        exact ih _ _ (Nat.le_of_lt hi)
      · rw [if_neg h2, if_neg h2]
        exact ih _ _ (Nat.le_of_lt hi)

theorem clutchCheckChecked_eq (players : List Player) (alivePlayers : Int → List String)
    (killer : String) (stats : StatsMap) :
    clutchCheckChecked players alivePlayers killer stats
      = some (clutchCheck players alivePlayers killer stats) := by
  unfold clutchCheckChecked clutchCheck
  dsimp only
  split_ifs
  · exact guardedStoreAt_eq _ _ _
  · rfl
  · rfl

theorem initState_aliveWithinTeams (players : List Player) :
    AliveWithinTeams players (initState players) := by
  intro team hteam
  rw [initState_alivePlayers]
  have hnil : players.filter (fun p => decide (p.TeamIndex = team)) = [] := by
    rw [List.filter_eq_nil_iff]
    intro p hp hdec
    apply hteam
    unfold teamKeys
    rw [List.mem_dedup, List.mem_map]
    exact ⟨p, hp, of_decide_eq_true hdec⟩
  rw [hnil]
  rfl

theorem processEvent_aliveWithinTeams (players : List Player) (st : loopState)
    (event : MatchUpdate) (h : AliveWithinTeams players st) :
    AliveWithinTeams players (processEvent players st event) := by
  intro team hteam
  unfold processEvent
  dsimp only
  split_ifs
  · unfold processKill
    dsimp only
    rw [h team hteam]
    rfl
  all_goals exact h team hteam

theorem processKillChecked_eq (players : List Player) (st : loopState) (event : MatchUpdate)
    (h : AliveWithinTeams players st) :
    processKillChecked players st event = some (processKill players st event) := by
  have halive :
      forKeys (fun (_ : Int) l => removeVictimChecked l event.Target) (teamKeys players)
          st.alivePlayers
        = some (fun team => (st.alivePlayers team).erase event.Target) := by
    rw [forKeys_eq (fun (_ : Int) l => removeVictimChecked l event.Target)
      (fun (_ : Int) (l : List String) => l.erase event.Target) (teamKeys players)
      st.alivePlayers (List.nodup_dedup _)
      (fun team _ => removeVictimChecked_eq (st.alivePlayers team) event.Target)]
    congr 1
    funext team
    by_cases hteam : team ∈ teamKeys players
    · rw [if_pos hteam]
    · rw [if_neg hteam, h team hteam]
      rfl
  unfold processKillChecked processKill
  dsimp only
  rw [halive]
  dsimp only
  rw [tradeLoopChecked_eq _ _ _ _ _ _ (Nat.le_refl _)]
  dsimp only
  rw [clutchCheckChecked_eq]

theorem processEventChecked_eq (players : List Player) (st : loopState) (event : MatchUpdate)
    (h : AliveWithinTeams players st) :
    processEventChecked players st event = some (processEvent players st event) := by
  unfold processEventChecked processEvent
  dsimp only
  split_ifs
  · exact processKillChecked_eq players st event h
  all_goals first
    | rfl
    | (rw [guardedStoreAt_eq])

theorem eventLoopChecked_eq (players : List Player) (events : List MatchUpdate) :
    eventLoopChecked players events = some (eventLoop players events) :=
  forEachChecked_eq (processEventChecked players) (processEvent players)
    (AliveWithinTeams players) (processEventChecked_eq players)
    (processEvent_aliveWithinTeams players) events (initState players)
    (initState_aliveWithinTeams players)

theorem multiKillTally_eq (s : advancedPlayerStats) (count : Int) :
    recordMultiKill (some s) count = some (multiKillTally count s) := by
  unfold recordMultiKill multiKillTally
  dsimp only
  split_ifs <;> rfl

theorem recordMultiKillChecked_eq (stat : Option advancedPlayerStats) (count : Int) :
    recordMultiKillChecked stat count = some (recordMultiKill stat count) := by
  cases stat with
  | none => rfl
  | some s =>
    unfold recordMultiKillChecked derefStore
    simp only [Option.isNone_some, Bool.false_eq_true, if_false]
    rw [multiKillTally_eq]

theorem multiKillLoopChecked_eq (timestamps : List ℚ) :
    ∀ (rest : List ℚ) (i : Nat) (stat : Option advancedPlayerStats) (consecutiveKills : Int)
      (prev : ℚ), timestamps.drop (i + 1) = rest → timestamps[i]? = some prev →
      multiKillLoopChecked timestamps (i + 1) stat consecutiveKills
        = some (multiKillWalk stat consecutiveKills prev rest) := by
  intro rest
  induction rest with
  | nil =>
    intro i stat consecutiveKills prev hdrop _
    rw [List.drop_eq_nil_iff] at hdrop
    rw [multiKillLoopChecked, if_neg (by omega)]
    rfl
  | cons t rest ih =>
    intro i stat consecutiveKills prev hdrop hprev
    have hlt : i + 1 < timestamps.length := by
      by_contra hge
      rw [List.drop_eq_nil_iff.mpr (by omega)] at hdrop
      exact List.noConfusion hdrop
    have ht : timestamps[i + 1]? = some t := by
      have h := List.head?_drop timestamps (i + 1)
      rw [hdrop] at h
      exact h.symm
    have hrest : timestamps.drop (i + 1 + 1) = rest := by
      have h := List.tail_drop timestamps (i + 1)
      rw [hdrop] at h
      exact h.symm
    rw [multiKillLoopChecked, if_pos hlt, ht]
    simp only [Nat.add_sub_cancel, hprev]
    rw [multiKillWalk]
    by_cases hgap : f64Sub t prev ≤ 10
    · rw [if_pos hgap, if_pos hgap]
      exact ih (i + 1) stat (consecutiveKills + 1) t hrest ht
    · rw [if_neg hgap, if_neg hgap, recordMultiKillChecked_eq]
      exact ih (i + 1) _ 1 t hrest ht

theorem multiKillForChecked_eq (stat : Option advancedPlayerStats) (timestamps : List ℚ)
    (killCount : Int) :
    multiKillForChecked stat timestamps killCount
      = some (multiKillFor stat timestamps killCount) := by
  unfold multiKillForChecked
  match timestamps with
  | [] => rfl
  | [_] => rfl
  | first :: second :: rest =>
    rw [if_neg (by simp only [List.length_cons]; omega)]
    rw [multiKillLoopChecked_eq (first :: second :: rest) (second :: rest) 0 stat 1 first rfl rfl]
    dsimp only
    rw [recordMultiKillChecked_eq]
    dsimp only
    unfold multiKillFor
    dsimp only
    cases recordMultiKill (multiKillWalk stat 1 first (second :: rest)).1
        (multiKillWalk stat 1 first (second :: rest)).2 with
    | none =>
      by_cases hk : killCount ≥ 5
      · simp [hk]
      · simp [hk]
    | some s =>
      by_cases hk : killCount ≥ 5
      · simp [hk, derefStore]
      · simp [hk]

theorem killTimes_of_not_killerKey (events : List MatchUpdate) (u : String)
    (hu : u ∉ killerKeys events) : killTimes u events = [] := by
  unfold killTimes
  have hnil : (killEvents events).filter (fun e => decide (e.Username = u)) = [] := by
    rw [List.filter_eq_nil_iff]
    intro e he hdec
    apply hu
    unfold killerKeys
    rw [List.mem_dedup, List.mem_map]
    exact ⟨e, he, of_decide_eq_true hdec⟩
  rw [hnil]
  rfl

theorem multiKillPassChecked_eq (players : List Player) (events : List MatchUpdate) :
    multiKillPassChecked (killerKeys events) (eventLoop players events)
      = some (multiKillPass (eventLoop players events)) := by
  unfold multiKillPassChecked
  rw [forKeys_eq
    (fun username stat =>
      multiKillForChecked stat ((eventLoop players events).killTimestamps username)
        ((eventLoop players events).killCounts username))
    (fun username stat =>
      multiKillFor stat ((eventLoop players events).killTimestamps username)
        ((eventLoop players events).killCounts username))
    (killerKeys events) (eventLoop players events).stats (List.nodup_dedup _)
    (fun _ _ => multiKillForChecked_eq _ _ _)]
  congr 1
  funext u
  unfold multiKillPass
  by_cases hu : u ∈ killerKeys events
  · rw [if_pos hu]
  · rw [if_neg hu, eventLoop_killTimestamps, killTimes_of_not_killerKey events u hu]
    rfl

theorem entryPassChecked_eq (events : List MatchUpdate) (stats : StatsMap) :
    entryPassChecked events stats = some (entryPass events stats) := by
  unfold entryPassChecked entryPass
  cases events.find? (fun event => decide (event.TypeString = "Kill")) with
  | none => rfl
  | some firstKill =>
    dsimp only
    rw [guardedStoreAt_eq]
    dsimp only
    rw [guardedStoreAt_eq]

theorem survivalPassChecked_eq (baseStats : List PlayerRoundStats) (stats : StatsMap) :
    survivalPassChecked baseStats stats = some (survivalPass baseStats stats) :=
  forEachChecked_eq _ _ (fun _ => True) (fun _ _ _ => guardedStoreAt_eq _ _ _)
    (fun _ _ _ => trivial) baseStats stats trivial

theorem kostPassChecked_eq (keys : List String) (baseStats : List PlayerRoundStats)
    (stats : StatsMap) (hnodup : keys.Nodup)
    (hkeys : ∀ u, u ∈ keys → ∃ s, stats u = some s)
    (hrest : ∀ u, u ∉ keys → stats u = none) :
    kostPassChecked keys baseStats stats = some (kostPass baseStats stats) := by
  unfold kostPassChecked
  rw [forKeys_eq _ (fun username stat => kostPass baseStats (fun _ => stat) username)
    keys stats hnodup (by
      intro u hu
      obtain ⟨s, hs⟩ := hkeys u hu
      rw [hs]
      unfold kostPass
      dsimp only
      cases baseStats.find? (fun baseStat => decide (baseStat.Username = u)) with
      | none => rfl
      | some b => rfl)]
  congr 1
  funext u
  by_cases hu : u ∈ keys
  · rw [if_pos hu]
    rfl
  · rw [if_neg hu, kostPass_apply, hrest u hu]
    rfl

theorem survivalPass_entryPass_keys (players : List Player) (events : List MatchUpdate)
    (baseStats : List PlayerRoundStats) (u : String) :
    (u ∈ statsKeys players →
      ∃ s, survivalPass baseStats
        (entryPass events (multiKillPass (eventLoop players events))) u = some s)
    ∧ (u ∉ statsKeys players →
      survivalPass baseStats
        (entryPass events (multiKillPass (eventLoop players events))) u = none) := by
  unfold statsKeys
  rw [List.mem_dedup, survivalPass_apply, entryPass_apply]
  constructor
  · intro hu
    obtain ⟨s, hs, _⟩ := multiKillPass_late players events u hu
    rw [hs]
    exact ⟨_, rfl⟩
  · intro hu
    rw [multiKillPass_none players events u hu]
    rfl

/-- C20: `calculateAdvancedStats` is total. For every event list, roster and
base stats (no condition on usernames, team indices, duplicates, self-kills or
the order of the times) the run with the Go run-time failures made explicit
ends with a mapping, and that mapping is the one of the plain embedding: no
pointer write meets a nil entry, no index or slice bound is out of range. The
guards are what makes it so: an unguarded write to a missing entry would be a
failure, and `recordMultiKill` on the nil entry of a killer outside the roster
returns without a write. -/
theorem calculateAdvancedStats_total (events : List MatchUpdate) (players : List Player)
    (baseStats : List PlayerRoundStats) :
    calculateAdvancedStatsChecked events players baseStats
        = some (calculateAdvancedStats events players baseStats)
      ∧ (∀ k f, storeAt (fun _ => none) k f = none)
      ∧ (∀ k f, guardedStoreAt (fun _ => none) k f = some (fun _ => none))
      ∧ (∀ count, recordMultiKillChecked none count = some none) := by
  refine ⟨?_, fun _ _ => rfl, fun _ _ => rfl, fun _ => rfl⟩
  unfold calculateAdvancedStatsChecked
  rw [eventLoopChecked_eq]
  dsimp only
  rw [multiKillPassChecked_eq]
  dsimp only
  rw [entryPassChecked_eq]
  dsimp only
  rw [survivalPassChecked_eq]
  dsimp only
  rw [kostPassChecked_eq (statsKeys players) baseStats _ (List.nodup_dedup _)
    (fun u => (survivalPass_entryPass_keys players events baseStats u).1)
    (fun u => (survivalPass_entryPass_keys players events baseStats u).2)]
  rfl

/-! ## Objective counters -/

theorem loopFrame_unusedView : LoopFrame unusedView :=
  loopFrame_of_fields _ (fun _ _ _ _ _ _ _ _ _ _ _ _ _ => rfl)

theorem multiFrame_unusedView : MultiFrame unusedView :=
  multiFrame_of_fields _ (fun _ _ _ _ _ => rfl)

theorem postFrame_unusedView : PostFrame unusedView :=
  ⟨fun _ => rfl, fun _ => rfl, fun _ _ => rfl, fun _ _ _ => rfl⟩

/-- C22: for every input and every participant in the result,
`plantDenials = 0` and `survivalTime = 0`. -/
theorem unused_fields_stay_zero (events : List MatchUpdate) (players : List Player)
    (baseStats : List PlayerRoundStats) (P : String) (s : advancedPlayerStats)
    (hs : calculateAdvancedStats events players baseStats P = some s) :
    s.PlantDenials = 0 ∧ s.SurvivalTime = 0 := by
  have h := result_eq_multiKillPass postFrame_unusedView events players baseStats P
  rw [multiKillPass_frame loopFrame_unusedView multiFrame_unusedView, initState_stats, hs] at h
  by_cases hP : P ∈ rosterNames players
  · rw [if_pos hP] at h
    simp only [Option.map_some', Option.some.injEq, unusedView, Prod.mk.injEq] at h
    exact h
  · rw [if_neg hP] at h
    simp at h

/-- C22 at the roster A, B, the kill of B by A followed by a plant of A, and
the base-stats row of A. -/
theorem unused_fields_stay_zero_witness :
    calculateAdvancedStats [kill "A" "B" 1, ⟨"DefuserPlantStart", "A", "", 2⟩]
        [⟨"A", 0⟩, ⟨"B", 1⟩] [⟨"A", 1, false, 0, 0, 0⟩] "A"
        = some { Username := "A", EntryKill := true, DefuserPlants := 1, Survived := true,
                 KOST := true }
      ∧ (({ Username := "A", EntryKill := true, DefuserPlants := 1, Survived := true,
             KOST := true } : advancedPlayerStats).PlantDenials = 0
        ∧ ({ Username := "A", EntryKill := true, DefuserPlants := 1, Survived := true,
             KOST := true } : advancedPlayerStats).SurvivalTime = 0) :=
  ⟨by decide!,
   unused_fields_stay_zero [kill "A" "B" 1, ⟨"DefuserPlantStart", "A", "", 2⟩]
    [⟨"A", 0⟩, ⟨"B", 1⟩] [⟨"A", 1, false, 0, 0, 0⟩] "A" _ (by decide!)⟩

theorem postFrame_objectiveView : PostFrame objectiveView :=
  ⟨fun _ => rfl, fun _ => rfl, fun _ _ => rfl, fun _ _ _ => rfl⟩

theorem multiFrame_objectiveView : MultiFrame objectiveView :=
  multiFrame_of_fields _ (fun _ _ _ _ _ => rfl)

theorem clutchFrame_objectiveView (n : Nat) : Frame objectiveView (clutchUpdate n) := by
  intro s; unfold clutchUpdate; dsimp only; split_ifs <;> rfl

theorem frame_objectiveView_incTradeKills : Frame objectiveView incTradeKills :=
  fun _ => rfl

theorem frame_objectiveView_incTradeDeaths : Frame objectiveView incTradeDeaths :=
  fun _ => rfl

theorem result_objectiveView (events : List MatchUpdate) (players : List Player)
    (baseStats : List PlayerRoundStats) (u : String) :
    (calculateAdvancedStats events players baseStats u).map objectiveView
      = ((eventLoop players events).stats u).map objectiveView :=
  result_eq_eventLoop postFrame_objectiveView multiFrame_objectiveView events players
    baseStats u

theorem eventsOf_snoc (sel : MatchUpdate → Bool) (P : String) (es : List MatchUpdate)
    (e : MatchUpdate) :
    eventsOf sel P (es ++ [e])
      = eventsOf sel P es + (if sel e = true ∧ e.Username = P then 1 else 0) := by
  unfold eventsOf
  rw [List.countP_append, List.countP_singleton]
  simp only [Bool.and_eq_true, decide_eq_true_eq]

/-- What one event does to the objective counters of a participant with a
non-empty username. -/
theorem processEvent_objectiveView (players : List Player) (st : loopState) (e : MatchUpdate)
    (P : String) (hP : P ≠ "") :
    ((processEvent players st e).stats P).map objectiveView
      = ((st.stats P).map objectiveView).map (fun v =>
          (v.1 + (if isPlant e = true ∧ e.Username = P then 1 else 0),
           v.2.1 + (if isDefuse e = true ∧ e.Username = P then 1 else 0),
           v.2.2 + (if isPickup e = true ∧ e.Username = P then 1 else 0))) := by
  have hid : ∀ x : Option (Int × Int × Int),
      x.map (fun v => (v.1 + (0 : Int), v.2.1 + (0 : Int), v.2.2 + (0 : Int))) = x := by
    intro x
    cases x with
    | none => rfl
    | some v => simp
  by_cases hk : e.TypeString = "Kill"
  · rw [processEvent_of_kill players st e hk]
    have h1 : isPlant e = false := by simp [isPlant, hk]
    have h2 : isDefuse e = false := by simp [isDefuse, hk]
    have h3 : isPickup e = false := by simp [isPickup, hk]
    simp only [h1, h2, h3, Bool.false_eq_true, false_and, if_false]
    rw [hid]
    unfold processKill
    dsimp only
    rw [clutchCheck_frame clutchFrame_objectiveView,
      tradeLoop_frame frame_objectiveView_incTradeKills frame_objectiveView_incTradeDeaths]
  · unfold processEvent
    dsimp only
    rw [if_neg hk]
    by_cases hp : e.TypeString = "DefuserPlantStart" ∨ e.TypeString = "DefuserPlantComplete"
    · have h1 : isPlant e = true := by
        rcases hp with h | h <;> simp [isPlant, h]
      have h2 : isDefuse e = false := by
        rcases hp with h | h <;> simp [isDefuse, h]
      have h3 : isPickup e = false := by
        rcases hp with h | h <;> simp [isPickup, h]
      rw [if_pos hp]
      simp only [h1, h2, h3, Bool.false_eq_true, false_and, true_and, if_false]
      by_cases hu : e.Username = P
      · rw [if_pos (by rw [hu]; exact hP), if_pos hu]
        dsimp only
        rw [updateStat_apply, if_pos hu.symm]
        cases st.stats P with
        | none => rfl
        | some s => simp [objectiveView, incDefuserPlants]
      · rw [if_neg hu, hid]
        by_cases he : e.Username ≠ ""
        · rw [if_pos he]
          dsimp only
          rw [updateStat_apply, if_neg (fun h => hu h.symm)]
        · rw [if_neg he]
    · rw [if_neg hp]
      have h1 : isPlant e = false := by
        simp only [not_or] at hp
        simp [isPlant, hp.1, hp.2]
      by_cases hd : e.TypeString = "DefuserDisableStart"
          ∨ e.TypeString = "DefuserDisableComplete"
      · have h2 : isDefuse e = true := by
          rcases hd with h | h <;> simp [isDefuse, h]
        have h3 : isPickup e = false := by
          rcases hd with h | h <;> simp [isPickup, h]
        rw [if_pos hd]
        simp only [h1, h2, h3, Bool.false_eq_true, false_and, true_and, if_false]
        by_cases hu : e.Username = P
        · rw [if_pos (by rw [hu]; exact hP), if_pos hu]
          dsimp only
          rw [updateStat_apply, if_pos hu.symm]
          cases st.stats P with
          | none => rfl
          | some s => simp [objectiveView, incDefuserDefuses]
        · rw [if_neg hu, hid]
          by_cases he : e.Username ≠ ""
          · rw [if_pos he]
            dsimp only
            rw [updateStat_apply, if_neg (fun h => hu h.symm)]
          · rw [if_neg he]
      · rw [if_neg hd]
        have h2 : isDefuse e = false := by
          simp only [not_or] at hd
          simp [isDefuse, hd.1, hd.2]
        by_cases hc : e.TypeString = "DefuserPickedUp"
        · have h3 : isPickup e = true := by simp [isPickup, hc]
          rw [if_pos hc]
          simp only [h1, h2, h3, Bool.false_eq_true, false_and, true_and, if_false]
          by_cases hu : e.Username = P
          · rw [if_pos (by rw [hu]; exact hP), if_pos hu]
            dsimp only
            rw [updateStat_apply, if_pos hu.symm]
            cases st.stats P with
            | none => rfl
            | some s => simp [objectiveView, incDefuserPickups]
          · rw [if_neg hu, hid]
            by_cases he : e.Username ≠ ""
            · rw [if_pos he]
              dsimp only
              rw [updateStat_apply, if_neg (fun h => hu h.symm)]
            · rw [if_neg he]
        · rw [if_neg hc]
          have h3 : isPickup e = false := by simp [isPickup, hc]
          simp only [h1, h2, h3, Bool.false_eq_true, false_and, if_false]
          rw [hid]

theorem eventLoop_objectiveView (players : List Player) (events : List MatchUpdate)
    (P : String) (hP : P ∈ rosterNames players) (hne : P ≠ "") :
    ((eventLoop players events).stats P).map objectiveView
      = some (objectiveSpec P events) := by
  induction events using List.reverseRecOn with
  | nil =>
    rw [eventLoop_nil, initState_stats, if_pos hP]
    rfl
  | append_singleton es e ih =>
    rw [eventLoop_snoc, processEvent_objectiveView players _ e P hne, ih]
    unfold objectiveSpec
    rw [eventsOf_snoc, eventsOf_snoc, eventsOf_snoc]
    simp only [Option.map_some', Option.some.injEq, Prod.mk.injEq]
    refine ⟨?_, ?_, ?_⟩ <;> split_ifs <;> simp

/-- An event with the empty username changes no entry. -/
theorem processEvent_objectiveView_empty (players : List Player) (st : loopState)
    (e : MatchUpdate) :
    ((processEvent players st e).stats "").map objectiveView
      = (st.stats "").map objectiveView := by
  by_cases hk : e.TypeString = "Kill"
  · rw [processEvent_of_kill players st e hk]
    unfold processKill
    dsimp only
    rw [clutchCheck_frame clutchFrame_objectiveView,
      tradeLoop_frame frame_objectiveView_incTradeKills frame_objectiveView_incTradeDeaths]
  · unfold processEvent
    dsimp only
    rw [if_neg hk]
    split_ifs with h1 h2 h3 h4 h5 h6
    all_goals first
      | rfl
      | (dsimp only; rw [updateStat_apply, if_neg (fun h => by first
          | exact h2 h.symm
          | exact h4 h.symm
          | exact h6 h.symm)])

theorem eventLoop_objectiveView_empty (players : List Player) (events : List MatchUpdate) :
    ((eventLoop players events).stats "").map objectiveView
      = ((initState players).stats "").map objectiveView := by
  induction events using List.reverseRecOn with
  | nil => rfl
  | append_singleton es e ih =>
    rw [eventLoop_snoc, processEvent_objectiveView_empty, ih]

/-- C21, as amended: for every input and every roster participant `P` whose
username is not the empty string, `defuserPlants[P]` is the number of
`DefuserPlantStart` and `DefuserPlantComplete` events whose username is `P`
(both phases count), `defuserDefuses[P]` the number of `DefuserDisableStart`
and `DefuserDisableComplete` events of `P`, and `defuserPickups[P]` the number
of `DefuserPickedUp` events of `P`; for a participant whose username is the
empty string the three counters stay 0. -/
theorem objective_counters_count_events (events : List MatchUpdate) (players : List Player)
    (baseStats : List PlayerRoundStats) (P : String) (hP : P ∈ rosterNames players) :
    ∃ s, calculateAdvancedStats events players baseStats P = some s
      ∧ (P ≠ "" →
          s.DefuserPlants = (eventsOf isPlant P events : Nat)
            ∧ s.DefuserDefuses = (eventsOf isDefuse P events : Nat)
            ∧ s.DefuserPickups = (eventsOf isPickup P events : Nat))
      ∧ (P = "" → s.DefuserPlants = 0 ∧ s.DefuserDefuses = 0 ∧ s.DefuserPickups = 0) := by
  have hv := result_objectiveView events players baseStats P
  obtain ⟨s0, hs0⟩ := eventLoop_stats_isSome players events P hP
  rw [hs0] at hv
  obtain ⟨s, hs, hview⟩ := exists_of_map_eq_some hv
  refine ⟨s, hs, ?_, ?_⟩
  · intro hne
    have h := eventLoop_objectiveView players events P hP hne
    rw [hs0] at h
    simp only [Option.map_some', Option.some.injEq] at h
    rw [h] at hview
    simp only [objectiveView, objectiveSpec, Prod.mk.injEq] at hview
    exact hview
  · intro he
    subst he
    have h := eventLoop_objectiveView_empty players events
    rw [hs0, initState_stats, if_pos hP] at h
    simp only [Option.map_some', Option.some.injEq] at h
    rw [h] at hview
    simp only [objectiveView, Prod.mk.injEq] at hview
    exact hview

/-- C21 applied to the roster A, B and a plant of A in two phases, a defuse
start of B and a pickup of A: `defuserPlants[A] = 2`, `defuserDefuses[A] = 0`
and `defuserPickups[A] = 1`. -/
theorem objective_counters_count_events_witness :
    ∃ s, calculateAdvancedStats
          [⟨"DefuserPickedUp", "A", "", 1⟩, ⟨"DefuserPlantStart", "A", "", 2⟩,
            ⟨"DefuserPlantComplete", "A", "", 9⟩, ⟨"DefuserDisableStart", "B", "", 12⟩]
          [⟨"A", 0⟩, ⟨"B", 1⟩] [] "A" = some s
      ∧ s.DefuserPlants = 2 ∧ s.DefuserDefuses = 0 ∧ s.DefuserPickups = 1 := by
  obtain ⟨s, hs, h, _⟩ := objective_counters_count_events
    [⟨"DefuserPickedUp", "A", "", 1⟩, ⟨"DefuserPlantStart", "A", "", 2⟩,
      ⟨"DefuserPlantComplete", "A", "", 9⟩, ⟨"DefuserDisableStart", "B", "", 12⟩]
    [⟨"A", 0⟩, ⟨"B", 1⟩] [] "A" (by decide)
  obtain ⟨h1, h2, h3⟩ := h (by decide)
  refine ⟨s, hs, ?_, ?_, ?_⟩
  · rw [h1]; decide
  · rw [h2]; decide
  · rw [h3]; decide

/-- C21 as stated fails for a roster participant whose username is the empty
string: the plant event with the empty username is an event of that
participant, but the guard `event.Username != ""` skips it and
`defuserPlants` stays 0. -/
theorem objective_event_of_empty_username_skipped :
    "" ∈ rosterNames [⟨"", 0⟩]
      ∧ eventsOf isPlant "" [⟨"DefuserPlantStart", "", "", 1⟩] = 1
      ∧ (calculateAdvancedStats [⟨"DefuserPlantStart", "", "", 1⟩] [⟨"", 0⟩] [] "").map
          (·.DefuserPlants) = some 0 := by
  decide!

/-! ## Objective events leave the other statistics alone -/

theorem map_respects {β : Type} {proj : advancedPlayerStats → β}
    {f : advancedPlayerStats → advancedPlayerStats} (hf : Respects proj f)
    {x y : Option advancedPlayerStats} (h : x.map proj = y.map proj) :
    (x.map f).map proj = (y.map f).map proj := by
  cases x with
  | none =>
    cases y with
    | none => rfl
    | some b => simp at h
  | some a =>
    cases y with
    | none => simp at h
    | some b =>
      simp only [Option.map_some', Option.some.injEq] at h ⊢
      exact hf a b h

theorem updateStat_agree {β : Type} {proj : advancedPlayerStats → β}
    {f : advancedPlayerStats → advancedPlayerStats} (hf : Respects proj f)
    {stats stats2 : StatsMap} (h : AgreeOn proj stats stats2) (k : String) :
    AgreeOn proj (updateStat stats k f) (updateStat stats2 k f) := by
  intro u
  rw [updateStat_apply, updateStat_apply]
  by_cases hu : u = k
  · rw [if_pos hu, if_pos hu]
    exact map_respects hf (h u)
  · rw [if_neg hu, if_neg hu]
    exact h u

theorem tradeLoop_agree {β : Type} {proj : advancedPlayerStats → β}
    (hk : Respects proj incTradeKills) (hd : Respects proj incTradeDeaths)
    (killer victim : String) (eventTime : ℚ) (recentDeaths : List deathEvent) :
    ∀ (n : Nat) (stats stats2 : StatsMap), AgreeOn proj stats stats2 →
      AgreeOn proj (tradeLoop killer victim eventTime n stats recentDeaths).1
          (tradeLoop killer victim eventTime n stats2 recentDeaths).1
        ∧ (tradeLoop killer victim eventTime n stats recentDeaths).2
          = (tradeLoop killer victim eventTime n stats2 recentDeaths).2 := by
  intro n
  induction n with
  | zero => intro stats stats2 h; exact ⟨h, rfl⟩
  | succ i ih =>
    intro stats stats2 h
    rw [tradeLoop, tradeLoop]
    cases recentDeaths[i]? with
    | none => exact ⟨h, rfl⟩
    | some rd =>
      dsimp only
      by_cases h1 : f64Sub eventTime rd.time > 3
      · rw [if_pos h1, if_pos h1]
        exact ⟨h, rfl⟩
      · rw [if_neg h1, if_neg h1]
        by_cases h2 : rd.killer = victim ∧ killer ≠ victim
        · rw [if_pos h2, if_pos h2]
          exact ih _ _ (updateStat_agree hd (updateStat_agree hk h killer) victim)
        · rw [if_neg h2, if_neg h2]
          exact ih _ _ h

theorem clutchCheck_agree {β : Type} {proj : advancedPlayerStats → β}
    (hc : ∀ n, Respects proj (clutchUpdate n)) (players : List Player)
    (alivePlayers : Int → List String) (killer : String) {stats stats2 : StatsMap}
    (h : AgreeOn proj stats stats2) :
    AgreeOn proj (clutchCheck players alivePlayers killer stats)
      (clutchCheck players alivePlayers killer stats2) := by
  unfold clutchCheck
  dsimp only
  split_ifs
  · exact updateStat_agree (hc _) h killer
  · exact h
  · exact h

theorem recordMultiKill_agree {β : Type} {proj : advancedPlayerStats → β}
    (hr : ∀ count, Respects proj (multiKillTally count))
    {stat stat2 : Option advancedPlayerStats} (h : stat.map proj = stat2.map proj)
    (count : Int) :
    (recordMultiKill stat count).map proj = (recordMultiKill stat2 count).map proj := by
  cases stat with
  | none =>
    cases stat2 with
    | none => rfl
    | some b => simp at h
  | some a =>
    cases stat2 with
    | none => simp at h
    | some b =>
      rw [multiKillTally_eq, multiKillTally_eq]
      simp only [Option.map_some', Option.some.injEq] at h ⊢
      exact hr count a b h

theorem multiKillWalk_agree {β : Type} {proj : advancedPlayerStats → β}
    (hr : ∀ count, Respects proj (multiKillTally count)) (rest : List ℚ) :
    ∀ (stat stat2 : Option advancedPlayerStats) (consecutiveKills : Int) (prev : ℚ),
      stat.map proj = stat2.map proj →
      ((multiKillWalk stat consecutiveKills prev rest).1).map proj
          = ((multiKillWalk stat2 consecutiveKills prev rest).1).map proj
        ∧ (multiKillWalk stat consecutiveKills prev rest).2
          = (multiKillWalk stat2 consecutiveKills prev rest).2 := by
  induction rest with
  | nil => intro stat stat2 c prev h; exact ⟨h, rfl⟩
  | cons t rest ih =>
    intro stat stat2 c prev h
    rw [multiKillWalk, multiKillWalk]
    by_cases hgap : f64Sub t prev ≤ 10
    · rw [if_pos hgap, if_pos hgap]
      exact ih _ _ _ _ h
    · rw [if_neg hgap, if_neg hgap]
      exact ih _ _ _ _ (recordMultiKill_agree hr h c)

theorem multiKillFor_agree {β : Type} {proj : advancedPlayerStats → β}
    (hr : ∀ count, Respects proj (multiKillTally count)) (ha : Respects proj setAce)
    {stat stat2 : Option advancedPlayerStats} (h : stat.map proj = stat2.map proj)
    (timestamps : List ℚ) (killCount : Int) :
    (multiKillFor stat timestamps killCount).map proj
      = (multiKillFor stat2 timestamps killCount).map proj := by
  match timestamps with
  | [] => exact h
  | [_] => exact h
  | first :: second :: rest =>
    unfold multiKillFor
    dsimp only
    have hw := multiKillWalk_agree hr (second :: rest) stat stat2 1 first h
    have hrec := recordMultiKill_agree hr hw.1
      (multiKillWalk stat 1 first (second :: rest)).2
    rw [← hw.2]
    by_cases hk : killCount ≥ 5
    · rw [if_pos hk, if_pos hk]
      exact map_respects ha hrec
    · rw [if_neg hk, if_neg hk]
      exact hrec

theorem eventLoop_killEvents_agree {β : Type} {proj : advancedPlayerStats → β}
    (hk : Respects proj incTradeKills) (hd : Respects proj incTradeDeaths)
    (hc : ∀ n, Respects proj (clutchUpdate n)) (ho : ObjectiveFrame proj)
    (players : List Player) (events : List MatchUpdate) :
    AgreeOn proj (eventLoop players events).stats (eventLoop players (killEvents events)).stats
      ∧ (eventLoop players events).alivePlayers
          = (eventLoop players (killEvents events)).alivePlayers
      ∧ (eventLoop players events).killCounts
          = (eventLoop players (killEvents events)).killCounts
      ∧ (eventLoop players events).killTimestamps
          = (eventLoop players (killEvents events)).killTimestamps
      ∧ (eventLoop players events).recentDeaths
          = (eventLoop players (killEvents events)).recentDeaths := by
  induction events using List.reverseRecOn with
  | nil => exact ⟨fun _ => rfl, rfl, rfl, rfl, rfl⟩
  | append_singleton es e ih =>
    obtain ⟨hs, ha, hkc, hkt, hrd⟩ := ih
    rw [killEvents_snoc]
    by_cases hkill : e.TypeString = "Kill"
    · rw [if_pos hkill, eventLoop_snoc, eventLoop_snoc, processEvent_of_kill _ _ _ hkill,
        processEvent_of_kill _ _ _ hkill]
      unfold processKill
      dsimp only
      rw [← ha, ← hkc, ← hkt, ← hrd]
      have ht := tradeLoop_agree hk hd e.Username e.Target e.TimeInSeconds
        (eventLoop players es).recentDeaths (eventLoop players es).recentDeaths.length _ _ hs
      refine ⟨clutchCheck_agree hc players _ e.Username ht.1, rfl, rfl, rfl, ?_⟩
      rw [ht.2]
    · rw [if_neg hkill, eventLoop_snoc]
      obtain ⟨h1, h2, h3, h4⟩ := processEvent_of_ne_kill players (eventLoop players es) e hkill
      refine ⟨fun u => ?_, by rw [h1, ha], by rw [h2, hkc], by rw [h3, hkt], by rw [h4, hrd]⟩
      rw [processEvent_of_ne_kill_stats ho players _ e hkill u]
      exact hs u

theorem killEvents_killEvents (events : List MatchUpdate) :
    killEvents (killEvents events) = killEvents events := by
  unfold killEvents
  rw [List.filter_filter]
  simp only [Bool.and_self]

theorem entryStep_killEvents (events : List MatchUpdate) (P : String) :
    entryStep (killEvents events) P = entryStep events P := by
  funext s
  unfold entryStep firstKill
  rw [killEvents_killEvents]

theorem respects_killSideView_incTradeKills : Respects killSideView incTradeKills := by
  intro s s2 h
  simp only [killSideView, clutchView, multiView, unusedView, incTradeKills,
    Prod.mk.injEq] at h ⊢
  simp only [h, and_self]

theorem respects_killSideView_incTradeDeaths : Respects killSideView incTradeDeaths := by
  intro s s2 h
  simp only [killSideView, clutchView, multiView, unusedView, incTradeDeaths,
    Prod.mk.injEq] at h ⊢
  simp only [h, and_self]

theorem respects_killSideView_clutchUpdate (n : Nat) :
    Respects killSideView (clutchUpdate n) := by
  intro s s2 h
  simp only [killSideView, Prod.mk.injEq] at h ⊢
  rw [clutchView_clutchUpdate, clutchView_clutchUpdate, h.2.2.1]
  refine ⟨?_, ?_, rfl, ?_, ?_, ?_, ?_⟩
  all_goals
    unfold clutchUpdate
    dsimp only
    split_ifs
  all_goals first
    | exact h.1
    | exact h.2.1
    | exact h.2.2.2.1
    | exact h.2.2.2.2.1
    | exact h.2.2.2.2.2.1
    | exact h.2.2.2.2.2.2

theorem objectiveFrame_killSideView : ObjectiveFrame killSideView :=
  ⟨fun _ => rfl, fun _ => rfl, fun _ => rfl⟩

theorem respects_killSideView_multiKillTally (count : Int) :
    Respects killSideView (multiKillTally count) := by
  intro s s2 h
  simp only [killSideView, clutchView, multiView, unusedView, Prod.mk.injEq] at h
  unfold multiKillTally
  split_ifs <;>
    simp only [killSideView, clutchView, multiView, unusedView, Prod.mk.injEq, h, and_self]

theorem respects_killSideView_setAce : Respects killSideView setAce := by
  intro s s2 h
  simp only [killSideView, clutchView, multiView, unusedView, setAce, Prod.mk.injEq] at h ⊢
  simp only [h, and_self]

theorem respects_killSideView_entryStep (events : List MatchUpdate) (P : String) :
    Respects killSideView (entryStep events P) := by
  intro s s2 h
  simp only [killSideView, clutchView, multiView, unusedView, Prod.mk.injEq] at h
  unfold entryStep
  cases firstKill events with
  | none =>
    simp only [killSideView, clutchView, multiView, unusedView, Prod.mk.injEq, h, and_self]
  | some fk =>
    dsimp only
    split_ifs <;>
      simp only [killSideView, clutchView, multiView, unusedView, setEntryKill, setEntryDeath,
        Prod.mk.injEq, h, and_self]

theorem respects_killSideView_survivalStep (baseStats : List PlayerRoundStats) (P : String) :
    Respects killSideView (survivalStep baseStats P) := by
  intro s s2 h
  simp only [killSideView, clutchView, multiView, unusedView, Prod.mk.injEq] at h
  unfold survivalStep
  cases (baseStats.filter (fun b => decide (b.Username = P))).getLast? with
  | none =>
    simp only [killSideView, clutchView, multiView, unusedView, Prod.mk.injEq, h, and_self]
  | some b =>
    simp only [killSideView, clutchView, multiView, unusedView, Prod.mk.injEq, h, and_self]

theorem respects_killSideView_kostStep (baseStats : List PlayerRoundStats) (P : String) :
    Respects killSideView (kostStep baseStats P) := by
  intro s s2 h
  simp only [killSideView, clutchView, multiView, unusedView, Prod.mk.injEq] at h
  unfold kostStep
  cases baseStatsOf baseStats P with
  | none =>
    simp only [killSideView, clutchView, multiView, unusedView, Prod.mk.injEq, h, and_self]
  | some b =>
    simp only [killSideView, clutchView, multiView, unusedView, Prod.mk.injEq, h, and_self]

theorem result_killSideView (events : List MatchUpdate) (players : List Player)
    (baseStats : List PlayerRoundStats) (u : String) :
    (calculateAdvancedStats (killEvents events) players baseStats u).map killSideView
      = (calculateAdvancedStats events players baseStats u).map killSideView := by
  obtain ⟨hs, _, hkc, hkt, _⟩ := eventLoop_killEvents_agree respects_killSideView_incTradeKills
    respects_killSideView_incTradeDeaths respects_killSideView_clutchUpdate
    objectiveFrame_killSideView players events
  have hm : (multiKillPass (eventLoop players (killEvents events)) u).map killSideView
      = (multiKillPass (eventLoop players events) u).map killSideView := by
    unfold multiKillPass
    rw [← hkc, ← hkt]
    exact multiKillFor_agree respects_killSideView_multiKillTally respects_killSideView_setAce
      (hs u).symm _ _
  rw [result_eq_steps, result_eq_steps, entryStep_killEvents]
  exact map_respects
    (fun a b hab => respects_killSideView_kostStep baseStats u _ _
      (respects_killSideView_survivalStep baseStats u _ _
        (respects_killSideView_entryStep events u a b hab))) hm

/-- C23: plant, defuse and pickup events only affect the objective counters.
For every input, removing every non-Kill event from the event list leaves
`entryKill`, `entryDeath`, `clutchAttempts`, `clutchWins`, `clutch1v1` ..
`clutch1v5`, `doubleKills`, `tripleKills`, `quadKills`, `ace`, `tradeKills`,
`tradeDeaths` and `survived` unchanged for every participant: the two result
mappings have the same keys, and an entry differs at most in `defuserPlants`,
`defuserDefuses`, `defuserPickups` and `kost`. -/
theorem non_kill_events_touch_objective_only (events : List MatchUpdate)
    (players : List Player) (baseStats : List PlayerRoundStats) (u : String) :
    (calculateAdvancedStats (events.filter (fun e => decide (e.TypeString = "Kill")))
        players baseStats u).map
        (fun s => ((s.EntryKill, s.EntryDeath),
          (s.ClutchAttempts, s.ClutchWins, s.Clutch1v1, s.Clutch1v2, s.Clutch1v3, s.Clutch1v4,
            s.Clutch1v5),
          (s.DoubleKills, s.TripleKills, s.QuadKills, s.Ace),
          (s.TradeKills, s.TradeDeaths), s.Survived, (s.Username, s.PlantDenials,
            s.SurvivalTime)))
      = (calculateAdvancedStats events players baseStats u).map
        (fun s => ((s.EntryKill, s.EntryDeath),
          (s.ClutchAttempts, s.ClutchWins, s.Clutch1v1, s.Clutch1v2, s.Clutch1v3, s.Clutch1v4,
            s.Clutch1v5),
          (s.DoubleKills, s.TripleKills, s.QuadKills, s.Ace),
          (s.TradeKills, s.TradeDeaths), s.Survived, (s.Username, s.PlantDenials,
            s.SurvivalTime))) := by
  have h := result_killSideView events players baseStats u
  have hfilter : events.filter (fun e => decide (e.TypeString = "Kill")) = killEvents events :=
    rfl
  rw [hfilter]
  cases h1 : calculateAdvancedStats (killEvents events) players baseStats u with
  | none =>
    rw [h1] at h
    cases h2 : calculateAdvancedStats events players baseStats u with
    | none => rfl
    | some b => rw [h2] at h; simp at h
  | some a =>
    rw [h1] at h
    cases h2 : calculateAdvancedStats events players baseStats u with
    | none => rw [h2] at h; simp at h
    | some b =>
      rw [h2] at h
      simp only [Option.map_some', Option.some.injEq, killSideView, clutchView, multiView,
        unusedView, Prod.mk.injEq] at h ⊢
      simp only [h, and_self]

/-- C23 at the roster A, B, C with a plant and a pickup of A around the kill
of B by A: without the two objective events the entry of A differs in
`defuserPlants`, `defuserPickups` and nothing else. -/
theorem non_kill_events_example :
    calculateAdvancedStats
        [⟨"DefuserPickedUp", "A", "", 1⟩, kill "A" "B" 2, ⟨"DefuserPlantStart", "A", "", 3⟩]
        [⟨"A", 0⟩, ⟨"B", 1⟩, ⟨"C", 1⟩] [⟨"A", 1, false, 0, 0, 0⟩] "A"
        = some { Username := "A", EntryKill := true, DefuserPlants := 1, DefuserPickups := 1,
                 ClutchAttempts := 1, ClutchWins := 1, Clutch1v1 := true, Survived := true,
                 KOST := true }
      ∧ calculateAdvancedStats [kill "A" "B" 2]
        [⟨"A", 0⟩, ⟨"B", 1⟩, ⟨"C", 1⟩] [⟨"A", 1, false, 0, 0, 0⟩] "A"
        = some { Username := "A", EntryKill := true,
                 ClutchAttempts := 1, ClutchWins := 1, Clutch1v1 := true, Survived := true,
                 KOST := true } := by
  decide!

/-! ## Clutches of players who are not lone survivors -/

/-- C24 fails in the code: with team 0 = {K, A}, team 1 = {X, Y} and the
events `Kill(X,K,1)`, `Kill(K,Y,2)` the dead `K` is credited with a clutch.
At the second event the alive list of team 0 is `[A]`, so the test
`aliveOnTeam == 1` passes although the killer `K` is not the survivor:
`clutchAttempts[K] = 1`, `clutch1v1[K] = true` and `clutchWins[K] = 1`, and no
Kill event by `K` finds `K` alive and alone on team 0. -/
theorem clutch_credited_to_dead_killer :
    (rosterNames [⟨"K", 0⟩, ⟨"A", 0⟩, ⟨"X", 1⟩, ⟨"Y", 1⟩]).Nodup
      ∧ (calculateAdvancedStats [kill "X" "K" 1, kill "K" "Y" 2]
          [⟨"K", 0⟩, ⟨"A", 0⟩, ⟨"X", 1⟩, ⟨"Y", 1⟩] [] "K").map
          (fun s => (s.ClutchAttempts, s.Clutch1v1, s.ClutchWins)) = some (1, true, 1)
      ∧ "K" ∈ victims ([kill "X" "K" 1, kill "K" "Y" 2].take 1)
      ∧ loneSurvivorKill [⟨"K", 0⟩, ⟨"A", 0⟩, ⟨"X", 1⟩, ⟨"Y", 1⟩]
          [kill "X" "K" 1, kill "K" "Y" 2] "K" 0 = false
      ∧ (calculateAdvancedStats [kill "X" "K" 1, kill "K" "Y" 2]
          [⟨"K", 0⟩, ⟨"A", 0⟩, ⟨"X", 1⟩, ⟨"Y", 1⟩] [] "A").map
          (fun s => (s.ClutchAttempts, s.Clutch1v1, s.ClutchWins)) = some (0, false, 0) := by
  decide!

/-- C25 fails in the code: with team 0 = {K}, team 1 = {Y, Z} and the single
event `Kill(K,Y,1)` the result has `clutchWins[K] = 1`, but `Z` is alive
after the only Kill event by `K`: no Kill event by `K` leaves the enemy team
without a living participant. The win is counted by the test
`aliveEnemies == 1` on the count taken after the victim's removal. -/
theorem clutch_win_with_enemy_alive :
    (rosterNames [⟨"K", 0⟩, ⟨"Y", 1⟩, ⟨"Z", 1⟩]).Nodup
      ∧ (calculateAdvancedStats [kill "K" "Y" 1] [⟨"K", 0⟩, ⟨"Y", 1⟩, ⟨"Z", 1⟩] [] "K").map
          (·.ClutchWins) = some 1
      ∧ aliveAfter [⟨"K", 0⟩, ⟨"Y", 1⟩, ⟨"Z", 1⟩] [kill "K" "Y" 1] 0 1 = 1
      ∧ eliminatesEnemies [⟨"K", 0⟩, ⟨"Y", 1⟩, ⟨"Z", 1⟩] [kill "K" "Y" 1] "K" 0 = false := by
  decide!

/-! ## Multi-kill tallies and the kill timeline -/

theorem result_tallies (events : List MatchUpdate) (players : List Player)
    (baseStats : List PlayerRoundStats) (P : String) (s : advancedPlayerStats)
    (hs : calculateAdvancedStats events players baseStats P = some s) :
    P ∈ rosterNames players
      ∧ s.DoubleKills = (streaksOfLength 2 (killTimes P events) : Nat)
      ∧ s.TripleKills = (streaksOfLength 3 (killTimes P events) : Nat)
      ∧ s.QuadKills = (streaksOfLength 4 (killTimes P events) : Nat) := by
  have hP : P ∈ rosterNames players := by
    by_contra hP
    rw [result_none events players baseStats P hP] at hs
    exact Option.noConfusion hs
  have h := result_multiView events players baseStats P hP
  rw [hs] at h
  simp only [Option.map_some', Option.some.injEq, multiView, Prod.mk.injEq] at h
  exact ⟨hP, h.1, h.2.1, h.2.2.1⟩

theorem streak_of_three (timestamps : List ℚ) (h : 1 ≤ streaksOfLength 3 timestamps) :
    ∃ pre a b c post, timestamps = pre ++ a :: b :: c :: post
      ∧ f64Sub b a ≤ 10 ∧ f64Sub c b ≤ 10 := by
  unfold streaksOfLength at h
  obtain ⟨str, hmem, hlen⟩ := List.countP_pos_iff.mp h
  have hlen3 : 3 ≤ str.length := of_decide_eq_true hlen
  have hchain := (streaks_chain timestamps str hmem).2
  have hinfix : List.IsInfix str timestamps := by
    have := List.infix_of_mem_flatten hmem
    rwa [streaks_flatten] at this
  match str, hlen3, hchain, hinfix with
  | a :: b :: c :: rest, _, hchain, hinfix =>
    obtain ⟨pre, post, hts⟩ := hinfix
    rw [List.chain'_cons, List.chain'_cons] at hchain
    refine ⟨pre, a, b, c, rest ++ post, ?_, hchain.1, hchain.2.1⟩
    rw [← hts]
    simp

/-- C26, as amended: for every input whose Kill events carry non-decreasing
times and every participant `P` of the result, if `tripleKills[P] ≥ 1` then
`P` has three consecutive kills `a ≤ b ≤ c` in its kill timeline in which each
is at most 10.0 s after the one before, the gaps being the `float64`
differences that the program computes; in exact terms each gap is at most
`10 + 2^-50`, so `P` has three Kill events whose earliest and latest times
differ by at most `20 + 2^-49` s. -/
theorem triple_kill_has_chain_of_three (events : List MatchUpdate) (players : List Player)
    (baseStats : List PlayerRoundStats) (P : String) (s : advancedPlayerStats)
    (hord : killTimesOrdered events)
    (hs : calculateAdvancedStats events players baseStats P = some s)
    (ht : 1 ≤ s.TripleKills) :
    P ∈ rosterNames players
      ∧ (∃ pre a b c post, killTimes P events = pre ++ a :: b :: c :: post
          ∧ a ≤ b ∧ b ≤ c ∧ f64Sub b a ≤ 10 ∧ f64Sub c b ≤ 10
          ∧ b - a ≤ 10 + 1 / 2 ^ 50 ∧ c - b ≤ 10 + 1 / 2 ^ 50)
      ∧ threeKillsWithin (20 + 1 / 2 ^ 49) (killTimes P events) = true := by
  obtain ⟨hP, _, h3, _⟩ := result_tallies events players baseStats P s hs
  rw [h3] at ht
  obtain ⟨pre, a, b, c, post, hts, hab, hbc⟩ :=
    streak_of_three (killTimes P events) (by exact_mod_cast ht)
  have hab2 := (f64Sub_le_ten b a).mp hab
  have hbc2 := (f64Sub_le_ten c b).mp hbc
  have hpw := killTimes_pairwise events P hord
  have hsub : List.Sublist [a, b, c] (killTimes P events) := by
    rw [hts]
    exact (List.Sublist.cons₂ a (List.Sublist.cons₂ b (List.Sublist.cons₂ c
      (List.nil_sublist post)))).trans (List.sublist_append_right pre _)
  have hle := hpw.sublist hsub
  simp only [List.pairwise_cons, List.mem_cons, List.mem_singleton, forall_eq_or_imp,
    forall_eq, List.not_mem_nil, false_implies, implies_true, List.Pairwise.nil,
    and_true] at hle
  obtain ⟨⟨h1, h2⟩, h3⟩ := hle
  refine ⟨hP, ⟨pre, a, b, c, post, hts, h1, h3, hab, hbc, hab2, hbc2⟩, ?_⟩
  unfold threeKillsWithin
  rw [List.any_eq_true]
  refine ⟨[a, b, c], List.mem_sublistsLen.mpr ⟨hsub, rfl⟩, ?_⟩
  simp only [List.all_cons, List.all_nil, Bool.and_true, Bool.and_eq_true, decide_eq_true_eq]
  have e49 : (1 : ℚ) / 2 ^ 49 = 2 * (1 / 2 ^ 50) := by norm_num
  have p50 : (0 : ℚ) < 1 / 2 ^ 50 := by positivity
  rw [e49]
  refine ⟨⟨?_, ?_, ?_⟩, ⟨?_, ?_, ?_⟩, ⟨?_, ?_, ?_⟩⟩ <;> linarith

/-- C26 applied to the kills of P at the `float64` values nearest to 0.3, 10.3
and 20.3: `tripleKills[P] = 1` and the three kills form the chain, although
the first exact gap is greater than 10.0 and the exact span greater than
20.0. -/
theorem triple_kill_has_chain_of_three_witness :
    ("P" ∈ rosterNames [⟨"P", 0⟩, ⟨"X", 1⟩]
      ∧ (∃ pre a b c post,
          killTimes "P"
              [kill "P" "X" (5404319552844595 / 18014398509481984),
                kill "P" "Y" (2899192260119757 / 281474976710656),
                kill "P" "Z" (5713942027226317 / 281474976710656)]
            = pre ++ a :: b :: c :: post
          ∧ a ≤ b ∧ b ≤ c ∧ f64Sub b a ≤ 10 ∧ f64Sub c b ≤ 10
          ∧ b - a ≤ 10 + 1 / 2 ^ 50 ∧ c - b ≤ 10 + 1 / 2 ^ 50)
      ∧ threeKillsWithin (20 + 1 / 2 ^ 49)
          (killTimes "P"
            [kill "P" "X" (5404319552844595 / 18014398509481984),
              kill "P" "Y" (2899192260119757 / 281474976710656),
              kill "P" "Z" (5713942027226317 / 281474976710656)]) = true)
      ∧ (2899192260119757 / 281474976710656 : ℚ) - 5404319552844595 / 18014398509481984 > 10
      ∧ (5713942027226317 / 281474976710656 : ℚ) - 5404319552844595 / 18014398509481984
          > 20 :=
  ⟨triple_kill_has_chain_of_three
    [kill "P" "X" (5404319552844595 / 18014398509481984),
      kill "P" "Y" (2899192260119757 / 281474976710656),
      kill "P" "Z" (5713942027226317 / 281474976710656)]
    [⟨"P", 0⟩, ⟨"X", 1⟩] [] "P"
    { Username := "P", EntryKill := true, DoubleKills := 1, TripleKills := 1 }
    (by decide!) (by decide!) (by decide),
   by decide!, by decide!⟩

/-- C26 as stated fails for a streak that is longer than its window: the
kills of P at 0, 10 and 20 carry non-decreasing times and form one streak of
three (both gaps are exactly 10.0 s), so `tripleKills[P] = 1`, but P has no
three Kill events whose earliest and latest times differ by at most 10.0 s:
P has three kills, and the latest is 20.0 s after the earliest. -/
theorem triple_kill_spans_twenty_seconds :
    killTimesOrdered [kill "P" "X" 0, kill "P" "Y" 10, kill "P" "Z" 20]
      ∧ "P" ∈ rosterNames [⟨"P", 0⟩, ⟨"X", 1⟩]
      ∧ (calculateAdvancedStats [kill "P" "X" 0, kill "P" "Y" 10, kill "P" "Z" 20]
          [⟨"P", 0⟩, ⟨"X", 1⟩] [] "P").map (·.TripleKills) = some 1
      ∧ killTimes "P" [kill "P" "X" 0, kill "P" "Y" 10, kill "P" "Z" 20] = [0, 10, 20]
      ∧ threeKillsWithin 10 (killTimes "P" [kill "P" "X" 0, kill "P" "Y" 10, kill "P" "Z" 20])
          = false
      ∧ f64Sub 20 0 = 20 := by
  decide!

theorem streaksOfLength_mono (k m : Nat) (hkm : k ≤ m) (timestamps : List ℚ) :
    streaksOfLength m timestamps ≤ streaksOfLength k timestamps := by
  unfold streaksOfLength
  apply List.countP_mono_left
  intro str _ h
  have := of_decide_eq_true h
  exact decide_eq_true (by omega)

theorem mul_countP_length_le (k : Nat) (L : List (List ℚ)) :
    k * L.countP (fun s => decide (k ≤ s.length)) ≤ L.flatten.length := by
  induction L with
  | nil => simp
  | cons str rest ih =>
    rw [List.flatten_cons, List.length_append, List.countP_cons]
    by_cases h : k ≤ str.length
    · rw [if_pos (decide_eq_true h), Nat.mul_add, Nat.mul_one]
      omega
    · rw [if_neg (by simpa using h), Nat.add_zero]
      omega

theorem mul_streaksOfLength_le (k : Nat) (timestamps : List ℚ) :
    k * streaksOfLength k timestamps ≤ timestamps.length := by
  have h := mul_countP_length_le k (streaks timestamps)
  rw [streaks_flatten] at h
  exact h

/-- C27: for every input and every participant `P` in the result,
`doubleKills[P] ≥ tripleKills[P] ≥ quadKills[P] ≥ 0`. -/
theorem multiKill_tallies_descend (events : List MatchUpdate) (players : List Player)
    (baseStats : List PlayerRoundStats) (P : String) (s : advancedPlayerStats)
    (hs : calculateAdvancedStats events players baseStats P = some s) :
    s.DoubleKills ≥ s.TripleKills ∧ s.TripleKills ≥ s.QuadKills ∧ s.QuadKills ≥ 0 := by
  obtain ⟨_, h2, h3, h4⟩ := result_tallies events players baseStats P s hs
  have h32 := streaksOfLength_mono 2 3 (by decide) (killTimes P events)
  have h43 := streaksOfLength_mono 3 4 (by decide) (killTimes P events)
  rw [h2, h3, h4]
  refine ⟨?_, ?_, ?_⟩
  · exact_mod_cast h32
  · exact_mod_cast h43
  · exact_mod_cast Nat.zero_le _

/-- C27 at the kills of P at 0, 3, 6, 9 (one streak of four) and 30, 35 (one
streak of two): `doubleKills = 2`, `tripleKills = 1`, `quadKills = 1`. -/
theorem multiKill_tallies_descend_witness :
    calculateAdvancedStats
        [kill "P" "X" 0, kill "P" "Y" 3, kill "P" "Z" 6, kill "P" "V" 9, kill "P" "W" 30,
          kill "P" "U" 35]
        [⟨"P", 0⟩, ⟨"X", 1⟩] [] "P"
        = some { Username := "P", EntryKill := true, DoubleKills := 2, TripleKills := 1,
                 QuadKills := 1, Ace := true }
      ∧ ((2 : Int) ≥ 1 ∧ (1 : Int) ≥ 1 ∧ (1 : Int) ≥ 0) :=
  ⟨by decide!,
   multiKill_tallies_descend
    [kill "P" "X" 0, kill "P" "Y" 3, kill "P" "Z" 6, kill "P" "V" 9, kill "P" "W" 30,
      kill "P" "U" 35]
    [⟨"P", 0⟩, ⟨"X", 1⟩] [] "P"
    { Username := "P", EntryKill := true, DoubleKills := 2, TripleKills := 1, QuadKills := 1,
      Ace := true }
    (by decide!)⟩

/-- C28: for every input and every roster participant `P` who is the killer
in `n` Kill events, `2 * doubleKills[P] ≤ n`, `3 * tripleKills[P] ≤ n` and
`4 * quadKills[P] ≤ n`: the tallies count streaks of at least 2, 3 and 4 kills,
and the streaks are disjoint segments that make up the kill timeline of `P`,
which has `n` entries. -/
theorem multiKill_tallies_bounded_by_kills (events : List MatchUpdate) (players : List Player)
    (baseStats : List PlayerRoundStats) (P : String) (hP : P ∈ rosterNames players) :
    ∃ s, calculateAdvancedStats events players baseStats P = some s
      ∧ 2 * s.DoubleKills ≤ (killsBy P events : Nat)
      ∧ 3 * s.TripleKills ≤ (killsBy P events : Nat)
      ∧ 4 * s.QuadKills ≤ (killsBy P events : Nat)
      ∧ s.DoubleKills = (streaksOfLength 2 (killTimes P events) : Nat)
      ∧ s.TripleKills = (streaksOfLength 3 (killTimes P events) : Nat)
      ∧ s.QuadKills = (streaksOfLength 4 (killTimes P events) : Nat)
      ∧ (streaks (killTimes P events)).flatten = killTimes P events
      ∧ (killTimes P events).length = killsBy P events := by
  obtain ⟨s0, _, _, _, hs⟩ := result_entry events players baseStats P hP
  obtain ⟨_, h2, h3, h4⟩ := result_tallies events players baseStats P _ hs
  have b2 := mul_streaksOfLength_le 2 (killTimes P events)
  have b3 := mul_streaksOfLength_le 3 (killTimes P events)
  have b4 := mul_streaksOfLength_le 4 (killTimes P events)
  rw [killTimes_length] at b2 b3 b4
  refine ⟨_, hs, ?_, ?_, ?_, h2, h3, h4, streaks_flatten _, killTimes_length P events⟩
  · rw [h2]; exact_mod_cast b2
  · rw [h3]; exact_mod_cast b3
  · rw [h4]; exact_mod_cast b4

/-- C28 at the four kills of P at 0, 3, 6, 9: `doubleKills`, `tripleKills`
and `quadKills` are 1 and `n = 4`. -/
theorem multiKill_tallies_bounded_by_kills_witness :
    ∃ s, calculateAdvancedStats
          [kill "P" "X" 0, kill "P" "Y" 3, kill "P" "Z" 6, kill "P" "V" 9]
          [⟨"P", 0⟩, ⟨"X", 1⟩] [] "P" = some s
      ∧ 2 * s.DoubleKills ≤ 4 ∧ 3 * s.TripleKills ≤ 4 ∧ 4 * s.QuadKills ≤ 4 := by
  obtain ⟨s, hs, h2, h3, h4, _⟩ := multiKill_tallies_bounded_by_kills
    [kill "P" "X" 0, kill "P" "Y" 3, kill "P" "Z" 6, kill "P" "V" 9]
    [⟨"P", 0⟩, ⟨"X", 1⟩] [] "P" (by decide)
  exact ⟨s, hs, h2, h3, h4⟩

/-! ## Clutch wins, attempts and kills -/

theorem loopInvariant_winsMatchFlag : LoopInvariant winsMatchFlag where
  init := fun u => ⟨le_refl _, le_refl _, by simp⟩
  tradeKills := fun _ h => h
  tradeDeaths := fun _ h => h
  clutch := fun n s h => by
    have hv := clutchView_clutchUpdate n s
    simp only [clutchView, clutchStep, Prod.mk.injEq] at hv
    unfold winsMatchFlag at h ⊢
    rw [hv.1, hv.2.1, hv.2.2.1]
    obtain ⟨h0, h1, h2⟩ := h
    by_cases hn : n = 1
    · simp only [hn, if_true, decide_True, Bool.or_true, true_iff]
      exact ⟨by omega, by omega, by omega⟩
    · simp only [hn, if_false, decide_False, Bool.or_false, add_zero]
      exact ⟨h0, by omega, h2⟩
  plants := fun _ h => h
  defuses := fun _ h => h
  pickups := fun _ h => h

theorem eventLoop_attemptsWithinKills (players : List Player) (events : List MatchUpdate) :
    AttemptsWithinKills (eventLoop players events) := by
  induction events using List.reverseRecOn with
  | nil =>
    intro u s hs
    rw [eventLoop_nil, initState_stats] at hs
    by_cases hu : u ∈ rosterNames players
    · rw [if_pos hu] at hs
      rw [← Option.some.inj hs]
      exact le_refl _
    · rw [if_neg hu] at hs
      exact Option.noConfusion hs
  | append_singleton es e ih =>
    intro u s hs
    rw [eventLoop_snoc] at hs ⊢
    by_cases hk : e.TypeString = "Kill"
    · rw [processEvent_of_kill _ _ _ hk] at hs ⊢
      have hv := processKill_clutchView players (eventLoop players es) e u
      rw [hs] at hv
      have hkc : (processKill players (eventLoop players es) e).killCounts u
          = if u = e.Username then (eventLoop players es).killCounts u + 1
            else (eventLoop players es).killCounts u := rfl
      rw [hkc]
      split_ifs at hv with hcond
      · rw [if_pos hcond.1]
        cases hs1 : (eventLoop players es).stats u with
        | none =>
          rw [hs1] at hv
          exact Option.noConfusion hv
        | some s1 =>
          rw [hs1] at hv
          have hle := ih u s1 hs1
          simp only [Option.map_some', Option.some.injEq] at hv
          have ha : s.ClutchAttempts = s1.ClutchAttempts + 1 :=
            congrArg (fun v => v.1) hv
          omega
      · obtain ⟨s1, hs1, hv1⟩ := exists_of_map_eq_some hv.symm
        have hle := ih u s1 hs1
        have ha : s.ClutchAttempts = s1.ClutchAttempts := by
          have h1 : (clutchView s).1 = (clutchView s1).1 := by rw [hv1]
          exact h1
        split_ifs <;> omega
    · obtain ⟨_, hkc, _, _⟩ := processEvent_of_ne_kill players (eventLoop players es) e hk
      rw [hkc]
      have hv := processEvent_of_ne_kill_stats objectiveFrame_clutchView players
        (eventLoop players es) e hk u
      rw [hs] at hv
      obtain ⟨s1, hs1, hv1⟩ := exists_of_map_eq_some hv.symm
      have hle := ih u s1 hs1
      have ha : s.ClutchAttempts = s1.ClutchAttempts := by
        have h1 : (clutchView s).1 = (clutchView s1).1 := by rw [hv1]
        exact h1
      omega

/-- C29: for every input and every roster participant `P`,
`clutchWins[P] ≤ clutchAttempts[P] ≤` the number of Kill events whose killer
is `P`, and `clutch1v1[P]` is true if and only if `clutchWins[P] ≥ 1`. -/
theorem clutch_wins_le_attempts_le_kills (events : List MatchUpdate) (players : List Player)
    (baseStats : List PlayerRoundStats) (P : String) (hP : P ∈ rosterNames players) :
    ∃ s, calculateAdvancedStats events players baseStats P = some s
      ∧ s.ClutchWins ≤ s.ClutchAttempts
      ∧ s.ClutchAttempts ≤ (killsBy P events : Nat)
      ∧ (s.Clutch1v1 = true ↔ s.ClutchWins ≥ 1) := by
  obtain ⟨s0, hs0⟩ := eventLoop_stats_isSome players events P hP
  have hv := result_clutchView events players baseStats P
  rw [hs0] at hv
  obtain ⟨s, hs, hview⟩ := exists_of_map_eq_some hv
  have hQ := eventLoop_all loopInvariant_winsMatchFlag players events P s0 hs0
  have hA := eventLoop_attemptsWithinKills players events P s0 hs0
  rw [eventLoop_killCounts, killTimes_length] at hA
  simp only [clutchView, Prod.mk.injEq] at hview
  obtain ⟨ha, hw, h1, _⟩ := hview
  unfold winsMatchFlag at hQ
  refine ⟨s, hs, ?_, ?_, ?_⟩
  · rw [ha, hw]; exact hQ.2.1
  · rw [ha]; exact hA
  · rw [h1, hw]; exact hQ.2.2

/-- C29 at team 0 = {K}, team 1 = {Y, Z} and the kills of Y and Z by K: one
win, one attempt, two kills. -/
theorem clutch_wins_le_attempts_le_kills_witness :
    ∃ s, calculateAdvancedStats [kill "K" "Y" 1, kill "K" "Z" 2]
          [⟨"K", 0⟩, ⟨"Y", 1⟩, ⟨"Z", 1⟩] [] "K" = some s
      ∧ s.ClutchWins ≤ s.ClutchAttempts ∧ s.ClutchAttempts ≤ 2
      ∧ (s.Clutch1v1 = true ↔ s.ClutchWins ≥ 1) :=
  clutch_wins_le_attempts_le_kills [kill "K" "Y" 1, kill "K" "Z" 2]
    [⟨"K", 0⟩, ⟨"Y", 1⟩, ⟨"Z", 1⟩] [] "K" (by decide)

/-! ## Trade kills and trade deaths in total -/

theorem fieldTotal_congr (f : advancedPlayerStats → Int) (keys : List String)
    {stats stats2 : StatsMap} (h : ∀ u, (stats u).map f = (stats2 u).map f) :
    fieldTotal f keys stats = fieldTotal f keys stats2 := by
  unfold fieldTotal
  congr 1
  apply List.map_congr_left
  intro u _
  have hu := h u
  cases h1 : stats u with
  | none =>
    cases h2 : stats2 u with
    | none => rfl
    | some b => rw [h1, h2] at hu; simp at hu
  | some a =>
    cases h2 : stats2 u with
    | none => rw [h1, h2] at hu; simp at hu
    | some b =>
      rw [h1, h2] at hu
      simpa using hu

theorem fieldTotal_updateStat_count (f : advancedPlayerStats → Int)
    (g : advancedPlayerStats → advancedPlayerStats) (hg : ∀ s, f (g s) = f s + 1)
    (stats : StatsMap) (k : String) (s0 : advancedPlayerStats) (hk : stats k = some s0) :
    ∀ keys : List String,
      fieldTotal f keys (updateStat stats k g) = fieldTotal f keys stats + (keys.count k : Nat) := by
  intro keys
  induction keys with
  | nil => simp [fieldTotal]
  | cons a rest ih =>
    unfold fieldTotal at ih ⊢
    rw [List.map_cons, List.sum_cons, List.map_cons, List.sum_cons, ih, updateStat_apply,
      List.count_cons]
    by_cases ha : a = k
    · subst ha
      rw [if_pos rfl, hk]
      simp only [Option.map_some', hg, beq_self_eq_true, if_true]
      push_cast
      ring
    · rw [if_neg ha, if_neg (by simpa using ha)]
      push_cast
      ring

theorem fieldTotal_updateStat_inc (f : advancedPlayerStats → Int)
    (g : advancedPlayerStats → advancedPlayerStats) (hg : ∀ s, f (g s) = f s + 1)
    (stats : StatsMap) (k : String) (keys : List String) (hnodup : keys.Nodup)
    (hk : k ∈ keys) (hpresent : AllPresent keys stats) :
    fieldTotal f keys (updateStat stats k g) = fieldTotal f keys stats + 1 := by
  obtain ⟨s0, hs0⟩ := hpresent k hk
  rw [fieldTotal_updateStat_count f g hg stats k s0 hs0 keys,
    List.count_eq_one_of_mem hnodup hk]
  rfl

theorem allPresent_updateStat (keys : List String) (stats : StatsMap) (k : String)
    (g : advancedPlayerStats → advancedPlayerStats) (h : AllPresent keys stats) :
    AllPresent keys (updateStat stats k g) := by
  intro u hu
  obtain ⟨s, hs⟩ := h u hu
  rw [updateStat_apply, hs]
  by_cases huk : u = k
  · rw [if_pos huk]; exact ⟨g s, rfl⟩
  · rw [if_neg huk]; exact ⟨s, rfl⟩

theorem tradeHit_totals (keys : List String) (hnodup : keys.Nodup) (killer victim : String)
    (hkiller : killer ∈ keys) (hvictim : victim ∈ keys) (stats : StatsMap)
    (hpresent : AllPresent keys stats) :
    AllPresent keys (tradeHit killer victim stats)
      ∧ fieldTotal (·.TradeKills) keys (tradeHit killer victim stats)
          = fieldTotal (·.TradeKills) keys stats + 1
      ∧ fieldTotal (·.TradeDeaths) keys (tradeHit killer victim stats)
          = fieldTotal (·.TradeDeaths) keys stats + 1 := by
  unfold tradeHit
  have hp1 := allPresent_updateStat keys stats killer incTradeKills hpresent
  refine ⟨allPresent_updateStat keys _ victim incTradeDeaths hp1, ?_, ?_⟩
  · rw [fieldTotal_congr (·.TradeKills) keys
        (fun u => updateStat_frame frame_tradeKills_incTradeDeaths _ victim u),
      fieldTotal_updateStat_inc (·.TradeKills) incTradeKills (fun _ => rfl) stats killer keys
        hnodup hkiller hpresent]
  · rw [fieldTotal_updateStat_inc (·.TradeDeaths) incTradeDeaths (fun _ => rfl) _ victim keys
        hnodup hvictim hp1,
      fieldTotal_congr (·.TradeDeaths) keys
        (fun u => updateStat_frame frame_tradeDeaths_incTradeKills _ killer u)]

theorem tradeHit_iterate_totals (keys : List String) (hnodup : keys.Nodup)
    (killer victim : String) (hkiller : killer ∈ keys) (hvictim : victim ∈ keys)
    (stats : StatsMap) (hpresent : AllPresent keys stats) :
    ∀ m : Nat,
      AllPresent keys ((tradeHit killer victim)^[m] stats)
        ∧ fieldTotal (·.TradeKills) keys ((tradeHit killer victim)^[m] stats)
            = fieldTotal (·.TradeKills) keys stats + (m : Nat)
        ∧ fieldTotal (·.TradeDeaths) keys ((tradeHit killer victim)^[m] stats)
            = fieldTotal (·.TradeDeaths) keys stats + (m : Nat) := by
  intro m
  induction m with
  | zero => exact ⟨hpresent, by simp, by simp⟩
  | succ m ih =>
    rw [Function.iterate_succ_apply']
    obtain ⟨hp, hk, hd⟩ := ih
    obtain ⟨hp2, hk2, hd2⟩ := tradeHit_totals keys hnodup killer victim hkiller hvictim _ hp
    refine ⟨hp2, ?_, ?_⟩
    · rw [hk2, hk]; push_cast; ring
    · rw [hd2, hd]; push_cast; ring

theorem processKill_totals (players : List Player) (st : loopState) (e : MatchUpdate)
    (hkiller : e.Username ∈ statsKeys players) (hvictim : e.Target ∈ statsKeys players)
    (hpresent : AllPresent (statsKeys players) st.stats) :
    ∃ m : Nat,
      fieldTotal (·.TradeKills) (statsKeys players) (processKill players st e).stats
          = fieldTotal (·.TradeKills) (statsKeys players) st.stats + m
        ∧ fieldTotal (·.TradeDeaths) (statsKeys players) (processKill players st e).stats
          = fieldTotal (·.TradeDeaths) (statsKeys players) st.stats + m := by
  have hnodup : (statsKeys players).Nodup := List.nodup_dedup _
  unfold processKill
  dsimp only
  rw [fieldTotal_congr (·.TradeKills) (statsKeys players)
      (fun u => clutchCheck_frame clutchFrame_tradeKills players _ e.Username _ u),
    fieldTotal_congr (·.TradeDeaths) (statsKeys players)
      (fun u => clutchCheck_frame clutchFrame_tradeDeaths players _ e.Username _ u),
    tradeLoop_eq e.Username e.Target e.TimeInSeconds st.recentDeaths st.recentDeaths.length
      (Nat.le_refl _) st.stats]
  dsimp only
  obtain ⟨_, hk, hd⟩ := tradeHit_iterate_totals (statsKeys players) hnodup e.Username e.Target
    hkiller hvictim st.stats hpresent
    (tradeHits e.Username e.Target
      (tradeWindow e.TimeInSeconds st.recentDeaths st.recentDeaths.length))
  exact ⟨_, hk, hd⟩

theorem eventLoop_allPresent (players : List Player) (events : List MatchUpdate) :
    AllPresent (statsKeys players) (eventLoop players events).stats := by
  intro u hu
  unfold statsKeys at hu
  rw [List.mem_dedup] at hu
  exact eventLoop_stats_isSome players events u hu

theorem eventLoop_trade_totals (players : List Player) (events : List MatchUpdate)
    (h : ∀ e ∈ events, e.TypeString = "Kill" →
      e.Username ∈ rosterNames players ∧ e.Target ∈ rosterNames players) :
    fieldTotal (·.TradeKills) (statsKeys players) (eventLoop players events).stats
      = fieldTotal (·.TradeDeaths) (statsKeys players) (eventLoop players events).stats := by
  induction events using List.reverseRecOn with
  | nil =>
    rw [eventLoop_nil]
    unfold fieldTotal
    congr 1
    apply List.map_congr_left
    intro u _
    rw [initState_stats]
    split_ifs <;> rfl
  | append_singleton es e ih =>
    have ih2 := ih (fun a ha => h a (List.mem_append_left _ ha))
    rw [eventLoop_snoc]
    by_cases hk : e.TypeString = "Kill"
    · obtain ⟨hu, ht⟩ := h e (List.mem_append_right _ (List.mem_singleton_self e)) hk
      rw [processEvent_of_kill _ _ _ hk]
      obtain ⟨m, h1, h2⟩ := processKill_totals players (eventLoop players es) e
        (by unfold statsKeys; exact List.mem_dedup.mpr hu)
        (by unfold statsKeys; exact List.mem_dedup.mpr ht)
        (eventLoop_allPresent players es)
      rw [h1, h2, ih2]
    · rw [fieldTotal_congr (·.TradeKills) (statsKeys players)
          (fun u => processEvent_of_ne_kill_stats objectiveFrame_tradeKills players _ e hk u),
        fieldTotal_congr (·.TradeDeaths) (statsKeys players)
          (fun u => processEvent_of_ne_kill_stats objectiveFrame_tradeDeaths players _ e hk u)]
      exact ih2

/-- C30: for every input in which the killer and the victim of every Kill
event are roster participants, the sum of `tradeKills` over all participants
of the result equals the sum of `tradeDeaths` over all participants. -/
theorem trade_kills_total_eq_trade_deaths_total (events : List MatchUpdate)
    (players : List Player) (baseStats : List PlayerRoundStats)
    (h : ∀ e ∈ events, e.TypeString = "Kill" →
      e.Username ∈ rosterNames players ∧ e.Target ∈ rosterNames players) :
    fieldTotal (·.TradeKills) (statsKeys players)
        (calculateAdvancedStats events players baseStats)
      = fieldTotal (·.TradeDeaths) (statsKeys players)
        (calculateAdvancedStats events players baseStats) := by
  rw [fieldTotal_congr (·.TradeKills) (statsKeys players)
      (fun u => result_eq_eventLoop postFrame_tradeKills multiFrame_tradeKills events players
        baseStats u),
    fieldTotal_congr (·.TradeDeaths) (statsKeys players)
      (fun u => result_eq_eventLoop postFrame_tradeDeaths multiFrame_tradeDeaths events players
        baseStats u)]
  exact eventLoop_trade_totals players events h

/-- C30 applied to team 0 = {A, B}, team 1 = {X} and the events `Kill(X,A,1)`,
`Kill(B,X,2)`: one trade kill (of B) and one trade death (of X) in total. -/
theorem trade_kills_total_eq_trade_deaths_total_witness :
    fieldTotal (·.TradeKills) (statsKeys [⟨"A", 0⟩, ⟨"B", 0⟩, ⟨"X", 1⟩])
        (calculateAdvancedStats [kill "X" "A" 1, kill "B" "X" 2]
          [⟨"A", 0⟩, ⟨"B", 0⟩, ⟨"X", 1⟩] [])
        = fieldTotal (·.TradeDeaths) (statsKeys [⟨"A", 0⟩, ⟨"B", 0⟩, ⟨"X", 1⟩])
          (calculateAdvancedStats [kill "X" "A" 1, kill "B" "X" 2]
            [⟨"A", 0⟩, ⟨"B", 0⟩, ⟨"X", 1⟩] [])
      ∧ fieldTotal (·.TradeKills) (statsKeys [⟨"A", 0⟩, ⟨"B", 0⟩, ⟨"X", 1⟩])
        (calculateAdvancedStats [kill "X" "A" 1, kill "B" "X" 2]
          [⟨"A", 0⟩, ⟨"B", 0⟩, ⟨"X", 1⟩] []) = 1 :=
  ⟨trade_kills_total_eq_trade_deaths_total [kill "X" "A" 1, kill "B" "X" 2]
      [⟨"A", 0⟩, ⟨"B", 0⟩, ⟨"X", 1⟩] [] (by decide),
   by decide!⟩

/-- The hypothesis of C30 at work: when the trading killer B is not in the
roster, the trade death of X is counted and the trade kill is not. -/
theorem trade_totals_outsider_example :
    fieldTotal (·.TradeKills) (statsKeys [⟨"A", 0⟩, ⟨"X", 1⟩])
        (calculateAdvancedStats [kill "X" "A" 1, kill "B" "X" 2] [⟨"A", 0⟩, ⟨"X", 1⟩] []) = 0
      ∧ fieldTotal (·.TradeDeaths) (statsKeys [⟨"A", 0⟩, ⟨"X", 1⟩])
        (calculateAdvancedStats [kill "X" "A" 1, kill "B" "X" 2] [⟨"A", 0⟩, ⟨"X", 1⟩] [])
          = 1 := by
  decide!

end SiegeScope
